import Mathlib

set_option maxHeartbeats 1000000

/- Shallow embedding of the red-black tree engine in src/include/red-black-tree.hpp
   and of the ordered-map facade in src/include/map.hpp, instantiated at
   Key = Int, T = Int, Compare = std::less<Int> (the instantiation exercised by
   src/src/test.cpp).

   Memory model: every node lives in an arena (a list of cells); a C++ `Node*`
   is an index into the arena, a null pointer is `none`.  A `unique_ptr` link
   slot (the root slot, or the left/right field of a node) holds an optional
   index; `std::move` between slots is modelled by reading the source slot,
   nulling it, and writing the destination.  Destruction of a node caused by
   reassigning the unique_ptr that owned it is modelled by the unlinking alone:
   the cell stays in the arena.  This coincides with the observable behaviour
   of the program as long as released storage is not handed out again by a
   later allocation, which holds in every run analysed in this file (no
   insertion ever follows a deletion).  A self move-assignment of a slot is a
   no-op on the slot, matching libstdc++'s reset(release()). -/

inductive Color where
  | RED
  | BLACK
deriving DecidableEq

structure Node where
  key : Int
  val : Int
  color : Color
  left : Option Nat
  right : Option Nat
  parent : Option Nat
deriving DecidableEq

structure RBTree where
  nodes : List Node
  root : Option Nat
  node_count : Nat
deriving DecidableEq

def emptyTree : RBTree := ⟨[], none, 0⟩

def getN (t : RBTree) (i : Nat) : Option Node := t.nodes[i]?

def modifyNode (t : RBTree) (i : Nat) (f : Node → Node) : RBTree :=
  match t.nodes[i]? with
  | some n => { t with nodes := t.nodes.set i (f n) }
  | none => t

def setLeft (t : RBTree) (i : Nat) (v : Option Nat) : RBTree :=
  modifyNode t i fun n => { n with left := v }

def setRight (t : RBTree) (i : Nat) (v : Option Nat) : RBTree :=
  modifyNode t i fun n => { n with right := v }

def setParent (t : RBTree) (i : Nat) (v : Option Nat) : RBTree :=
  modifyNode t i fun n => { n with parent := v }

def setColor (t : RBTree) (i : Nat) (c : Color) : RBTree :=
  modifyNode t i fun n => { n with color := c }

/-- A reference to a unique_ptr link slot: the tree's root slot, or the
left/right field of the node at index `p`.  This is what the source's
`getLink` returns (a `std::unique_ptr<Node, NodeDeleter>*`). -/
inductive LinkRef where
  | rootSlot
  | leftOf (p : Nat)
  | rightOf (p : Nat)
deriving DecidableEq

/-- Source `getLink` (red-black-tree.hpp lines 82-90): the slot that currently
owns `x` - the root slot when `x` has no parent, otherwise the parent's left
slot when it points at `x`, else the parent's right slot. -/
def getLink (t : RBTree) (x : Nat) : LinkRef :=
  match getN t x with
  | none => LinkRef.rootSlot
  | some n =>
    match n.parent with
    | none => LinkRef.rootSlot
    | some p =>
      match getN t p with
      | none => LinkRef.rootSlot
      | some pn => if pn.left = some x then LinkRef.leftOf p else LinkRef.rightOf p

def readLink (t : RBTree) (l : LinkRef) : Option Nat :=
  match l with
  | LinkRef.rootSlot => t.root
  | LinkRef.leftOf p =>
    match getN t p with
    | some n => n.left
    | none => none
  | LinkRef.rightOf p =>
    match getN t p with
    | some n => n.right
    | none => none

def writeLink (t : RBTree) (l : LinkRef) (v : Option Nat) : RBTree :=
  match l with
  | LinkRef.rootSlot => { t with root := v }
  | LinkRef.leftOf p => setLeft t p v
  | LinkRef.rightOf p => setRight t p v

/-- `dst = std::move(src)` on unique_ptr slots: read the source slot, null it,
store the value into the destination.  When `src = dst` the net effect is a
no-op on the slot (libstdc++ implements move assignment as reset(release())). -/
def moveLink (t : RBTree) (src dst : LinkRef) : RBTree :=
  let v := readLink t src
  writeLink (writeLink t src none) dst v

/-- Source `leftRotate` (lines 92-106).  No-op guard when the pivot or its
right child is null. -/
def leftRotate (t : RBTree) (x? : Option Nat) : RBTree :=
  match x? with
  | none => t
  | some x =>
    match getN t x with
    | none => t
    | some xn =>
      match xn.right with
      | none => t
      | some y =>
        let xLink := getLink t x
        let t1 := setRight t x none
        match getN t1 y with
        | none => t
        | some yn =>
          let t2 := match yn.left with
                    | some b => setParent t1 b (some x)
                    | none => t1
          let t3 := moveLink t2 (LinkRef.leftOf y) (LinkRef.rightOf x)
          let t4 := match getN t3 x with
                    | some xn3 => setParent t3 y xn3.parent
                    | none => t3
          let v := readLink t4 xLink
          let t5 := writeLink (writeLink t4 xLink none) (LinkRef.leftOf y) v
          let t6 := match v with
                    | some c => setParent t5 c (some y)
                    | none => t5
          writeLink t6 xLink (some y)

/-- Source `rightRotate` (lines 108-122).  Mirror image of `leftRotate`. -/
def rightRotate (t : RBTree) (y? : Option Nat) : RBTree :=
  match y? with
  | none => t
  | some y =>
    match getN t y with
    | none => t
    | some yn =>
      match yn.left with
      | none => t
      | some x =>
        let yLink := getLink t y
        let t1 := setLeft t y none
        match getN t1 x with
        | none => t
        | some xn =>
          let t2 := match xn.right with
                    | some b => setParent t1 b (some y)
                    | none => t1
          let t3 := moveLink t2 (LinkRef.rightOf x) (LinkRef.leftOf y)
          let t4 := match getN t3 y with
                    | some yn3 => setParent t3 x yn3.parent
                    | none => t3
          let v := readLink t4 yLink
          let t5 := writeLink (writeLink t4 yLink none) (LinkRef.rightOf x) v
          let t6 := match v with
                    | some c => setParent t5 c (some x)
                    | none => t5
          writeLink t6 yLink (some x)

/-- `y && y->color == RED` for an optional node pointer. -/
def isRed (t : RBTree) (i? : Option Nat) : Bool :=
  match i? with
  | none => false
  | some i =>
    match getN t i with
    | none => false
    | some n => n.color == Color.RED

/-- `!n || n->color == BLACK` for an optional node pointer. -/
def isBlackOpt (t : RBTree) (i? : Option Nat) : Bool :=
  match i? with
  | none => true
  | some i =>
    match getN t i with
    | none => true
    | some n => n.color == Color.BLACK

/-- The epilogue of `fixInsert` (lines 174-175): `assert(root); root->color =
BLACK;`.  An empty tree would fail the source assertion; modelled as a no-op
(unreachable in the runs analysed here). -/
def setRootBlack (t : RBTree) : RBTree :=
  match t.root with
  | some r => setColor t r Color.BLACK
  | none => t

/-- Source `fixInsert` (lines 124-176), as a fuel recursion; one call of
`fixInsertGo` is one test of the while condition, with the full loop body
(both the left-parent branch, lines 128-148, and its mirror, lines 150-171)
inlined.  Every dereference the source performs on a pointer that could only
be null in a corrupted state falls back to exiting the loop (the source would
have undefined behaviour there; such states are never reached in the runs
analysed in this file). -/
def fixInsertGo : Nat → RBTree → Nat → RBTree
  | 0, t, _ => setRootBlack t
  | fuel + 1, t, z =>
    if t.root = some z then setRootBlack t
    else
      match getN t z with
      | none => setRootBlack t
      | some zn =>
        match zn.parent with
        | none => setRootBlack t
        | some p =>
          match getN t p with
          | none => setRootBlack t
          | some pn =>
            if pn.color = Color.RED then
              match pn.parent with
              | none => setRootBlack t
              | some g =>
                match getN t g with
                | none => setRootBlack t
                | some gn =>
                  if gn.left = some p then
                    if isRed t gn.right then
                      -- lines 131-136: red uncle, recolor and move up
                      match gn.right with
                      | some u =>
                        let ta := setColor t p Color.BLACK
                        let tb := setColor ta u Color.BLACK
                        let tc := setColor tb g Color.RED
                        fixInsertGo fuel tc g
                      | none => setRootBlack t
                    else
                      -- lines 140-147: black/absent uncle
                      let s : RBTree × Nat :=
                        if pn.right = some z then (leftRotate t (some p), p) else (t, z)
                      let t1 := s.1
                      let z1 := s.2
                      match getN t1 z1 with
                      | none => setRootBlack t1
                      | some zn1 =>
                        match zn1.parent with
                        | none => setRootBlack t1
                        | some p1 =>
                          let t2 := setColor t1 p1 Color.BLACK
                          match getN t2 p1 with
                          | none => setRootBlack t2
                          | some p1n =>
                            match p1n.parent with
                            | none => setRootBlack t2
                            | some g1 =>
                              let t3 := setColor t2 g1 Color.RED
                              let t4 := rightRotate t3 (some g1)
                              fixInsertGo fuel t4 z1
                  else
                    if isRed t gn.left then
                      -- lines 154-159: red uncle, recolor and move up
                      match gn.left with
                      | some u =>
                        let ta := setColor t p Color.BLACK
                        let tb := setColor ta u Color.BLACK
                        let tc := setColor tb g Color.RED
                        fixInsertGo fuel tc g
                      | none => setRootBlack t
                    else
                      -- lines 162-170: black/absent uncle, mirror image
                      let s : RBTree × Nat :=
                        if pn.left = some z then (rightRotate t (some p), p) else (t, z)
                      let t1 := s.1
                      let z1 := s.2
                      match getN t1 z1 with
                      | none => setRootBlack t1
                      | some zn1 =>
                        match zn1.parent with
                        | none => setRootBlack t1
                        | some p1 =>
                          let t2 := setColor t1 p1 Color.BLACK
                          match getN t2 p1 with
                          | none => setRootBlack t2
                          | some p1n =>
                            match p1n.parent with
                            | none => setRootBlack t2
                            | some g1 =>
                              let t3 := setColor t2 g1 Color.RED
                              let t4 := leftRotate t3 (some g1)
                              fixInsertGo fuel t4 z1
            else setRootBlack t

def fixInsert (t : RBTree) (z? : Option Nat) : RBTree :=
  match z? with
  | none => setRootBlack t
  | some z => fixInsertGo (t.nodes.length + 2) t z

/-- Source `transplant` (lines 178-184): replace `u`'s position, as seen from
`u`'s parent or from the root slot, by the contents of the slot `vslot`
(the source passes the unique_ptr `v` by reference). -/
def transplant (t : RBTree) (u : Nat) (vslot : LinkRef) : RBTree :=
  let uLink := getLink t u
  let t1 := match readLink t vslot, getN t u with
            | some vi, some un => setParent t vi un.parent
            | _, _ => t
  moveLink t1 vslot uLink

/-- Source `minimum` (lines 268-274): leftmost descent, null maps to null. -/
def minimum (t : RBTree) : Nat → Option Nat → Option Nat
  | 0, node? => node?
  | fuel + 1, node? =>
    match node? with
    | none => none
    | some i =>
      match getN t i with
      | none => some i
      | some n =>
        match n.left with
        | none => some i
        | some l => minimum t fuel (some l)

/-- Source `maximum` (lines 276-282): rightmost descent, null maps to null. -/
def maximum (t : RBTree) : Nat → Option Nat → Option Nat
  | 0, node? => node?
  | fuel + 1, node? =>
    match node? with
    | none => none
    | some i =>
      match getN t i with
      | none => some i
      | some n =>
        match n.right with
        | none => some i
        | some r => maximum t fuel (some r)

/-- The epilogue of `fixDelete` (lines 264-265): `if (x) x->color = BLACK;`
specialised to the non-null `x` the loop tracks. -/
def blacken (t : RBTree) (x : Nat) : RBTree := setColor t x Color.BLACK

/-- Source `fixDelete` (lines 186-266), as a fuel recursion; one call is one
test of the while condition with the full body (left branch lines 190-224 and
its mirror lines 226-260) inlined.  The function is only ever called with a
non-null `x` (deleteNode guards on `x`), and the loop only reassigns `x` to a
parent or to the root, so `x` stays a plain index.  Dereferences that the
source performs on possibly-null pointers (for example `w->left` when the
sibling `w` is null, line 200) would be undefined behaviour; they fall back to
exiting the loop and are never reached in the runs analysed here. -/
def fixDelete : Nat → RBTree → Nat → RBTree
  | 0, t, x => blacken t x
  | fuel + 1, t, x =>
    if t.root = some x then blacken t x
    else
      match getN t x with
      | none => blacken t x
      | some xn =>
        if xn.color = Color.RED then blacken t x
        else
          match xn.parent with
          | none => blacken t x
          | some p =>
            match getN t p with
            | none => blacken t x
            | some pn =>
              if pn.left = some x then
                -- lines 190-224: x is a left child
                let s : RBTree :=
                  if isRed t pn.right then
                    match pn.right with
                    | some w0 =>
                      let ta := setColor t w0 Color.BLACK
                      let tb := setColor ta p Color.RED
                      leftRotate tb (some p)
                    | none => t
                  else t
                let t1 := s
                -- w = x->parent->right.get(), re-read after the rotation
                match getN t1 x with
                | none => blacken t1 x
                | some xn1 =>
                  match xn1.parent with
                  | none => blacken t1 x
                  | some p1 =>
                    match getN t1 p1 with
                    | none => blacken t1 x
                    | some p1n =>
                      match p1n.right with
                      | none => blacken t1 x
                      | some w =>
                        match getN t1 w with
                        | none => blacken t1 x
                        | some wn =>
                          if isBlackOpt t1 wn.left && isBlackOpt t1 wn.right then
                            -- lines 200-205: both sibling children black
                            let t2 := setColor t1 w Color.RED
                            fixDelete fuel t2 p1
                          else
                            -- lines 206-223
                            let s2 : RBTree :=
                              if isBlackOpt t1 wn.right then
                                let ta := match wn.left with
                                          | some wl => setColor t1 wl Color.BLACK
                                          | none => t1
                                let tb := setColor ta w Color.RED
                                rightRotate tb (some w)
                              else t1
                            let t3 := s2
                            match getN t3 x with
                            | none => blacken t3 x
                            | some xn3 =>
                              match xn3.parent with
                              | none => blacken t3 x
                              | some p3 =>
                                match getN t3 p3 with
                                | none => blacken t3 x
                                | some p3n =>
                                  match p3n.right with
                                  | none => blacken t3 x
                                  | some w3 =>
                                    match getN t3 w3 with
                                    | none => blacken t3 x
                                    | some w3n =>
                                      let t4 := setColor t3 w3 p3n.color
                                      let t5 := setColor t4 p3 Color.BLACK
                                      let t6 := match w3n.right with
                                                | some wr => setColor t5 wr Color.BLACK
                                                | none => t5
                                      let t7 := leftRotate t6 (some p3)
                                      match t7.root with
                                      | some r => fixDelete fuel t7 r
                                      | none => blacken t7 x
              else
                -- lines 226-260: x is a right child, mirror image
                let s : RBTree :=
                  if isRed t pn.left then
                    match pn.left with
                    | some w0 =>
                      let ta := setColor t w0 Color.BLACK
                      let tb := setColor ta p Color.RED
                      rightRotate tb (some p)
                    | none => t
                  else t
                let t1 := s
                match getN t1 x with
                | none => blacken t1 x
                | some xn1 =>
                  match xn1.parent with
                  | none => blacken t1 x
                  | some p1 =>
                    match getN t1 p1 with
                    | none => blacken t1 x
                    | some p1n =>
                      match p1n.left with
                      | none => blacken t1 x
                      | some w =>
                        match getN t1 w with
                        | none => blacken t1 x
                        | some wn =>
                          if isBlackOpt t1 wn.right && isBlackOpt t1 wn.left then
                            let t2 := setColor t1 w Color.RED
                            fixDelete fuel t2 p1
                          else
                            let s2 : RBTree :=
                              if isBlackOpt t1 wn.left then
                                let ta := match wn.right with
                                          | some wr => setColor t1 wr Color.BLACK
                                          | none => t1
                                let tb := setColor ta w Color.RED
                                leftRotate tb (some w)
                              else t1
                            let t3 := s2
                            match getN t3 x with
                            | none => blacken t3 x
                            | some xn3 =>
                              match xn3.parent with
                              | none => blacken t3 x
                              | some p3 =>
                                match getN t3 p3 with
                                | none => blacken t3 x
                                | some p3n =>
                                  match p3n.left with
                                  | none => blacken t3 x
                                  | some w3 =>
                                    match getN t3 w3 with
                                    | none => blacken t3 x
                                    | some w3n =>
                                      let t4 := setColor t3 w3 p3n.color
                                      let t5 := setColor t4 p3 Color.BLACK
                                      let t6 := match w3n.left with
                                                | some wl => setColor t5 wl Color.BLACK
                                                | none => t5
                                      let t7 := rightRotate t6 (some p3)
                                      match t7.root with
                                      | some r => fixDelete fuel t7 r
                                      | none => blacken t7 x

/-- The final statements of `deleteNode` shared by all its branches via the
two-children path (lines 538-547): `transplant(z, *getLink(z))` - note this
passes the very slot that owns `z` itself, a self-move that leaves `z` in
place - then moving `z`'s left subtree under `y`, copying `z`'s color to `y`,
and running `fixDelete` only when the spliced color was BLACK and `x` is
non-null. -/
def deleteNodeTail (t : RBTree) (z y : Nat) (yColor : Color) (x : Option Nat) : RBTree :=
  let t1 := transplant t z (getLink t z)
  let t2 := moveLink t1 (LinkRef.leftOf z) (LinkRef.leftOf y)
  let t3 := match getN t2 y with
            | some yn2 =>
              match yn2.left with
              | some l => setParent t2 l (some y)
              | none => t2
            | none => t2
  let t4 := match getN t3 z with
            | some zn3 => setColor t3 y zn3.color
            | none => t3
  match yColor, x with
  | Color.BLACK, some xi => fixDelete (t4.nodes.length + 2) t4 xi
  | _, _ => t4

/-- Source `deleteNode` (lines 500-548). -/
def deleteNode (t : RBTree) (z : Nat) : RBTree :=
  match getN t z with
  | none => t
  | some zn =>
    if zn.left = none then
      -- lines 508-512: x = z->right.get(); transplant(z, z->right)
      let x := zn.right
      let t1 := transplant t z (LinkRef.rightOf z)
      match zn.color, x with
      | Color.BLACK, some xi => fixDelete (t1.nodes.length + 2) t1 xi
      | _, _ => t1
    else if zn.right = none then
      -- lines 513-517: x = z->left.get(); transplant(z, z->left)
      let x := zn.left
      let t1 := transplant t z (LinkRef.leftOf z)
      match zn.color, x with
      | Color.BLACK, some xi => fixDelete (t1.nodes.length + 2) t1 xi
      | _, _ => t1
    else
      -- lines 518-544: two children; y = minimum(z->right)
      match minimum t (t.nodes.length + 2) zn.right with
      | none => t
      | some y =>
        match getN t y with
        | none => t
        | some yn =>
          let yColor := yn.color
          let x := yn.right
          if yn.parent = some z then
            -- lines 523-527
            let t1 := match x with
                      | some xi => setParent t xi (some y)
                      | none => t
            deleteNodeTail t1 z y yColor x
          else
            -- lines 528-536: transplant(y, y->right); y->right = move(z->right)
            let t1 := match x with
                      | some xi => setParent t xi yn.parent
                      | none => t
            let t2 := transplant t1 y (LinkRef.rightOf y)
            let t3 := moveLink t2 (LinkRef.rightOf z) (LinkRef.rightOf y)
            let t4 := match getN t3 y with
                      | some yn3 =>
                        match yn3.right with
                        | some r => setParent t3 r (some y)
                        | none => t3
                      | none => t3
            deleteNodeTail t4 z y yColor x

/-- Source `find` (lines 367-384): standard comparator descent. -/
def findGo (t : RBTree) (k : Int) : Nat → Option Nat → Option Nat
  | 0, _ => none
  | fuel + 1, x? =>
    match x? with
    | none => none
    | some x =>
      match getN t x with
      | none => none
      | some xn =>
        if k < xn.key then findGo t k fuel xn.left
        else if xn.key < k then findGo t k fuel xn.right
        else some x

def find (t : RBTree) (k : Int) : Option Nat :=
  findGo t k (t.nodes.length + 2) t.root

def newNode (k v : Int) : Node := ⟨k, v, Color.RED, none, none, none⟩

/-- The BST descent of `insertNode` (lines 390-398): `while (x) { y = x;
x = comp(key, x->key) ? x->left : x->right; }`, returning the final `y`. -/
def insertPoint (t : RBTree) (k : Int) : Nat → Option Nat → Option Nat → Option Nat
  | 0, y?, _ => y?
  | fuel + 1, y?, x? =>
    match x? with
    | none => y?
    | some x =>
      match getN t x with
      | none => y?
      | some xn => insertPoint t k fuel (some x) (if k < xn.key then xn.left else xn.right)

/-- The body of `insertNode` (lines 386-411) after `createNode` has produced
the fresh cell at index `idx`: descend, attach, then `fixInsert` on the node
`find(val.first)` returns (the source re-finds the key rather than fixing up
the node it just linked), and finally `node_count++`. -/
def insertNodeRest (t0 : RBTree) (idx : Nat) (k : Int) : RBTree :=
  let y? := insertPoint t0 k (t0.nodes.length + 2) none t0.root
  let t1 := setParent t0 idx y?
  let t2 := match y? with
            | none => { t1 with root := some idx }
            | some yi =>
              match getN t1 yi with
              | none => t1
              | some yn =>
                if k < yn.key then setLeft t1 yi (some idx)
                else setRight t1 yi (some idx)
  let inserted := find t2 k
  let t3 := fixInsert t2 inserted
  { t3 with node_count := t3.node_count + 1 }

/-- Source `insertNode` (lines 386-411) on the success path of `createNode`
(lines 295-308): the new RED node is appended to the arena and linked in. -/
def insertNode (t : RBTree) (k v : Int) : RBTree :=
  insertNodeRest { t with nodes := t.nodes ++ [newNode k v] } t.nodes.length k

inductive InsErr where
  | allocationFailure
  | constructionFailure
deriving DecidableEq

inductive AllocOutcome where
  | ok
  | allocFail
  | ctorFail
deriving DecidableEq

/-- Source `createNode` (lines 295-308) with the allocator's outcome made
explicit.  `allocFail`: `node_alloc.allocate(1)` throws and the exception
propagates before anything is touched.  `ctorFail`: constructing the payload
throws after raw storage was obtained; the catch block deallocates that raw
storage and rethrows, so the arena holds a cell for the node only once
construction has succeeded.  On success the fresh cell's index is returned. -/
def createNodeE (mode : AllocOutcome) (t : RBTree) (k v : Int) :
    RBTree × Except InsErr Nat :=
  match mode with
  | AllocOutcome.allocFail => (t, Except.error InsErr.allocationFailure)
  | AllocOutcome.ctorFail => (t, Except.error InsErr.constructionFailure)
  | AllocOutcome.ok =>
    ({ t with nodes := t.nodes ++ [newNode k v] }, Except.ok t.nodes.length)

/-- `insertNode` with the allocation outcome threaded through: `createNode`
runs first (line 388), so an exception thrown there leaves the tree exactly
as it was; only on success does the rest of the insertion run. -/
def insertNodeE (mode : AllocOutcome) (t : RBTree) (k v : Int) :
    RBTree × Except InsErr Unit :=
  match createNodeE mode t k v with
  | (t0, Except.ok idx) => (insertNodeRest t0 idx k, Except.ok ())
  | (t0, Except.error e) => (t0, Except.error e)

/-- Source `removeNode` (lines 413-424).  The Bool component records whether
the "not found" diagnostic was printed to std::cerr; in that case the
function returns without touching the tree.  Otherwise `deleteNode` runs and
`node_count--`. -/
def removeNodeD (t : RBTree) (k : Int) : RBTree × Bool :=
  match find t k with
  | none => (t, true)
  | some z =>
    let t1 := deleteNode t z
    ({ t1 with node_count := t1.node_count - 1 }, false)

def removeNode (t : RBTree) (k : Int) : RBTree := (removeNodeD t k).1

def minNode (t : RBTree) : Option Nat := minimum t (t.nodes.length + 2) t.root

/-- Source `maxNode` (lines 430-436). -/
def maxNode (t : RBTree) : Option Nat :=
  match t.root with
  | none => none
  | some r => maximum t (t.nodes.length + 2) (some r)

/-- The ascent loop of `successor` (lines 445-451): `while (p && node ==
p->right.get()) { node = p; p = p->parent; } return p;`. -/
def succAscend (t : RBTree) : Nat → Nat → Option Nat → Option Nat
  | 0, _, p? => p?
  | fuel + 1, node, p? =>
    match p? with
    | none => none
    | some p =>
      match getN t p with
      | none => some p
      | some pn =>
        if pn.right = some node then succAscend t fuel p pn.parent
        else some p

/-- Source `successor` (lines 438-452): null maps to null; otherwise the
minimum of the right subtree when it exists, else the ascent. -/
def successor (t : RBTree) (node? : Option Nat) : Option Nat :=
  match node? with
  | none => none
  | some i =>
    match getN t i with
    | none => none
    | some n =>
      match n.right with
      | some r => minimum t (t.nodes.length + 2) (some r)
      | none => succAscend t (t.nodes.length + 2) i n.parent

/-- The ascent loop of `predecessor` (lines 461-465). -/
def predAscend (t : RBTree) : Nat → Nat → Option Nat → Option Nat
  | 0, _, p? => p?
  | fuel + 1, node, p? =>
    match p? with
    | none => none
    | some p =>
      match getN t p with
      | none => some p
      | some pn =>
        if pn.left = some node then predAscend t fuel p pn.parent
        else some p

/-- Source `predecessor` (lines 454-468). -/
def predecessor (t : RBTree) (node? : Option Nat) : Option Nat :=
  match node? with
  | none => none
  | some i =>
    match getN t i with
    | none => none
    | some n =>
      match n.left with
      | some l => maximum t (t.nodes.length + 2) (some l)
      | none => predAscend t (t.nodes.length + 2) i n.parent

/-- Source `validate` (lines 472-497): `validateHelper` with the shared
`pathBlackCount` cell threaded through (initially -1), including the
short-circuit of `&&` (the right subtree is not visited when the left one
fails). -/
def validateGo (t : RBTree) : Nat → Option Nat → Int → Int → Bool × Int
  | 0, _, _, pbc => (true, pbc)
  | fuel + 1, node?, bc, pbc =>
    match node? with
    | none =>
      if pbc = -1 then (true, bc)
      else if bc ≠ pbc then (false, pbc)
      else (true, pbc)
    | some i =>
      match getN t i with
      | none => (true, pbc)
      | some n =>
        if n.color = Color.BLACK then
          let r1 := validateGo t fuel n.left (bc + 1) pbc
          if r1.1 then validateGo t fuel n.right (bc + 1) r1.2 else (false, r1.2)
        else
          if isRed t n.parent then (false, pbc)
          else
            let r1 := validateGo t fuel n.left bc pbc
            if r1.1 then validateGo t fuel n.right bc r1.2 else (false, r1.2)

def validate (t : RBTree) : Bool :=
  (validateGo t (t.nodes.length + 2) t.root 0 (-1)).1

/-- Forward iteration of the facade (map.hpp lines 241-248 and 100-111):
start at `begin() = iterator(tree.minNode())` and step with
`node = successor(node)` until the null end sentinel, collecting keys. -/
def iterKeysGo (t : RBTree) : Nat → Option Nat → List Int
  | 0, _ => []
  | fuel + 1, cur? =>
    match cur? with
    | none => []
    | some i =>
      match getN t i with
      | none => []
      | some n => n.key :: iterKeysGo t fuel (successor t (some i))

def forwardKeys (t : RBTree) : List Int :=
  iterKeysGo t (t.nodes.length + 2) (minNode t)

/-- Reverse iteration of the facade (map.hpp lines 179-180, 250-251):
`rbegin() = std::reverse_iterator(end())`, `rend() =
std::reverse_iterator(begin())`.  A reverse_iterator holds `current` and
dereferences `*--tmp`, i.e. one `predecessor` step from `current`; advancing
does `--current`.  `none` means the loop dereferenced a null node (the
program crashes there). -/
def revIterGo (t : RBTree) (stop : Option Nat) : Nat → Option Nat → Option (List Int)
  | 0, _ => some []
  | fuel + 1, cur? =>
    if cur? = stop then some []
    else
      match predecessor t cur? with
      | none => none
      | some j =>
        match getN t j with
        | none => none
        | some n =>
          match revIterGo t stop fuel (some j) with
          | some rest => some (n.key :: rest)
          | none => none

def reverseKeys (t : RBTree) : Option (List Int) :=
  revIterGo t (minNode t) (t.nodes.length + 2) none

inductive MapErr where
  | notFound
deriving DecidableEq

/-- Facade `map::at` (map.hpp lines 281-294): find, throw
std::out_of_range("Key not found") when absent, else return the mapped
value. -/
def mapAt (m : RBTree) (k : Int) : Except MapErr Int :=
  match find m k with
  | none => Except.error MapErr.notFound
  | some i =>
    match getN m i with
    | none => Except.error MapErr.notFound
    | some n => Except.ok n.val

/-- Facade `map::insert` (map.hpp line 296): forwards unconditionally to the
engine's `insertNode`; there is no duplicate-key check on this path. -/
def mapInsert (m : RBTree) (k v : Int) : RBTree := insertNode m k v

/-- Facade `map::erase(key)` (map.hpp line 307): forwards to `removeNode`. -/
def mapErase (m : RBTree) (k : Int) : RBTree := removeNode m k

/-- Facade `map::extract` (map.hpp lines 368-377): find, throw when absent,
else copy the pair out, erase by key, return the pair. -/
def mapExtract (m : RBTree) (k : Int) : RBTree × Except MapErr (Int × Int) :=
  match find m k with
  | none => (m, Except.error MapErr.notFound)
  | some i =>
    match getN m i with
    | none => (m, Except.error MapErr.notFound)
    | some n => (mapErase m k, Except.ok (n.key, n.val))

/-- Facade `map::insert_or_assign` (map.hpp lines 340-348): overwrite the
mapped value in place when the key is present, otherwise insert. -/
def insert_or_assign (m : RBTree) (k v : Int) : RBTree :=
  match find m k with
  | some i => modifyNode m i (fun n => { n with val := v })
  | none => mapInsert m k v

/-- Structural in-order visit of the arena from a link, checking at every node
that its parent back-pointer equals the index of the node whose slot we came
through (`par`), and recording (index, key) pairs in order.  A successful
visit certifies that the link structure reachable from the starting slot is a
well-formed parent-linked tree up to sharing; `none` means a dangling index,
a broken back-pointer, or fuel exhaustion.  This is the well-formedness
witness used by the universally quantified theorems below. -/
def visitAux (t : RBTree) : Nat → Option Nat → Option Nat → Option (List (Nat × Int))
  | 0, _, j? =>
    match j? with
    | none => some []
    | some _ => none
  | fuel + 1, par, j? =>
    match j? with
    | none => some []
    | some i =>
      match getN t i with
      | none => none
      | some n =>
        if n.parent = par then
          match visitAux t fuel (some i) n.left, visitAux t fuel (some i) n.right with
          | some L, some R => some (L ++ [(i, n.key)] ++ R)
          | _, _ => none
        else none

/-- The map {1, 2, 3} built through the facade (values equal to keys). -/
def tEx123 : RBTree := mapInsert (mapInsert (mapInsert emptyTree 1 1) 2 2) 3 3

/-- The map {1, 2, 3, 4} built through the facade. -/
def tEx1234 : RBTree := mapInsert tEx123 4 4

/-- The singleton map {1 ↦ 10}. -/
def tEx1 : RBTree := mapInsert emptyTree 1 10

/-- The spec's own scenario (spec.md section 8): insert the keys
10, 20, 5, 15, 25, 1 in that order. -/
def tExSpec : RBTree :=
  mapInsert (mapInsert (mapInsert (mapInsert (mapInsert
    (mapInsert emptyTree 10 10) 20 20) 5 5) 15 15) 25 25) 1 1


/-- A right spine of length `n`: from `i`, `n` successive steps to the right
child, each with a consistent parent back-pointer, ending at a node `m` with
no right child.  This is the path `maximum` walks and `successor`'s ascent
retraces. -/
inductive RightSpineN (t : RBTree) : Nat → Nat → Nat → Prop where
  | base (i : Nat) (n : Node) : getN t i = some n → n.right = none → RightSpineN t 0 i i
  | step (i r m : Nat) (n rn : Node) (k : Nat) : getN t i = some n → n.right = some r →
      getN t r = some rn → rn.parent = some i → RightSpineN t k r m →
      RightSpineN t (k + 1) i m

/-- A left spine, the mirror: the path `minimum` walks and `predecessor`'s
ascent retraces. -/
inductive LeftSpineN (t : RBTree) : Nat → Nat → Nat → Prop where
  | base (i : Nat) (n : Node) : getN t i = some n → n.left = none → LeftSpineN t 0 i i
  | step (i l m : Nat) (n ln : Node) (k : Nat) : getN t i = some n → n.left = some l →
      getN t l = some ln → ln.parent = some i → LeftSpineN t k l m →
      LeftSpineN t (k + 1) i m

/-- C1: the claim says every insert/delete sequence from the empty tree keeps
all red-black invariants.  Counter-evaluation: insert 1, 2, 3, then delete 2
(a node with two children).  `deleteNode`'s two-children path calls
`transplant(z, *getLink(z))` - a self-transplant that never splices the
successor into `z`'s place - leaving key 2 at the root with key 1 inside its
right subtree: BST order is violated (the in-order key sequence is [2, 1, 3],
not strictly increasing) and the source's own `validate` reports unequal
black-heights. -/
theorem C1_invariants_broken_after_delete :
    validate (mapErase tEx123 2) = false ∧
    ¬ List.Pairwise (· < ·) (forwardKeys (mapErase tEx123 2)) := by
  constructor
  · decide
  · decide

/-- C2: the claim says `find` returns every inserted-and-not-deleted key and
reports deleted keys absent.  Counter-evaluation on the spec's own scenario:
insert 10, 20, 5, 15, 25, 1, then delete 10 (two children).  Afterwards
`find 5` - a key inserted and never deleted - returns null, while `find 10` -
the deleted key - still returns a node: the self-transplant in `deleteNode`
left the deleted root in place and detached both its subtrees. -/
theorem C2_find_wrong_after_delete :
    find (mapErase tExSpec 10) 5 = none ∧
    find (mapErase tExSpec 10) 10 = some 0 := by
  constructor
  · decide
  · decide

/-- C3: the claim says the delete-fixup runs whenever the spliced-out node was
BLACK, including when the replacement `x` is null.  The source instead guards
the call with `y_original_color == BLACK && x` (line 546) and so skips
`fixDelete` entirely when `x` is null.  Counter-evaluation: insert 1, 2, 3, 4
and delete 1 - a black leaf whose replacement is null.  No fixup runs and the
tree is left with unequal black-heights, which the source's own `validate`
reports. -/
theorem C3_null_x_fixup_skipped :
    validate (mapErase tEx1234 1) = false := by
  decide

/-- C7: the claim says tree size equals the node count of a full in-order
traversal.  Counter-evaluation: insert 1, 2, 3, then delete 2.  `node_count`
is decremented to 2, but the traversal that the facade's iterators perform
still visits 3 nodes, because the two-children delete never unlinked the
deleted node. -/
theorem C7_size_traversal_mismatch :
    (mapErase tEx123 2).node_count = 2 ∧
    (forwardKeys (mapErase tEx123 2)).length = 3 := by
  constructor
  · decide
  · decide

/-- C8: the claim says forward iteration yields strictly increasing keys and
reverse iteration the exact reverse.  Counter-evaluation: (a) after inserting
1, 2, 3 and deleting 2, forward iteration yields [2, 1, 3], not an increasing
sequence; (b) on any non-empty map - here the singleton {1 ↦ 10} - reverse
iteration dereferences a null node immediately, because `rbegin()` wraps the
null end sentinel and `predecessor(null)` returns null rather than the
maximum (`reverseKeys = none` models that crash). -/
theorem C8_iteration_broken :
    forwardKeys (mapErase tEx123 2) = [2, 1, 3] ∧
    reverseKeys tEx1 = none := by
  constructor
  · decide
  · decide

theorem list_set_self {α : Type} (l : List α) (i : Nat) (a : α)
    (h : l[i]? = some a) : l.set i a = l := by
  apply List.ext_getElem?
  intro j
  by_cases hj : i = j
  · subst hj
    rw [List.getElem?_set_self (List.getElem?_eq_some.mp h).1, h]
  · rw [List.getElem?_set_ne hj]

theorem modifyNode_node_count (t : RBTree) (i : Nat) (f : Node → Node) :
    (modifyNode t i f).node_count = t.node_count := by
  unfold modifyNode
  split <;> rfl

theorem modifyNode_root (t : RBTree) (i : Nat) (f : Node → Node) :
    (modifyNode t i f).root = t.root := by
  unfold modifyNode
  split <;> rfl

theorem modifyNode_map_key (t : RBTree) (i : Nat) (f : Node → Node)
    (hf : ∀ n, (f n).key = n.key) :
    (modifyNode t i f).nodes.map Node.key = t.nodes.map Node.key := by
  unfold modifyNode
  split
  case _ n h =>
    show (t.nodes.set i (f n)).map Node.key = t.nodes.map Node.key
    rw [List.map_set, hf]
    apply list_set_self
    rw [List.getElem?_map, h]
    rfl
  case _ => rfl

/-- C4 counterexample: inserting the key 1 twice through the facade's
`insert` is not resolved as update-or-no-op.  `map::insert` (map.hpp line
296) forwards unconditionally to the engine, so afterwards the map holds two
nodes carrying key 1 and its size has grown to 2. -/
theorem C4_counterexample :
    (mapInsert (mapInsert emptyTree 1 10) 1 20).node_count = 2 ∧
    forwardKeys (mapInsert (mapInsert emptyTree 1 10) 1 20) = [1, 1] := by
  constructor
  · decide
  · decide

/-- C4 amended: the facade's plain `insert` performs an unconditional engine
insertion, so inserting an already-present key adds a second node with that
key and grows the size (see the counterexample).  Update-or-no-op duplicate
resolution exists only on the facade's other entry points; in particular
`insert_or_assign` on a present key overwrites the mapped value in place,
leaving the node count, the key of every arena cell, and the root
unchanged. -/
theorem C4_insert_or_assign_updates_in_place (m : RBTree) (k v : Int) (i : Nat)
    (h : find m k = some i) :
    (insert_or_assign m k v).node_count = m.node_count ∧
    (insert_or_assign m k v).nodes.map Node.key = m.nodes.map Node.key ∧
    (insert_or_assign m k v).root = m.root := by
  unfold insert_or_assign
  rw [h]
  exact ⟨modifyNode_node_count .., ⟨modifyNode_map_key _ _ _ (fun n => rfl), modifyNode_root ..⟩⟩

/-- Witness for the C4 amended theorem at the singleton map {1 ↦ 10}. -/
theorem C4_insert_or_assign_updates_in_place_witness :
    find tEx1 1 = some 0 ∧
    ((insert_or_assign tEx1 1 99).node_count = tEx1.node_count ∧
     (insert_or_assign tEx1 1 99).nodes.map Node.key = tEx1.nodes.map Node.key ∧
     (insert_or_assign tEx1 1 99).root = tEx1.root) := by
  exact ⟨by decide, C4_insert_or_assign_updates_in_place tEx1 1 99 0 (by decide)⟩

/-- C5: for any key absent from the map, `at` and `extract` fail observably
with a NotFound error propagated to the caller (the facade throws
std::out_of_range), while `removeNode` - the engine call behind plain
`erase(key)` - only reports the absence on the diagnostic channel (std::cerr,
the Bool component) and returns the tree exactly unchanged: same arena, same
root, same node count, no abort. -/
theorem C5_absent_key_behaviour (t : RBTree) (k : Int) (h : find t k = none) :
    mapAt t k = Except.error MapErr.notFound ∧
    mapExtract t k = (t, Except.error MapErr.notFound) ∧
    removeNodeD t k = (t, true) := by
  unfold mapAt mapExtract removeNodeD
  rw [h]
  exact ⟨rfl, rfl, rfl⟩

/-- Witness for C5 at the map {1, 2, 3} and the absent key 100 (the spec's
own scenario key). -/
theorem C5_absent_key_behaviour_witness :
    find tEx123 100 = none ∧
    (mapAt tEx123 100 = Except.error MapErr.notFound ∧
     mapExtract tEx123 100 = (tEx123, Except.error MapErr.notFound) ∧
     removeNodeD tEx123 100 = (tEx123, true)) := by
  exact ⟨by decide, C5_absent_key_behaviour tEx123 100 (by decide)⟩

/-- C6: insertion is atomic on failure.  `createNode` runs before anything in
the tree is touched (insertNode line 388); if obtaining node storage fails
the exception propagates immediately, and if constructing the payload fails
after storage was obtained, the catch block releases the raw storage and
rethrows (createNode lines 302-305).  Either way the error reaches the caller
and the tree - arena, root and node count alike - is exactly the tree from
before the call. -/
theorem C6_insert_atomic_on_failure (t : RBTree) (k v : Int) :
    insertNodeE AllocOutcome.allocFail t k v =
      (t, Except.error InsErr.allocationFailure) ∧
    insertNodeE AllocOutcome.ctorFail t k v =
      (t, Except.error InsErr.constructionFailure) := by
  exact ⟨rfl, rfl⟩

theorem visitAux_succ_inv {t : RBTree} {f : Nat} {par : Option Nat} {i : Nat}
    {l : List (Nat × Int)} (h : visitAux t (f + 1) par (some i) = some l) :
    ∃ n L R, getN t i = some n ∧ n.parent = par ∧
      visitAux t f (some i) n.left = some L ∧
      visitAux t f (some i) n.right = some R ∧
      l = L ++ [(i, n.key)] ++ R := by
  have h' : (match getN t i with
      | none => none
      | some n =>
        if n.parent = par then
          match visitAux t f (some i) n.left, visitAux t f (some i) n.right with
          | some L, some R => some (L ++ [(i, n.key)] ++ R)
          | _, _ => none
        else none) = some l := h
  clear h
  split at h'
  · exact Option.noConfusion h'
  · rename_i n heq
    split at h'
    · rename_i hp
      split at h'
      · rename_i L R hL hR
        exact ⟨n, L, R, heq, hp, hL, hR, (Option.some.inj h').symm⟩
      · exact Option.noConfusion h'
    · exact Option.noConfusion h'

theorem visitAux_zero_some {t : RBTree} {par : Option Nat} {i : Nat}
    {l : List (Nat × Int)} (h : visitAux t 0 par (some i) = some l) : False := by
  simp [visitAux] at h

theorem visit_rightSpine (t : RBTree) :
    ∀ f par i l, visitAux t f par (some i) = some l →
      ∃ k m, k + 1 ≤ f ∧ RightSpineN t k i m := by
  intro f
  induction f with
  | zero => intro par i l h; exact absurd h (by simp [visitAux])
  | succ f ih =>
    intro par i l h
    obtain ⟨n, L, R, hg, hp, hL, hR, hl⟩ := visitAux_succ_inv h
    cases hnr : n.right with
    | none => exact ⟨0, i, by omega, RightSpineN.base i n hg hnr⟩
    | some r =>
      rw [hnr] at hR
      obtain ⟨k, m, hk, hs⟩ := ih (some i) r R hR
      cases f with
      | zero => exact absurd hR visitAux_zero_some
      | succ f' =>
        obtain ⟨rn, _, _, hgr, hpr, _⟩ := visitAux_succ_inv hR
        exact ⟨k + 1, m, by omega, RightSpineN.step i r m n rn k hg hnr hgr hpr hs⟩

theorem visit_leftSpine (t : RBTree) :
    ∀ f par i l, visitAux t f par (some i) = some l →
      ∃ k m, k + 1 ≤ f ∧ LeftSpineN t k i m := by
  intro f
  induction f with
  | zero => intro par i l h; exact absurd h (by simp [visitAux])
  | succ f ih =>
    intro par i l h
    obtain ⟨n, L, R, hg, hp, hL, hR, hl⟩ := visitAux_succ_inv h
    cases hnl : n.left with
    | none => exact ⟨0, i, by omega, LeftSpineN.base i n hg hnl⟩
    | some lc =>
      rw [hnl] at hL
      obtain ⟨k, m, hk, hs⟩ := ih (some i) lc L hL
      cases f with
      | zero => exact absurd hL visitAux_zero_some
      | succ f' =>
        obtain ⟨ln, _, _, hgl, hpl, _⟩ := visitAux_succ_inv hL
        exact ⟨k + 1, m, by omega, LeftSpineN.step i lc m n ln k hg hnl hgl hpl hs⟩

theorem rightSpine_maximum {t : RBTree} {k i m : Nat} (h : RightSpineN t k i m) :
    ∀ g, k < g → maximum t g (some i) = some m := by
  induction h with
  | base i n hg hnr =>
    intro g hgk
    cases g with
    | zero => omega
    | succ g' => simp [maximum, hg, hnr]
  | step i r m n rn k hg hnr hgr hpr hs ih =>
    intro g hgk
    cases g with
    | zero => omega
    | succ g' =>
      have : maximum t (g' + 1) (some i) = maximum t g' (some r) := by
        simp [maximum, hg, hnr]
      rw [this]
      exact ih g' (by omega)

theorem leftSpine_minimum {t : RBTree} {k i m : Nat} (h : LeftSpineN t k i m) :
    ∀ g, k < g → minimum t g (some i) = some m := by
  induction h with
  | base i n hg hnl =>
    intro g hgk
    cases g with
    | zero => omega
    | succ g' => simp [minimum, hg, hnl]
  | step i lc m n ln k hg hnl hgl hpl hs ih =>
    intro g hgk
    cases g with
    | zero => omega
    | succ g' =>
      have : minimum t (g' + 1) (some i) = minimum t g' (some lc) := by
        simp [minimum, hg, hnl]
      rw [this]
      exact ih g' (by omega)

theorem succAscend_none (t : RBTree) (f : Nat) (node : Nat) :
    succAscend t f node none = none := by
  cases f <;> rfl

theorem predAscend_none (t : RBTree) (f : Nat) (node : Nat) :
    predAscend t f node none = none := by
  cases f <;> rfl

theorem rightSpine_ascend {t : RBTree} {k i m : Nat} (h : RightSpineN t k i m) :
    ∃ mn, getN t m = some mn ∧ mn.right = none ∧
      ∀ ni, getN t i = some ni → ∀ g, k < g →
        succAscend t g m mn.parent = succAscend t (g - k) i ni.parent := by
  induction h with
  | base i n hg hnr =>
    refine ⟨n, hg, hnr, ?_⟩
    intro ni hni g _
    have hn : n = ni := by
      rw [hg] at hni; injection hni
    subst hn
    simp
  | step i r m n rn k hg hnr hgr hpr hs ih =>
    obtain ⟨mn, hgm, hmr, hasc⟩ := ih
    refine ⟨mn, hgm, hmr, ?_⟩
    intro ni hni g hgk
    have hn : n = ni := by
      rw [hg] at hni; injection hni
    subst hn
    rw [hasc rn hgr g (by omega), hpr]
    have hg2 : g - k = (g - (k + 1)) + 1 := by omega
    rw [hg2]
    simp [succAscend, hg, hnr]

theorem leftSpine_ascend {t : RBTree} {k i m : Nat} (h : LeftSpineN t k i m) :
    ∃ mn, getN t m = some mn ∧ mn.left = none ∧
      ∀ ni, getN t i = some ni → ∀ g, k < g →
        predAscend t g m mn.parent = predAscend t (g - k) i ni.parent := by
  induction h with
  | base i n hg hnl =>
    refine ⟨n, hg, hnl, ?_⟩
    intro ni hni g _
    have hn : n = ni := by
      rw [hg] at hni; injection hni
    subst hn
    simp
  | step i lc m n ln k hg hnl hgl hpl hs ih =>
    obtain ⟨mn, hgm, hml, hasc⟩ := ih
    refine ⟨mn, hgm, hml, ?_⟩
    intro ni hni g hgk
    have hn : n = ni := by
      rw [hg] at hni; injection hni
    subst hn
    rw [hasc ln hgl g (by omega), hpl]
    have hg2 : g - k = (g - (k + 1)) + 1 := by omega
    rw [hg2]
    simp [predAscend, hg, hnl]

/-- C10: `successor(null)` and `predecessor(null)` return null (lines 440 and
456), so incrementing or decrementing the facade's past-the-end iterator -
which holds the null sentinel - leaves it equal to `end()`; and on any tree
whose link structure passes the structural visit (the well-formedness
certificate `visitAux`), the successor of the maximum node and the
predecessor of the minimum node are null as well: the ascent from the
rightmost (leftmost) node retraces the right (left) spine to the root, whose
parent is null. -/
theorem C10_iterator_boundary (t : RBTree) (vs : List (Nat × Int))
    (hv : visitAux t (t.nodes.length + 2) none t.root = some vs) :
    successor t none = none ∧ predecessor t none = none ∧
    (∀ m, maxNode t = some m → successor t (some m) = none) ∧
    (∀ m, minNode t = some m → predecessor t (some m) = none) := by
  refine ⟨rfl, rfl, ?_, ?_⟩
  · intro m hm
    cases hroot : t.root with
    | none =>
      unfold maxNode at hm
      simp only [hroot] at hm
      exact Option.noConfusion hm
    | some r =>
      rw [hroot] at hv
      obtain ⟨k, m0, hk, hs⟩ := visit_rightSpine t (t.nodes.length + 2) none r vs hv
      obtain ⟨rn, _, _, hgr, hpr, _, _, _⟩ :=
        visitAux_succ_inv (f := t.nodes.length + 1) hv
      have hmax : maximum t (t.nodes.length + 2) (some r) = some m0 :=
        rightSpine_maximum hs _ (by omega)
      unfold maxNode at hm
      simp only [hroot] at hm
      rw [hmax] at hm
      have hm2 : m0 = m := Option.some.inj hm
      subst hm2
      obtain ⟨mn, hgm, hmr, hasc⟩ := rightSpine_ascend hs
      have hsucc : successor t (some m0) = succAscend t (t.nodes.length + 2) m0 mn.parent := by
        simp [successor, hgm, hmr]
      rw [hsucc, hasc rn hgr _ (by omega), hpr]
      exact succAscend_none t _ r
  · intro m hm
    cases hroot : t.root with
    | none =>
      unfold minNode at hm
      rw [hroot] at hm
      simp [minimum] at hm
    | some r =>
      rw [hroot] at hv
      obtain ⟨k, m0, hk, hs⟩ := visit_leftSpine t (t.nodes.length + 2) none r vs hv
      obtain ⟨rn, _, _, hgr, hpr, _, _, _⟩ :=
        visitAux_succ_inv (f := t.nodes.length + 1) hv
      have hmin : minimum t (t.nodes.length + 2) (some r) = some m0 :=
        leftSpine_minimum hs _ (by omega)
      unfold minNode at hm
      rw [hroot] at hm
      rw [hmin] at hm
      have hm2 : m0 = m := Option.some.inj hm
      subst hm2
      obtain ⟨mn, hgm, hml, hasc⟩ := leftSpine_ascend hs
      have hpred : predecessor t (some m0) = predAscend t (t.nodes.length + 2) m0 mn.parent := by
        simp [predecessor, hgm, hml]
      rw [hpred, hasc rn hgr _ (by omega), hpr]
      exact predAscend_none t _ r

/-- Witness for C10 at the map {1, 2, 3} (maximum at index 2, minimum at
index 0). -/
theorem C10_iterator_boundary_witness :
    successor tEx123 none = none ∧ predecessor tEx123 none = none ∧
    successor tEx123 (some 2) = none ∧ predecessor tEx123 (some 0) = none :=
  have h := C10_iterator_boundary tEx123 [(0, 1), (1, 2), (2, 3)] (by decide)
  ⟨h.1, h.2.1, h.2.2.1 2 (by decide), h.2.2.2 0 (by decide)⟩

theorem getN_modifyNode_ne (t : RBTree) (j : Nat) (f : Node → Node) {i : Nat}
    (h : i ≠ j) : getN (modifyNode t j f) i = getN t i := by
  unfold modifyNode getN
  split
  · exact List.getElem?_set_ne (fun e => h e.symm)
  · rfl

theorem modifyNode_eq_of_get {t : RBTree} {j : Nat} {n : Node} (f : Node → Node)
    (h : getN t j = some n) :
    modifyNode t j f = { t with nodes := t.nodes.set j (f n) } := by
  unfold modifyNode
  unfold getN at h
  rw [h]

theorem getN_modifyNode_self {t : RBTree} {j : Nat} {n : Node} (f : Node → Node)
    (h : getN t j = some n) : getN (modifyNode t j f) j = some (f n) := by
  rw [modifyNode_eq_of_get f h]
  unfold getN at h ⊢
  exact List.getElem?_set_self (List.getElem?_eq_some.mp h).1

theorem getN_setLeft_ne (t : RBTree) (j : Nat) (v : Option Nat) {i : Nat} (h : i ≠ j) :
    getN (setLeft t j v) i = getN t i := getN_modifyNode_ne t j _ h

theorem getN_setRight_ne (t : RBTree) (j : Nat) (v : Option Nat) {i : Nat} (h : i ≠ j) :
    getN (setRight t j v) i = getN t i := getN_modifyNode_ne t j _ h

theorem getN_setParent_ne (t : RBTree) (j : Nat) (v : Option Nat) {i : Nat} (h : i ≠ j) :
    getN (setParent t j v) i = getN t i := getN_modifyNode_ne t j _ h

theorem getN_setLeft_self {t : RBTree} {j : Nat} {n : Node} (v : Option Nat)
    (h : getN t j = some n) : getN (setLeft t j v) j = some { n with left := v } :=
  getN_modifyNode_self _ h

theorem getN_setRight_self {t : RBTree} {j : Nat} {n : Node} (v : Option Nat)
    (h : getN t j = some n) : getN (setRight t j v) j = some { n with right := v } :=
  getN_modifyNode_self _ h

theorem getN_setParent_self {t : RBTree} {j : Nat} {n : Node} (v : Option Nat)
    (h : getN t j = some n) : getN (setParent t j v) j = some { n with parent := v } :=
  getN_modifyNode_self _ h

theorem getN_writeLink_rootSlot (t : RBTree) (v : Option Nat) (i : Nat) :
    getN (writeLink t LinkRef.rootSlot v) i = getN t i := rfl

theorem visitAux_build {t : RBTree} {f : Nat} {par : Option Nat} {i : Nat}
    (n : Node) {L R : List (Nat × Int)}
    (hg : getN t i = some n) (hp : n.parent = par)
    (hL : visitAux t f (some i) n.left = some L)
    (hR : visitAux t f (some i) n.right = some R) :
    visitAux t (f + 1) par (some i) = some (L ++ [(i, n.key)] ++ R) := by
  have h' : visitAux t (f + 1) par (some i) = (match getN t i with
      | none => none
      | some n =>
        if n.parent = par then
          match visitAux t f (some i) n.left, visitAux t f (some i) n.right with
          | some L, some R => some (L ++ [(i, n.key)] ++ R)
          | _, _ => none
        else none) := rfl
  rw [h', hg]
  simp only [hp, if_true, hL, hR]

theorem visitAux_mono (t : RBTree) :
    ∀ f par j l, visitAux t f par j = some l →
      visitAux t (f + 1) par j = some l := by
  intro f
  induction f with
  | zero =>
    intro par j l h
    cases j with
    | none =>
      have : l = [] := by simpa [visitAux] using h.symm
      subst this
      rfl
    | some i => exact absurd h visitAux_zero_some
  | succ f ih =>
    intro par j l h
    cases j with
    | none =>
      have : l = [] := by simpa [visitAux] using h.symm
      subst this
      rfl
    | some i =>
      obtain ⟨n, L, R, hg, hp, hL, hR, hl⟩ := visitAux_succ_inv h
      subst hl
      exact visitAux_build n hg hp (ih _ _ _ hL) (ih _ _ _ hR)

theorem visitAux_mono_le (t : RBTree) {f g : Nat} {par j : Option Nat}
    {l : List (Nat × Int)} (hle : f ≤ g) (h : visitAux t f par j = some l) :
    visitAux t g par j = some l := by
  induction hle with
  | refl => exact h
  | step _ ih => exact visitAux_mono t _ _ _ _ ih

theorem visitAux_congr {t t2 : RBTree} :
    ∀ f par j l, visitAux t f par j = some l →
      (∀ q ∈ l.map Prod.fst, getN t2 q = getN t q) →
      visitAux t2 f par j = some l := by
  intro f
  induction f with
  | zero =>
    intro par j l h hframe
    cases j with
    | none =>
      have : l = [] := by simpa [visitAux] using h.symm
      subst this
      rfl
    | some i => exact absurd h visitAux_zero_some
  | succ f ih =>
    intro par j l h hframe
    cases j with
    | none =>
      have : l = [] := by simpa [visitAux] using h.symm
      subst this
      rfl
    | some i =>
      obtain ⟨n, L, R, hg, hp, hL, hR, hl⟩ := visitAux_succ_inv h
      subst hl
      have hi : getN t2 i = some n := by
        rw [hframe i (by simp), hg]
      refine visitAux_build n hi hp ?_ ?_
      · exact ih _ _ _ hL (fun q hq => hframe q (by simp [hq]))
      · exact ih _ _ _ hR (fun q hq => hframe q (by simp [hq]))

theorem visit_childMem_left {t : RBTree} :
    ∀ f par j l, visitAux t f par j = some l →
      ∀ q qn c, q ∈ l.map Prod.fst → getN t q = some qn → qn.left = some c →
        c ∈ l.map Prod.fst := by
  intro f
  induction f with
  | zero =>
    intro par j l h q qn c hq _ _
    cases j with
    | none =>
      have : l = [] := by simpa [visitAux] using h.symm
      subst this
      simp at hq
    | some i => exact absurd h visitAux_zero_some
  | succ f ih =>
    intro par j l h q qn c hq hqn hc
    cases j with
    | none =>
      have : l = [] := by simpa [visitAux] using h.symm
      subst this
      simp at hq
    | some i =>
      obtain ⟨n, L, R, hg, hp, hL, hR, hl⟩ := visitAux_succ_inv h
      subst hl
      simp only [List.map_append, List.map_cons, List.map_nil, List.mem_append,
        List.mem_cons, List.mem_singleton, List.not_mem_nil, or_false] at hq ⊢
      rcases hq with (hq | hq) | hq
      · exact Or.inl (Or.inl (ih _ _ _ hL q qn c hq hqn hc))
      · subst hq
        have hn : n = qn := by rw [hg] at hqn; injection hqn
        subst hn
        rw [hc] at hL
        cases f with
        | zero => exact absurd hL visitAux_zero_some
        | succ f' =>
          obtain ⟨cn, CL, CR, _, _, _, _, hcl⟩ := visitAux_succ_inv hL
          subst hcl
          exact Or.inl (Or.inl (by simp))
      · exact Or.inr (ih _ _ _ hR q qn c hq hqn hc)

theorem visit_childMem_right {t : RBTree} :
    ∀ f par j l, visitAux t f par j = some l →
      ∀ q qn c, q ∈ l.map Prod.fst → getN t q = some qn → qn.right = some c →
        c ∈ l.map Prod.fst := by
  intro f
  induction f with
  | zero =>
    intro par j l h q qn c hq _ _
    cases j with
    | none =>
      have : l = [] := by simpa [visitAux] using h.symm
      subst this
      simp at hq
    | some i => exact absurd h visitAux_zero_some
  | succ f ih =>
    intro par j l h q qn c hq hqn hc
    cases j with
    | none =>
      have : l = [] := by simpa [visitAux] using h.symm
      subst this
      simp at hq
    | some i =>
      obtain ⟨n, L, R, hg, hp, hL, hR, hl⟩ := visitAux_succ_inv h
      subst hl
      simp only [List.map_append, List.map_cons, List.map_nil, List.mem_append,
        List.mem_cons, List.mem_singleton, List.not_mem_nil, or_false] at hq ⊢
      rcases hq with (hq | hq) | hq
      · exact Or.inl (Or.inl (ih _ _ _ hL q qn c hq hqn hc))
      · subst hq
        have hn : n = qn := by rw [hg] at hqn; injection hqn
        subst hn
        rw [hc] at hR
        cases f with
        | zero => exact absurd hR visitAux_zero_some
        | succ f' =>
          obtain ⟨cn, CL, CR, _, _, _, _, hcl⟩ := visitAux_succ_inv hR
          subst hcl
          exact Or.inr (by simp)
      · exact Or.inr (ih _ _ _ hR q qn c hq hqn hc)


theorem visitAux_none (t : RBTree) (f : Nat) (par : Option Nat) :
    visitAux t f par none = some [] := by
  cases f <;> rfl

theorem nodup_mid {α : Type} {l1 l2 : List α} {a : α}
    (h : (l1 ++ a :: l2).Nodup) :
    a ∉ l1 ∧ a ∉ l2 ∧ l1.Nodup ∧ l2.Nodup ∧ ∀ q ∈ l1, q ∉ l2 := by
  rw [List.nodup_append] at h
  obtain ⟨h1, h2, hd⟩ := h
  rw [List.nodup_cons] at h2
  refine ⟨fun ha => hd ha (List.mem_cons_self a l2), h2.1, h1, h2.2, ?_⟩
  intro q hq hq2
  exact hd hq (List.mem_cons_of_mem a hq2)

theorem leftRotate_visit_assemble {t' t : RBTree} {f2 : Nat} {parx : Option Nat}
    {x y : Nat} {xn yn : Node} {A B C : List (Nat × Int)}
    (hA : visitAux t (f2 + 1) (some x) xn.left = some A)
    (hB : visitAux t f2 (some y) yn.left = some B)
    (hC : visitAux t f2 (some y) yn.right = some C)
    (hgx : getN t' x = some { xn with right := yn.left, parent := some y })
    (hgy : getN t' y = some { yn with left := some x, parent := parx })
    (hgb : ∀ b, yn.left = some b →
      ∃ bn, getN t b = some bn ∧ getN t' b = some { bn with parent := some x })
    (hfr : ∀ q, (q ∈ A.map Prod.fst ∨ q ∈ B.map Prod.fst ∨ q ∈ C.map Prod.fst) →
      q ≠ x → q ≠ y → (∀ b, yn.left = some b → q ≠ b) → getN t' q = getN t q)
    (hxA : x ∉ A.map Prod.fst) (hyA : y ∉ A.map Prod.fst)
    (hxB : x ∉ B.map Prod.fst) (hyB : y ∉ B.map Prod.fst)
    (hxC : x ∉ C.map Prod.fst) (hyC : y ∉ C.map Prod.fst)
    (hbA : ∀ b, yn.left = some b → b ∉ A.map Prod.fst)
    (hbC : ∀ b, yn.left = some b → b ∉ C.map Prod.fst)
    (hndB : (B.map Prod.fst).Nodup) :
    visitAux t' (f2 + 3) parx (some y) =
      some (A ++ [(x, xn.key)] ++ (B ++ [(y, yn.key)] ++ C)) := by
  have hAin : ∀ q ∈ A.map Prod.fst, getN t' q = getN t q := by
    intro q hq
    refine hfr q (Or.inl hq) (fun e => hxA (e ▸ hq)) (fun e => hyA (e ▸ hq)) ?_
    intro b hb e
    exact hbA b hb (e ▸ hq)
  have hCin : ∀ q ∈ C.map Prod.fst, getN t' q = getN t q := by
    intro q hq
    refine hfr q (Or.inr (Or.inr hq)) (fun e => hxC (e ▸ hq)) (fun e => hyC (e ▸ hq)) ?_
    intro b hb e
    exact hbC b hb (e ▸ hq)
  have hA' : visitAux t' (f2 + 1) (some x) xn.left = some A :=
    visitAux_congr _ _ _ _ hA hAin
  have hBside : visitAux t' (f2 + 1) (some x) yn.left = some B := by
    cases hyl : yn.left with
    | none =>
      rw [hyl, visitAux_none] at hB
      have hBnil : B = [] := (Option.some.inj hB).symm
      subst hBnil
      exact visitAux_none t' (f2 + 1) (some x)
    | some b =>
      rw [hyl] at hB
      cases f2 with
      | zero => exact absurd hB visitAux_zero_some
      | succ f3 =>
        obtain ⟨bn, BL, BR, hgbn, hpb, hBL, hBR, hBeq⟩ := visitAux_succ_inv hB
        obtain ⟨bn', hbn', hgb'⟩ := hgb b hyl
        have hbn2 : bn = bn' := by
          rw [hbn'] at hgbn
          exact (Option.some.inj hgbn).symm
        subst hbn2
        subst hBeq
        have hndB' : (BL.map Prod.fst ++ b :: BR.map Prod.fst).Nodup := by
          simpa using hndB
        obtain ⟨hbBL, hbBR, hndBL, hndBR, hdisj⟩ := nodup_mid hndB'
        have hBLmem : ∀ q ∈ BL.map Prod.fst, q ∈ (BL ++ [(b, bn.key)] ++ BR).map Prod.fst := by
          intro q hq
          simp only [List.map_append, List.map_cons, List.map_nil, List.mem_append,
            List.mem_cons]
          exact Or.inl (Or.inl hq)
        have hBRmem : ∀ q ∈ BR.map Prod.fst, q ∈ (BL ++ [(b, bn.key)] ++ BR).map Prod.fst := by
          intro q hq
          simp only [List.map_append, List.map_cons, List.map_nil, List.mem_append,
            List.mem_cons]
          exact Or.inr hq
        have hBLin : ∀ q ∈ BL.map Prod.fst, getN t' q = getN t q := by
          intro q hq
          refine hfr q (Or.inr (Or.inl (hBLmem q hq)))
            (fun e => hxB (e ▸ hBLmem q hq)) (fun e => hyB (e ▸ hBLmem q hq)) ?_
          intro b2 hb2
          rw [hyl] at hb2
          injection hb2 with hb2'
          subst hb2'
          exact fun e => hbBL (e ▸ hq)
        have hBRin : ∀ q ∈ BR.map Prod.fst, getN t' q = getN t q := by
          intro q hq
          refine hfr q (Or.inr (Or.inl (hBRmem q hq)))
            (fun e => hxB (e ▸ hBRmem q hq)) (fun e => hyB (e ▸ hBRmem q hq)) ?_
          intro b2 hb2
          rw [hyl] at hb2
          injection hb2 with hb2'
          subst hb2'
          exact fun e => hbBR (e ▸ hq)
        have hBL' : visitAux t' (f3 + 1) (some b) bn.left = some BL :=
          visitAux_congr _ _ _ _ (visitAux_mono t _ _ _ _ hBL) hBLin
        have hBR' : visitAux t' (f3 + 1) (some b) bn.right = some BR :=
          visitAux_congr _ _ _ _ (visitAux_mono t _ _ _ _ hBR) hBRin
        exact visitAux_build { bn with parent := some x } hgb' rfl hBL' hBR'
  have hxsub : visitAux t' (f2 + 2) (some y) (some x) =
      some (A ++ [(x, xn.key)] ++ B) :=
    visitAux_build { xn with right := yn.left, parent := some y } hgx rfl hA' hBside
  have hC' : visitAux t' (f2 + 2) (some y) yn.right = some C :=
    visitAux_congr _ _ _ _ (visitAux_mono_le t (by omega) hC) hCin
  have := visitAux_build { yn with left := some x, parent := parx } hgy rfl hxsub hC'
  rw [this]
  simp [List.append_assoc]

theorem getN_writeLink_frame (t : RBTree) (s : LinkRef) (v : Option Nat) {q : Nat}
    (h : ∀ p', s = LinkRef.leftOf p' ∨ s = LinkRef.rightOf p' → q ≠ p') :
    getN (writeLink t s v) q = getN t q := by
  cases s with
  | rootSlot => rfl
  | leftOf p => exact getN_setLeft_ne t p v (h p (Or.inl rfl))
  | rightOf p => exact getN_setRight_ne t p v (h p (Or.inr rfl))

theorem root_writeLink_child (t : RBTree) (s : LinkRef) (v : Option Nat)
    (h : s ≠ LinkRef.rootSlot) : (writeLink t s v).root = t.root := by
  cases s with
  | rootSlot => exact absurd rfl h
  | leftOf p => exact modifyNode_root t p _
  | rightOf p => exact modifyNode_root t p _

theorem readLink_congr {t t2 : RBTree} (s : LinkRef) (hroot : t2.root = t.root)
    (hcell : ∀ p', s = LinkRef.leftOf p' ∨ s = LinkRef.rightOf p' →
      getN t2 p' = getN t p') :
    readLink t2 s = readLink t s := by
  cases s with
  | rootSlot => exact hroot
  | leftOf p => simp [readLink, hcell p (Or.inl rfl)]
  | rightOf p => simp [readLink, hcell p (Or.inr rfl)]

theorem writeLink_leftOf (t : RBTree) (p : Nat) (v : Option Nat) :
    writeLink t (LinkRef.leftOf p) v = setLeft t p v := rfl

theorem writeLink_rightOf (t : RBTree) (p : Nat) (v : Option Nat) :
    writeLink t (LinkRef.rightOf p) v = setRight t p v := rfl

theorem readLink_leftOf_of {t : RBTree} {p : Nat} {n : Node}
    (h : getN t p = some n) : readLink t (LinkRef.leftOf p) = n.left := by
  simp [readLink, h]

theorem readLink_rightOf_of {t : RBTree} {p : Nat} {n : Node}
    (h : getN t p = some n) : readLink t (LinkRef.rightOf p) = n.right := by
  simp [readLink, h]

theorem root_setLeft (t : RBTree) (i : Nat) (v : Option Nat) :
    (setLeft t i v).root = t.root := modifyNode_root t i _

theorem root_setRight (t : RBTree) (i : Nat) (v : Option Nat) :
    (setRight t i v).root = t.root := modifyNode_root t i _

theorem root_setParent (t : RBTree) (i : Nat) (v : Option Nat) :
    (setParent t i v).root = t.root := modifyNode_root t i _

theorem leftRotate_cells {t : RBTree} {x y : Nat} {xn yn : Node}
    (hx : getN t x = some xn) (hxr : xn.right = some y) (hy : getN t y = some yn)
    (hyx : y ≠ x)
    (hb : ∀ b, yn.left = some b → b ≠ x ∧ b ≠ y)
    (hread : readLink t (getLink t x) = some x)
    (htouch : ∀ p', getLink t x = LinkRef.leftOf p' ∨ getLink t x = LinkRef.rightOf p' →
        p' ≠ x ∧ p' ≠ y ∧ ∀ b, yn.left = some b → p' ≠ b) :
    getN (leftRotate t (some x)) x = some { xn with right := yn.left, parent := some y } ∧
    getN (leftRotate t (some x)) y = some { yn with left := some x, parent := xn.parent } ∧
    (∀ b bn, yn.left = some b → getN t b = some bn →
        getN (leftRotate t (some x)) b = some { bn with parent := some x }) ∧
    (∀ q, q ≠ x → q ≠ y → (∀ b, yn.left = some b → q ≠ b) →
        (∀ p', getLink t x = LinkRef.leftOf p' ∨ getLink t x = LinkRef.rightOf p' →
          q ≠ p') →
        getN (leftRotate t (some x)) q = getN t q) ∧
    (∀ p' pn', getLink t x = LinkRef.leftOf p' → getN t p' = some pn' →
        getN (leftRotate t (some x)) p' = some { pn' with left := some y }) ∧
    (∀ p' pn', getLink t x = LinkRef.rightOf p' → getN t p' = some pn' →
        getN (leftRotate t (some x)) p' = some { pn' with right := some y }) ∧
    (getLink t x = LinkRef.rootSlot → (leftRotate t (some x)).root = some y) ∧
    (∀ p', getLink t x = LinkRef.leftOf p' ∨ getLink t x = LinkRef.rightOf p' →
        (leftRotate t (some x)).root = t.root) := by
  have hxy : x ≠ y := Ne.symm hyx
  have hfx : ∀ p', getLink t x = LinkRef.leftOf p' ∨ getLink t x = LinkRef.rightOf p' →
      x ≠ p' := fun p' hp' e => (htouch p' hp').1 e.symm
  have hfy : ∀ p', getLink t x = LinkRef.leftOf p' ∨ getLink t x = LinkRef.rightOf p' →
      y ≠ p' := fun p' hp' e => (htouch p' hp').2.1 e.symm
  have e1 : getN (setRight t x none) y = some yn := by
    rw [getN_setRight_ne t x none hyx]; exact hy
  cases hyl : yn.left with
  | none =>
    have e2 : readLink (setRight t x none) (LinkRef.leftOf y) = yn.left :=
      readLink_leftOf_of e1
    have e3 : getN (setRight (setLeft (setRight t x none) y none) x none) x =
        some { xn with right := none } := by
      have i1 : getN (setLeft (setRight t x none) y none) x =
          some { xn with right := none } := by
        rw [getN_setLeft_ne _ _ _ hxy]
        exact getN_setRight_self none hx
      simpa using getN_setRight_self none i1
    have hroot4 : (setParent (setRight (setLeft (setRight t x none) y none) x none) y
        xn.parent).root = t.root := by
      rw [root_setParent, root_setRight, root_setLeft, root_setRight]
    have hcell4 : ∀ p', getLink t x = LinkRef.leftOf p' ∨ getLink t x = LinkRef.rightOf p' →
        getN (setParent (setRight (setLeft (setRight t x none) y none) x none) y
          xn.parent) p' = getN t p' := by
      intro p' hp'
      obtain ⟨hpx, hpy, _⟩ := htouch p' hp'
      rw [getN_setParent_ne _ _ _ hpy, getN_setRight_ne _ _ _ hpx,
        getN_setLeft_ne _ _ _ hpy, getN_setRight_ne _ _ _ hpx]
    have hv4 : readLink (setParent (setRight (setLeft (setRight t x none) y none) x none) y
        xn.parent) (getLink t x) = some x := by
      rw [readLink_congr (getLink t x) hroot4 hcell4]
      exact hread
    refine ⟨?_, ?_, ?_, ?_, ?_, ?_, ?_, ?_⟩
    · simp only [leftRotate, hx, hxr, moveLink, writeLink_leftOf, writeLink_rightOf,
        e1, e2, e3, hyl, hv4]
      rw [getN_writeLink_frame _ _ _ hfx]
      have hSx : getN (setLeft (writeLink (setParent (setRight (setLeft (setRight t x none)
          y none) x none) y xn.parent) (getLink t x) none) y (some x)) x =
          some { xn with right := none } := by
        rw [getN_setLeft_ne _ _ _ hxy, getN_writeLink_frame _ _ _ hfx,
          getN_setParent_ne _ _ _ hxy]
        exact e3
      rw [getN_setParent_self (some y) hSx]
    · simp only [leftRotate, hx, hxr, moveLink, writeLink_leftOf, writeLink_rightOf,
        e1, e2, e3, hyl, hv4]
      rw [getN_writeLink_frame _ _ _ hfy, getN_setParent_ne _ _ _ hyx]
      have hSy : getN (writeLink (setParent (setRight (setLeft (setRight t x none)
          y none) x none) y xn.parent) (getLink t x) none) y =
          some { yn with left := none, parent := xn.parent } := by
        rw [getN_writeLink_frame _ _ _ hfy]
        have i2 : getN (setRight (setLeft (setRight t x none) y none) x none) y =
            some { yn with left := none } := by
          rw [getN_setRight_ne _ _ _ hyx]
          exact getN_setLeft_self none e1
        simpa using getN_setParent_self xn.parent i2
      simpa using getN_setLeft_self (some x) hSy
    · intro b bn hbl _
      exact Option.noConfusion hbl
    · intro q hqx hqy _ hqp
      simp only [leftRotate, hx, hxr, moveLink, writeLink_leftOf, writeLink_rightOf,
        e1, e2, e3, hyl, hv4]
      rw [getN_writeLink_frame _ _ _ hqp, getN_setParent_ne _ _ _ hqx,
        getN_setLeft_ne _ _ _ hqy, getN_writeLink_frame _ _ _ hqp,
        getN_setParent_ne _ _ _ hqy, getN_setRight_ne _ _ _ hqx,
        getN_setLeft_ne _ _ _ hqy, getN_setRight_ne _ _ _ hqx]
    · intro p' pn' hsl hpn'
      obtain ⟨hp'x, hp'y, _⟩ := htouch p' (Or.inl hsl)
      have e4 : getN (setParent (setRight (setLeft (setRight t x none) y none) x none) y xn.parent) p' = some pn' := by
        rw [hcell4 p' (Or.inl hsl)]
        exact hpn'
      have e5 : readLink (setParent (setRight (setLeft (setRight t x none) y none) x none) y xn.parent) (LinkRef.leftOf p') = pn'.left :=
        readLink_leftOf_of e4
      have hplx : pn'.left = some x := by
        rw [hsl, readLink_leftOf_of hpn'] at hread
        exact hread
      simp only [leftRotate, hx, hxr, moveLink, e1, e2, e3, hyl, hsl, e5, hplx, writeLink_leftOf, writeLink_rightOf]
      have i1 : getN (setLeft (setParent (setRight (setLeft (setRight t x none) y none) x none) y xn.parent) p' none) p' = some { pn' with left := none } :=
        getN_setLeft_self none e4
      have i2 : getN (setLeft (setLeft (setParent (setRight (setLeft (setRight t x none) y none) x none) y xn.parent) p' none) y (some x)) p' =
          some { pn' with left := none } := by
        rw [getN_setLeft_ne _ _ _ hp'y]
        exact i1
      have i3 : getN (setParent (setLeft (setLeft (setParent (setRight (setLeft (setRight t x none) y none) x none) y xn.parent) p' none) y (some x)) x
          (some y)) p' = some { pn' with left := none } := by
        rw [getN_setParent_ne _ _ _ hp'x]
        exact i2
      simpa using getN_setLeft_self (some y) i3
    · intro p' pn' hsl hpn'
      obtain ⟨hp'x, hp'y, _⟩ := htouch p' (Or.inr hsl)
      have e4 : getN (setParent (setRight (setLeft (setRight t x none) y none) x none) y xn.parent) p' = some pn' := by
        rw [hcell4 p' (Or.inr hsl)]
        exact hpn'
      have e5 : readLink (setParent (setRight (setLeft (setRight t x none) y none) x none) y xn.parent) (LinkRef.rightOf p') = pn'.right :=
        readLink_rightOf_of e4
      have hprx : pn'.right = some x := by
        rw [hsl, readLink_rightOf_of hpn'] at hread
        exact hread
      simp only [leftRotate, hx, hxr, moveLink, e1, e2, e3, hyl, hsl, e5, hprx, writeLink_leftOf, writeLink_rightOf]
      have i1 : getN (setRight (setParent (setRight (setLeft (setRight t x none) y none) x none) y xn.parent) p' none) p' = some { pn' with right := none } :=
        getN_setRight_self none e4
      have i2 : getN (setLeft (setRight (setParent (setRight (setLeft (setRight t x none) y none) x none) y xn.parent) p' none) y (some x)) p' =
          some { pn' with right := none } := by
        rw [getN_setLeft_ne _ _ _ hp'y]
        exact i1
      have i3 : getN (setParent (setLeft (setRight (setParent (setRight (setLeft (setRight t x none) y none) x none) y xn.parent) p' none) y (some x)) x
          (some y)) p' = some { pn' with right := none } := by
        rw [getN_setParent_ne _ _ _ hp'x]
        exact i2
      simpa using getN_setRight_self (some y) i3
    · intro hsl
      simp only [leftRotate, hx, hxr, moveLink, e1, e2, e3, hyl, hsl, writeLink_leftOf, writeLink_rightOf, writeLink]
    · intro p' hp'
      rcases hp' with hsl | hsl
      · simp only [leftRotate, hx, hxr, moveLink, e1, e2, e3, hyl, hsl, writeLink_leftOf, writeLink_rightOf]
        split <;>
          simp [root_setLeft, root_setRight, root_setParent]
      · simp only [leftRotate, hx, hxr, moveLink, e1, e2, e3, hyl, hsl, writeLink_leftOf, writeLink_rightOf]
        split <;>
          simp [root_setLeft, root_setRight, root_setParent]
  | some b =>
    obtain ⟨hbx, hby⟩ := hb b hyl
    have e1b : getN (setParent (setRight t x none) b (some x)) y = some yn := by
      rw [getN_setParent_ne _ _ _ hby.symm]
      exact e1
    have e2 : readLink (setParent (setRight t x none) b (some x)) (LinkRef.leftOf y) =
        yn.left := readLink_leftOf_of e1b
    have e3 : getN (setRight (setLeft (setParent (setRight t x none) b (some x)) y none)
        x (some b)) x = some { xn with right := some b } := by
      have i1 : getN (setLeft (setParent (setRight t x none) b (some x)) y none) x =
          some { xn with right := none } := by
        rw [getN_setLeft_ne _ _ _ hxy, getN_setParent_ne _ _ _ hbx.symm]
        exact getN_setRight_self none hx
      simpa using getN_setRight_self (some b) i1
    have hroot4 : (setParent (setRight (setLeft (setParent (setRight t x none) b (some x))
        y none) x (some b)) y xn.parent).root = t.root := by
      rw [root_setParent, root_setRight, root_setLeft, root_setParent, root_setRight]
    have hcell4 : ∀ p', getLink t x = LinkRef.leftOf p' ∨ getLink t x = LinkRef.rightOf p' →
        getN (setParent (setRight (setLeft (setParent (setRight t x none) b (some x))
          y none) x (some b)) y xn.parent) p' = getN t p' := by
      intro p' hp'
      obtain ⟨hpx, hpy, hpb⟩ := htouch p' hp'
      rw [getN_setParent_ne _ _ _ hpy, getN_setRight_ne _ _ _ hpx,
        getN_setLeft_ne _ _ _ hpy, getN_setParent_ne _ _ _ (hpb b hyl),
        getN_setRight_ne _ _ _ hpx]
    have hv4 : readLink (setParent (setRight (setLeft (setParent (setRight t x none) b
        (some x)) y none) x (some b)) y xn.parent) (getLink t x) = some x := by
      rw [readLink_congr (getLink t x) hroot4 hcell4]
      exact hread
    refine ⟨?_, ?_, ?_, ?_, ?_, ?_, ?_, ?_⟩
    · simp only [leftRotate, hx, hxr, moveLink, writeLink_leftOf, writeLink_rightOf,
        e1, e1b, e2, e3, hyl, hv4]
      rw [getN_writeLink_frame _ _ _ hfx]
      have hSx : getN (setLeft (writeLink (setParent (setRight (setLeft (setParent
          (setRight t x none) b (some x)) y none) x (some b)) y xn.parent)
          (getLink t x) none) y (some x)) x = some { xn with right := some b } := by
        rw [getN_setLeft_ne _ _ _ hxy, getN_writeLink_frame _ _ _ hfx,
          getN_setParent_ne _ _ _ hxy]
        exact e3
      rw [getN_setParent_self (some y) hSx]
    · simp only [leftRotate, hx, hxr, moveLink, writeLink_leftOf, writeLink_rightOf,
        e1, e1b, e2, e3, hyl, hv4]
      rw [getN_writeLink_frame _ _ _ hfy, getN_setParent_ne _ _ _ hyx]
      have hSy : getN (writeLink (setParent (setRight (setLeft (setParent (setRight t x
          none) b (some x)) y none) x (some b)) y xn.parent) (getLink t x) none) y =
          some { yn with left := none, parent := xn.parent } := by
        rw [getN_writeLink_frame _ _ _ hfy]
        have i2 : getN (setRight (setLeft (setParent (setRight t x none) b (some x))
            y none) x (some b)) y = some { yn with left := none } := by
          rw [getN_setRight_ne _ _ _ hyx]
          exact getN_setLeft_self none e1b
        simpa using getN_setParent_self xn.parent i2
      simpa using getN_setLeft_self (some x) hSy
    · intro b2 bn hbl hgb
      injection hbl with hbl
      subst hbl
      simp only [leftRotate, hx, hxr, moveLink, writeLink_leftOf, writeLink_rightOf,
        e1, e1b, e2, e3, hyl, hv4]
      rw [getN_writeLink_frame _ _ _ (fun p' hp' e => ((htouch p' hp').2.2 b hyl) e.symm),
        getN_setParent_ne _ _ _ hbx, getN_setLeft_ne _ _ _ hby,
        getN_writeLink_frame _ _ _ (fun p' hp' e => ((htouch p' hp').2.2 b hyl) e.symm),
        getN_setParent_ne _ _ _ hby, getN_setRight_ne _ _ _ hbx,
        getN_setLeft_ne _ _ _ hby]
      exact getN_setParent_self (some x) (by
        rw [getN_setRight_ne _ _ _ hbx]
        exact hgb)
    · intro q hqx hqy hqb hqp
      simp only [leftRotate, hx, hxr, moveLink, writeLink_leftOf, writeLink_rightOf,
        e1, e1b, e2, e3, hyl, hv4]
      rw [getN_writeLink_frame _ _ _ hqp, getN_setParent_ne _ _ _ hqx,
        getN_setLeft_ne _ _ _ hqy, getN_writeLink_frame _ _ _ hqp,
        getN_setParent_ne _ _ _ hqy, getN_setRight_ne _ _ _ hqx,
        getN_setLeft_ne _ _ _ hqy, getN_setParent_ne _ _ _ (hqb b rfl),
        getN_setRight_ne _ _ _ hqx]
    · intro p' pn' hsl hpn'
      obtain ⟨hp'x, hp'y, _⟩ := htouch p' (Or.inl hsl)
      have e4 : getN (setParent (setRight (setLeft (setParent (setRight t x none) b (some x)) y none) x (some b)) y xn.parent) p' = some pn' := by
        rw [hcell4 p' (Or.inl hsl)]
        exact hpn'
      have e5 : readLink (setParent (setRight (setLeft (setParent (setRight t x none) b (some x)) y none) x (some b)) y xn.parent) (LinkRef.leftOf p') = pn'.left :=
        readLink_leftOf_of e4
      have hplx : pn'.left = some x := by
        rw [hsl, readLink_leftOf_of hpn'] at hread
        exact hread
      simp only [leftRotate, hx, hxr, moveLink, e1, e1b, e2, e3, hyl, hsl, e5, hplx, writeLink_leftOf, writeLink_rightOf]
      have i1 : getN (setLeft (setParent (setRight (setLeft (setParent (setRight t x none) b (some x)) y none) x (some b)) y xn.parent) p' none) p' = some { pn' with left := none } :=
        getN_setLeft_self none e4
      have i2 : getN (setLeft (setLeft (setParent (setRight (setLeft (setParent (setRight t x none) b (some x)) y none) x (some b)) y xn.parent) p' none) y (some x)) p' =
          some { pn' with left := none } := by
        rw [getN_setLeft_ne _ _ _ hp'y]
        exact i1
      have i3 : getN (setParent (setLeft (setLeft (setParent (setRight (setLeft (setParent (setRight t x none) b (some x)) y none) x (some b)) y xn.parent) p' none) y (some x)) x
          (some y)) p' = some { pn' with left := none } := by
        rw [getN_setParent_ne _ _ _ hp'x]
        exact i2
      simpa using getN_setLeft_self (some y) i3
    · intro p' pn' hsl hpn'
      obtain ⟨hp'x, hp'y, _⟩ := htouch p' (Or.inr hsl)
      have e4 : getN (setParent (setRight (setLeft (setParent (setRight t x none) b (some x)) y none) x (some b)) y xn.parent) p' = some pn' := by
        rw [hcell4 p' (Or.inr hsl)]
        exact hpn'
      have e5 : readLink (setParent (setRight (setLeft (setParent (setRight t x none) b (some x)) y none) x (some b)) y xn.parent) (LinkRef.rightOf p') = pn'.right :=
        readLink_rightOf_of e4
      have hprx : pn'.right = some x := by
        rw [hsl, readLink_rightOf_of hpn'] at hread
        exact hread
      simp only [leftRotate, hx, hxr, moveLink, e1, e1b, e2, e3, hyl, hsl, e5, hprx, writeLink_leftOf, writeLink_rightOf]
      have i1 : getN (setRight (setParent (setRight (setLeft (setParent (setRight t x none) b (some x)) y none) x (some b)) y xn.parent) p' none) p' = some { pn' with right := none } :=
        getN_setRight_self none e4
      have i2 : getN (setLeft (setRight (setParent (setRight (setLeft (setParent (setRight t x none) b (some x)) y none) x (some b)) y xn.parent) p' none) y (some x)) p' =
          some { pn' with right := none } := by
        rw [getN_setLeft_ne _ _ _ hp'y]
        exact i1
      have i3 : getN (setParent (setLeft (setRight (setParent (setRight (setLeft (setParent (setRight t x none) b (some x)) y none) x (some b)) y xn.parent) p' none) y (some x)) x
          (some y)) p' = some { pn' with right := none } := by
        rw [getN_setParent_ne _ _ _ hp'x]
        exact i2
      simpa using getN_setRight_self (some y) i3
    · intro hsl
      simp only [leftRotate, hx, hxr, moveLink, e1, e1b, e2, e3, hyl, hsl, writeLink_leftOf, writeLink_rightOf, writeLink]
    · intro p' hp'
      rcases hp' with hsl | hsl
      · simp only [leftRotate, hx, hxr, moveLink, e1, e1b, e2, e3, hyl, hsl, writeLink_leftOf, writeLink_rightOf]
        split <;>
          simp [root_setLeft, root_setRight, root_setParent]
      · simp only [leftRotate, hx, hxr, moveLink, e1, e1b, e2, e3, hyl, hsl, writeLink_leftOf, writeLink_rightOf]
        split <;>
          simp [root_setLeft, root_setRight, root_setParent]

theorem leftRotate_visit {t : RBTree} {f : Nat} {parx : Option Nat} {x : Nat}
    {xn : Node} {y : Nat} {l : List (Nat × Int)}
    (hx : getN t x = some xn) (hxr : xn.right = some y)
    (hv : visitAux t f parx (some x) = some l)
    (hnd : (l.map Prod.fst).Nodup)
    (hctx : match xn.parent with
            | none => t.root = some x
            | some p => (∃ pn, getN t p = some pn ∧
                (pn.left = some x ∨ pn.right = some x)) ∧ p ∉ l.map Prod.fst) :
    visitAux (leftRotate t (some x)) (f + 1) parx (some y) = some l := by
  cases f with
  | zero => exact absurd hv visitAux_zero_some
  | succ f1 =>
    obtain ⟨n, A, RY, hgx0, hpx, hA, hRY, hl⟩ := visitAux_succ_inv hv
    have hnx : xn = n := by rw [hgx0] at hx; exact (Option.some.inj hx).symm
    subst hnx
    subst hl
    rw [hxr] at hRY
    cases f1 with
    | zero => exact absurd hRY visitAux_zero_some
    | succ f2 =>
      obtain ⟨yn, B, C, hgy0, hpy, hB, hC, hry⟩ := visitAux_succ_inv hRY
      subst hry
      have hndn : (A.map Prod.fst ++ x ::
          (B.map Prod.fst ++ y :: C.map Prod.fst)).Nodup := by
        simpa using hnd
      obtain ⟨hxA, hxRest, hndA, hndRest, hAdisj⟩ := nodup_mid hndn
      obtain ⟨hyB, hyC, hndB, hndC, hBCdisj⟩ := nodup_mid hndRest
      have hxB : x ∉ B.map Prod.fst := fun hm => hxRest (by simp [hm])
      have hxC : x ∉ C.map Prod.fst := fun hm => hxRest (by simp [hm])
      have hyx : y ≠ x := fun e => hxRest (by rw [← e]; simp)
      have hyA : y ∉ A.map Prod.fst := fun hm => hAdisj y hm (by simp)
      have hbcell : ∀ b, yn.left = some b →
          ∃ bn, getN t b = some bn ∧ b ∈ B.map Prod.fst := by
        intro b hbl
        rw [hbl] at hB
        cases f2 with
        | zero => exact absurd hB visitAux_zero_some
        | succ f3 =>
          obtain ⟨bn, BL, BR, hgb, _, _, _, hBeq⟩ := visitAux_succ_inv hB
          subst hBeq
          exact ⟨bn, hgb, by simp⟩
      have hb : ∀ b, yn.left = some b → b ≠ x ∧ b ≠ y := by
        intro b hbl
        obtain ⟨_, _, hm⟩ := hbcell b hbl
        exact ⟨fun e => hxB (e ▸ hm), fun e => hyB (e ▸ hm)⟩
      have hbA : ∀ b, yn.left = some b → b ∉ A.map Prod.fst := by
        intro b hbl hm
        obtain ⟨_, _, hm2⟩ := hbcell b hbl
        exact hAdisj b hm (by simp [hm2])
      have hbC : ∀ b, yn.left = some b → b ∉ C.map Prod.fst := by
        intro b hbl
        obtain ⟨_, _, hm2⟩ := hbcell b hbl
        exact hBCdisj b hm2
      have hslot : readLink t (getLink t x) = some x ∧
          ∀ p', getLink t x = LinkRef.leftOf p' ∨ getLink t x = LinkRef.rightOf p' →
            p' ∉ (A.map Prod.fst ++ x :: (B.map Prod.fst ++ y :: C.map Prod.fst)) := by
        cases hpar : xn.parent with
        | none =>
          have hroot : t.root = some x := by
            rw [hpar] at hctx
            exact hctx
          have hlink : getLink t x = LinkRef.rootSlot := by
            simp [getLink, hx, hpar]
          constructor
          · rw [hlink]
            exact hroot
          · intro p' hp'
            rw [hlink] at hp'
            rcases hp' with hp' | hp' <;> exact absurd hp' (by simp)
        | some p =>
          rw [hpar] at hctx
          obtain ⟨⟨pn, hgp, hside⟩, hpl⟩ := hctx
          have hplm : p ∉ (A.map Prod.fst ++ x ::
              (B.map Prod.fst ++ y :: C.map Prod.fst)) := by
            intro hm
            exact hpl (by simpa using hm)
          by_cases hpleft : pn.left = some x
          · have hlink : getLink t x = LinkRef.leftOf p := by
              simp [getLink, hx, hpar, hgp, hpleft]
            constructor
            · rw [hlink, readLink_leftOf_of hgp]
              exact hpleft
            · intro p' hp'
              rw [hlink] at hp'
              rcases hp' with hp' | hp'
              · injection hp' with hp'
                subst hp'
                exact hplm
              · exact absurd hp' (by simp)
          · have hpright : pn.right = some x := hside.resolve_left hpleft
            have hlink : getLink t x = LinkRef.rightOf p := by
              simp [getLink, hx, hpar, hgp, hpleft]
            constructor
            · rw [hlink, readLink_rightOf_of hgp]
              exact hpright
            · intro p' hp'
              rw [hlink] at hp'
              rcases hp' with hp' | hp'
              · exact absurd hp' (by simp)
              · injection hp' with hp'
                subst hp'
                exact hplm
      obtain ⟨hread, hpfar⟩ := hslot
      have htouch : ∀ p', getLink t x = LinkRef.leftOf p' ∨
          getLink t x = LinkRef.rightOf p' →
          p' ≠ x ∧ p' ≠ y ∧ ∀ b, yn.left = some b → p' ≠ b := by
        intro p' hp'
        have hnm := hpfar p' hp'
        refine ⟨fun e => hnm (by rw [e]; simp), fun e => hnm (by rw [e]; simp), ?_⟩
        intro b hbl e
        obtain ⟨_, _, hm2⟩ := hbcell b hbl
        exact hnm (by rw [e]; simp [hm2])
      obtain ⟨hgx', hgy', hgb', hfr', _, _, _, _⟩ :=
        leftRotate_cells hx hxr hgy0 hyx hb hread htouch
      rw [hpx] at hgy'
      have hgb2 : ∀ b, yn.left = some b →
          ∃ bn, getN t b = some bn ∧
            getN (leftRotate t (some x)) b = some { bn with parent := some x } := by
        intro b hbl
        obtain ⟨bn, hcell, _⟩ := hbcell b hbl
        exact ⟨bn, hcell, hgb' b bn hbl hcell⟩
      have hfr2 : ∀ q, (q ∈ A.map Prod.fst ∨ q ∈ B.map Prod.fst ∨ q ∈ C.map Prod.fst) →
          q ≠ x → q ≠ y → (∀ b, yn.left = some b → q ≠ b) →
          getN (leftRotate t (some x)) q = getN t q := by
        intro q hqm hqx hqy hqb
        refine hfr' q hqx hqy hqb ?_
        intro p' hp' e
        subst e
        have hnm := hpfar q hp'
        rcases hqm with hm | hm | hm
        · exact hnm (by simp [hm])
        · exact hnm (by simp [hm])
        · exact hnm (by simp [hm])
      exact leftRotate_visit_assemble hA hB hC hgx' hgy' hgb2 hfr2
        hxA hyA hxB hyB hxC hyC hbA hbC hndB

theorem visit_parentLinkStrong {t : RBTree} :
    ∀ f par j l, visitAux t f par j = some l → (l.map Prod.fst).Nodup →
      ∀ q qn, q ∈ l.map Prod.fst → getN t q = some qn →
        (j = some q ∧ qn.parent = par) ∨
        (∃ r rn, r ∈ l.map Prod.fst ∧ getN t r = some rn ∧
          (rn.left = some q ∨ rn.right = some q) ∧ qn.parent = some r ∧ r ≠ q) := by
  intro f
  induction f with
  | zero =>
    intro par j l h _ q qn hq _
    cases j with
    | none =>
      have : l = [] := by
        rw [visitAux_none] at h
        exact (Option.some.inj h).symm
      subst this
      simp at hq
    | some i => exact absurd h visitAux_zero_some
  | succ f ih =>
    intro par j l h hnd q qn hq hgq
    cases j with
    | none =>
      have : l = [] := by
        rw [visitAux_none] at h
        exact (Option.some.inj h).symm
      subst this
      simp at hq
    | some i =>
      obtain ⟨n, L, R, hg, hp, hL, hR, hl⟩ := visitAux_succ_inv h
      subst hl
      have hndn : (L.map Prod.fst ++ i :: R.map Prod.fst).Nodup := by simpa using hnd
      obtain ⟨hiL, hiR, hndL, hndR, hLRdisj⟩ := nodup_mid hndn
      simp only [List.map_append, List.map_cons, List.map_nil, List.mem_append,
        List.mem_cons, List.mem_singleton, List.not_mem_nil, or_false] at hq
      rcases hq with (hq | hq) | hq
      · rcases ih (some i) n.left L hL hndL q qn hq hgq with ⟨hj, hpq⟩ | ⟨r, rn, hr, hgr, hs, hpq, hrq⟩
        · exact Or.inr ⟨i, n, by simp, hg, Or.inl hj, hpq, fun e => hiL (e ▸ hq)⟩
        · exact Or.inr ⟨r, rn, by simp [hr], hgr, hs, hpq, hrq⟩
      · subst hq
        have : n = qn := by rw [hg] at hgq; injection hgq
        subst this
        exact Or.inl ⟨rfl, hp⟩
      · rcases ih (some i) n.right R hR hndR q qn hq hgq with ⟨hj, hpq⟩ | ⟨r, rn, hr, hgr, hs, hpq, hrq⟩
        · exact Or.inr ⟨i, n, by simp, hg, Or.inr hj, hpq, fun e => hiR (e ▸ hq)⟩
        · exact Or.inr ⟨r, rn, by simp [hr], hgr, hs, hpq, hrq⟩

theorem leftRotate_visit_path {t : RBTree} {x : Nat} {xn : Node} {y : Nat} {yn : Node}
    (hx : getN t x = some xn) (hxr : xn.right = some y) (hy : getN t y = some yn)
    (hframe : ∀ q, q ≠ x → q ≠ y → (∀ b, yn.left = some b → q ≠ b) →
        (∀ p, xn.parent = some p → q ≠ p) →
        getN (leftRotate t (some x)) q = getN t q)
    (hpcell : ∀ p pn', xn.parent = some p → getN t p = some pn' →
        (pn'.left = some x →
          getN (leftRotate t (some x)) p = some { pn' with left := some y }) ∧
        (pn'.left ≠ some x → pn'.right = some x →
          getN (leftRotate t (some x)) p = some { pn' with right := some y })) :
    ∀ f par j l, visitAux t f par j = some l → (l.map Prod.fst).Nodup →
      x ∈ l.map Prod.fst →
      (j = some x → match xn.parent with
        | none => t.root = some x
        | some p => (∃ pn, getN t p = some pn ∧
            (pn.left = some x ∨ pn.right = some x)) ∧ p ∉ l.map Prod.fst) →
      visitAux (leftRotate t (some x)) (f + 1) par
        (if j = some x then some y else j) = some l := by
  intro f
  induction f with
  | zero =>
    intro par j l h _ hmem _
    cases j with
    | none =>
      rw [visitAux_none] at h
      have : l = [] := (Option.some.inj h).symm
      subst this
      simp at hmem
    | some i => exact absurd h visitAux_zero_some
  | succ f ih =>
    intro par j l h hnd hmem hpx
    cases j with
    | none =>
      rw [visitAux_none] at h
      have : l = [] := (Option.some.inj h).symm
      subst this
      simp at hmem
    | some i =>
      by_cases hix : i = x
      · subst hix
        rw [if_pos rfl]
        exact leftRotate_visit hx hxr h hnd (hpx rfl)
      · have hjx : (some i : Option Nat) ≠ some x := by simpa using hix
        rw [if_neg hjx]
        obtain ⟨n, L, R, hg, hp, hL, hR, hl⟩ := visitAux_succ_inv h
        subst hl
        have hndn : (L.map Prod.fst ++ i :: R.map Prod.fst).Nodup := by simpa using hnd
        obtain ⟨hiL, hiR, hndL, hndR, hLRdisj⟩ := nodup_mid hndn
        simp only [List.map_append, List.map_cons, List.map_nil, List.mem_append,
          List.mem_cons, List.mem_singleton, List.not_mem_nil, or_false] at hmem
        rcases hmem with (hxL | hxi) | hxR
        · -- x lies in the left subtree of i
          have hyL : y ∈ L.map Prod.fst :=
            visit_childMem_right _ _ _ _ hL x xn y hxL hx hxr
          have hbL : ∀ b, yn.left = some b → b ∈ L.map Prod.fst := fun b hbl =>
            visit_childMem_left _ _ _ _ hL y yn b hyL hy hbl
          have ihL := ih (some i) n.left L hL hndL hxL (by
            intro e
            rw [e] at hL
            cases f with
            | zero => exact absurd hL visitAux_zero_some
            | succ f2 =>
              obtain ⟨n2, _, _, hg2, hp2, _, _, _⟩ := visitAux_succ_inv hL
              have hn2 : n2 = xn := by rw [hx] at hg2; exact (Option.some.inj hg2).symm
              subst hn2
              rw [hp2]
              exact ⟨⟨n, hg, Or.inl e⟩, hiL⟩)
          have hRfr : ∀ q ∈ R.map Prod.fst,
              getN (leftRotate t (some x)) q = getN t q := by
            intro q hq
            refine hframe q (fun e => hLRdisj x hxL (e ▸ hq))
              (fun e => hLRdisj y hyL (e ▸ hq))
              (fun b hbl e => hLRdisj b (hbL b hbl) (e ▸ hq)) ?_
            intro p2 hp2 e
            rcases visit_parentLinkStrong _ _ _ _ hL hndL x xn hxL hx with
              ⟨hjeq, hpar⟩ | ⟨r, rn, hrL, hgr, hside, hpar, hrx⟩
            · rw [hpar] at hp2
              injection hp2 with hp2
              subst hp2
              exact hiR (e ▸ hq)
            · rw [hpar] at hp2
              injection hp2 with hp2
              subst hp2
              exact hLRdisj r hrL (e ▸ hq)
          have hR' : visitAux (leftRotate t (some x)) (f + 1) (some i) n.right = some R :=
            visitAux_congr _ _ _ _ (visitAux_mono t _ _ _ _ hR) hRfr
          rcases visit_parentLinkStrong _ _ _ _ hL hndL x xn hxL hx with
            ⟨hjeq, hpar⟩ | ⟨r, rn, hrL, hgr, hside, hpar, hrx⟩
          · -- x is the left child of i: the rotation rewires i's left slot to y
            simp only [hjeq, if_pos] at ihL
            have hgi' : getN (leftRotate t (some x)) i = some { n with left := some y } :=
              (hpcell i n hpar hg).1 hjeq
            exact visitAux_build { n with left := some y } hgi' hp ihL hR'
          · -- x is strictly inside the left subtree: i's cell is untouched
            have hnlx : n.left ≠ some x := by
              intro e
              rw [e] at hL
              cases f with
              | zero => exact absurd hL visitAux_zero_some
              | succ f2 =>
                obtain ⟨n2, _, _, hg2, hp2, _, _, _⟩ := visitAux_succ_inv hL
                have hn2 : n2 = xn := by rw [hx] at hg2; exact (Option.some.inj hg2).symm
                subst hn2
                rw [hpar] at hp2
                injection hp2 with hp2
                exact hiL (hp2 ▸ hrL)
            simp only [if_neg hnlx] at ihL
            have hgi' : getN (leftRotate t (some x)) i = some n := by
              have hfr := hframe i hix (fun e => hiL (e ▸ hyL))
                (fun b hbl e => hiL (e ▸ hbL b hbl)) (by
                  intro p2 hp2 e
                  rw [hpar] at hp2
                  injection hp2 with hp2
                  subst hp2
                  exact hiL (e ▸ hrL))
              rw [hfr]
              exact hg
            exact visitAux_build n hgi' hp ihL hR'
        · exact absurd hxi.symm hix
        · -- x lies in the right subtree of i
          have hyR : y ∈ R.map Prod.fst :=
            visit_childMem_right _ _ _ _ hR x xn y hxR hx hxr
          have hbR : ∀ b, yn.left = some b → b ∈ R.map Prod.fst := fun b hbl =>
            visit_childMem_left _ _ _ _ hR y yn b hyR hy hbl
          have ihR := ih (some i) n.right R hR hndR hxR (by
            intro e
            rw [e] at hR
            cases f with
            | zero => exact absurd hR visitAux_zero_some
            | succ f2 =>
              obtain ⟨n2, _, _, hg2, hp2, _, _, _⟩ := visitAux_succ_inv hR
              have hn2 : n2 = xn := by rw [hx] at hg2; exact (Option.some.inj hg2).symm
              subst hn2
              rw [hp2]
              exact ⟨⟨n, hg, Or.inr e⟩, hiR⟩)
          have hLfr : ∀ q ∈ L.map Prod.fst,
              getN (leftRotate t (some x)) q = getN t q := by
            intro q hq
            refine hframe q (fun e => hLRdisj q hq (e ▸ hxR))
              (fun e => hLRdisj q hq (e ▸ hyR))
              (fun b hbl e => hLRdisj q hq (e ▸ hbR b hbl)) ?_
            intro p2 hp2 e
            rcases visit_parentLinkStrong _ _ _ _ hR hndR x xn hxR hx with
              ⟨hjeq, hpar⟩ | ⟨r, rn, hrR, hgr, hside, hpar, hrx⟩
            · rw [hpar] at hp2
              injection hp2 with hp2
              subst hp2
              exact hiL (e ▸ hq)
            · rw [hpar] at hp2
              injection hp2 with hp2
              subst hp2
              exact hLRdisj q hq (e ▸ hrR)
          have hL' : visitAux (leftRotate t (some x)) (f + 1) (some i) n.left = some L :=
            visitAux_congr _ _ _ _ (visitAux_mono t _ _ _ _ hL) hLfr
          rcases visit_parentLinkStrong _ _ _ _ hR hndR x xn hxR hx with
            ⟨hjeq, hpar⟩ | ⟨r, rn, hrR, hgr, hside, hpar, hrx⟩
          · -- x is the right child of i
            simp only [hjeq, if_pos] at ihR
            have hnlx : n.left ≠ some x := by
              intro e
              rw [e] at hL
              cases f with
              | zero => exact absurd hL visitAux_zero_some
              | succ f2 =>
                obtain ⟨n2, L2, R2, hg2, hp2, _, _, hleq⟩ := visitAux_succ_inv hL
                have hxinL : x ∈ L.map Prod.fst := by
                  subst hleq
                  simp
                exact hLRdisj x hxinL hxR
            have hgi' : getN (leftRotate t (some x)) i = some { n with right := some y } :=
              (hpcell i n hpar hg).2 hnlx hjeq
            exact visitAux_build { n with right := some y } hgi' hp hL' ihR
          · -- x is strictly inside the right subtree
            have hnrx : n.right ≠ some x := by
              intro e
              rw [e] at hR
              cases f with
              | zero => exact absurd hR visitAux_zero_some
              | succ f2 =>
                obtain ⟨n2, _, _, hg2, hp2, _, _, _⟩ := visitAux_succ_inv hR
                have hn2 : n2 = xn := by rw [hx] at hg2; exact (Option.some.inj hg2).symm
                subst hn2
                rw [hpar] at hp2
                injection hp2 with hp2
                exact hiR (hp2 ▸ hrR)
            simp only [if_neg hnrx] at ihR
            have hgi' : getN (leftRotate t (some x)) i = some n := by
              have hfr := hframe i hix (fun e => hiR (e ▸ hyR))
                (fun b hbl e => hiR (e ▸ hbR b hbl)) (by
                  intro p2 hp2 e
                  rw [hpar] at hp2
                  injection hp2 with hp2
                  subst hp2
                  exact hiR (e ▸ hrR))
              rw [hfr]
              exact hg
            exact visitAux_build n hgi' hp hL' ihR

theorem visit_nest {t : RBTree} :
    ∀ f par j l, visitAux t f par j = some l →
      ∀ q, q ∈ l.map Prod.fst →
        ∃ f' par' lq, f' ≤ f ∧ visitAux t f' par' (some q) = some lq ∧ lq <:+: l := by
  intro f
  induction f with
  | zero =>
    intro par j l h q hq
    cases j with
    | none =>
      rw [visitAux_none] at h
      have : l = [] := (Option.some.inj h).symm
      subst this
      simp at hq
    | some i => exact absurd h visitAux_zero_some
  | succ f ih =>
    intro par j l h q hq
    cases j with
    | none =>
      rw [visitAux_none] at h
      have : l = [] := (Option.some.inj h).symm
      subst this
      simp at hq
    | some i =>
      obtain ⟨n, L, R, hg, hp, hL, hR, hl⟩ := visitAux_succ_inv h
      rw [hl] at hq
      simp only [List.map_append, List.map_cons, List.map_nil, List.mem_append,
        List.mem_cons, List.mem_singleton, List.not_mem_nil, or_false] at hq
      rcases hq with (hq | hq) | hq
      · obtain ⟨f', par', lq, hf, hvq, hinf⟩ := ih (some i) n.left L hL q hq
        refine ⟨f', par', lq, by omega, hvq, hinf.trans ?_⟩
        rw [hl]
        exact ⟨[], [(i, n.key)] ++ R, by simp⟩
      · subst hq
        exact ⟨f + 1, par, l, le_refl _, h, List.infix_refl l⟩
      · obtain ⟨f', par', lq, hf, hvq, hinf⟩ := ih (some i) n.right R hR q hq
        refine ⟨f', par', lq, by omega, hvq, hinf.trans ?_⟩
        rw [hl]
        exact ⟨L ++ [(i, n.key)], [], by simp⟩

theorem leftRotate_inorder {t : RBTree} {f : Nat} {vs : List (Nat × Int)}
    {x : Nat} {xn : Node} {y : Nat}
    (hv : visitAux t f none t.root = some vs)
    (hnd : (vs.map Prod.fst).Nodup)
    (hxm : x ∈ vs.map Prod.fst)
    (hx : getN t x = some xn) (hxr : xn.right = some y) :
    ∃ g, visitAux (leftRotate t (some x)) g none
      (leftRotate t (some x)).root = some vs := by
  obtain ⟨fx, parx, lx, hfx, hvx, hinf⟩ := visit_nest _ _ _ _ hv x hxm
  have hndlx : (lx.map Prod.fst).Nodup := hnd.sublist (hinf.sublist.map Prod.fst)
  cases fx with
  | zero => exact absurd hvx visitAux_zero_some
  | succ fx1 =>
    obtain ⟨n, A, RY, hgx0, hpx0, hA, hRY, hlx⟩ := visitAux_succ_inv hvx
    have hnx : xn = n := by rw [hx] at hgx0; exact Option.some.inj hgx0
    subst hnx
    rw [hxr] at hRY
    cases fx1 with
    | zero => exact absurd hRY visitAux_zero_some
    | succ fx2 =>
      obtain ⟨yn, B, C, hgy0, hpy0, hB, hC, hry⟩ := visitAux_succ_inv hRY
      subst hry
      subst hlx
      have hndn : (A.map Prod.fst ++ x ::
          (B.map Prod.fst ++ y :: C.map Prod.fst)).Nodup := by
        simpa using hndlx
      obtain ⟨hxA, hxRest, hndA, hndRest, hAdisj⟩ := nodup_mid hndn
      obtain ⟨hyB, hyC, hndB, hndC, hBCdisj⟩ := nodup_mid hndRest
      have hyx : y ≠ x := fun e => hxRest (by rw [← e]; simp)
      have hbcell : ∀ b, yn.left = some b →
          ∃ bn, getN t b = some bn ∧ b ∈ B.map Prod.fst := by
        intro b hbl
        rw [hbl] at hB
        cases fx2 with
        | zero => exact absurd hB visitAux_zero_some
        | succ fx3 =>
          obtain ⟨bn, BL, BR, hgb, _, _, _, hBeq⟩ := visitAux_succ_inv hB
          subst hBeq
          exact ⟨bn, hgb, by simp⟩
      have hb : ∀ b, yn.left = some b → b ≠ x ∧ b ≠ y := by
        intro b hbl
        obtain ⟨_, _, hm⟩ := hbcell b hbl
        exact ⟨fun e => hxRest (by rw [← e]; simp [hm]),
          fun e => hyB (e ▸ hm)⟩
      rcases visit_parentLinkStrong _ _ _ _ hv hnd x xn hxm hx with
        ⟨hjeq, hpar⟩ | ⟨p, pn, hpm, hgp, hside, hpar, hpx⟩
      · -- x is the root of the whole tree
        have hlink : getLink t x = LinkRef.rootSlot := by
          simp [getLink, hx, hpar]
        have hread : readLink t (getLink t x) = some x := by
          rw [hlink]
          exact hjeq
        have htouch : ∀ p', getLink t x = LinkRef.leftOf p' ∨
            getLink t x = LinkRef.rightOf p' →
            p' ≠ x ∧ p' ≠ y ∧ ∀ b, yn.left = some b → p' ≠ b := by
          intro p' hp'
          rw [hlink] at hp'
          rcases hp' with h' | h' <;> exact absurd h' (by simp)
        obtain ⟨_, _, _, hfr4, _, _, hroot7, _⟩ :=
          leftRotate_cells hx hxr hgy0 hyx hb hread htouch
        have hframe : ∀ q, q ≠ x → q ≠ y → (∀ b, yn.left = some b → q ≠ b) →
            (∀ p2, xn.parent = some p2 → q ≠ p2) →
            getN (leftRotate t (some x)) q = getN t q := by
          intro q hqx hqy hqb _
          refine hfr4 q hqx hqy hqb ?_
          intro p' hp'
          rw [hlink] at hp'
          rcases hp' with h' | h' <;> exact absurd h' (by simp)
        have hpcell : ∀ p2 pn2, xn.parent = some p2 → getN t p2 = some pn2 →
            (pn2.left = some x → getN (leftRotate t (some x)) p2 =
              some { pn2 with left := some y }) ∧
            (pn2.left ≠ some x → pn2.right = some x →
              getN (leftRotate t (some x)) p2 =
              some { pn2 with right := some y }) := by
          intro p2 pn2 hp2 _
          rw [hpar] at hp2
          exact absurd hp2 (by simp)
        have hmain := leftRotate_visit_path hx hxr hgy0 hframe hpcell f none
          t.root vs hv hnd hxm (fun _ => by rw [hpar]; exact hjeq)
        simp only [hjeq, if_pos] at hmain
        refine ⟨f + 1, ?_⟩
        rw [hroot7 hlink]
        exact hmain
      · -- x has a parent p whose child slot owns it
        have hplx : p ∉ (A ++ [(x, xn.key)] ++
            (B ++ [(y, yn.key)] ++ C)).map Prod.fst := by
          intro hm
          simp only [List.map_append, List.map_cons, List.map_nil, List.mem_append,
            List.mem_cons, List.mem_singleton, List.not_mem_nil, or_false] at hm
          rcases hm with (hm | hm) | hm
          · rcases hside with hs | hs
            · exact hxA (visit_childMem_left _ _ _ _ hA p pn x hm hgp hs)
            · exact hxA (visit_childMem_right _ _ _ _ hA p pn x hm hgp hs)
          · exact hpx hm
          · have hm2 : p ∈ (B ++ [(y, yn.key)] ++ C).map Prod.fst := by
              simp only [List.map_append, List.map_cons, List.map_nil, List.mem_append,
                List.mem_cons, List.mem_singleton, List.not_mem_nil, or_false] at hm ⊢
              tauto
            have hxRY : x ∈ (B ++ [(y, yn.key)] ++ C).map Prod.fst := by
              rcases hside with hs | hs
              · exact visit_childMem_left _ _ _ _ hRY p pn x hm2 hgp hs
              · exact visit_childMem_right _ _ _ _ hRY p pn x hm2 hgp hs
            refine hxRest ?_
            simp only [List.map_append, List.map_cons, List.map_nil, List.mem_append,
              List.mem_cons, List.mem_singleton, List.not_mem_nil, or_false] at hxRY ⊢
            tauto
        have hpy : p ≠ y := fun e => hplx (by rw [e]; simp)
        have hpb : ∀ b, yn.left = some b → p ≠ b := by
          intro b hbl e
          obtain ⟨_, _, hm⟩ := hbcell b hbl
          exact hplx (by rw [e]; simp [hm])
        have hcond : t.root = some x → False := by
          intro e
          rw [e] at hv
          cases f with
          | zero => exact absurd hv visitAux_zero_some
          | succ f9 =>
            obtain ⟨n2, _, _, hg2, hp2, _, _, _⟩ := visitAux_succ_inv hv
            have hn2 : n2 = xn := by rw [hx] at hg2; exact (Option.some.inj hg2).symm
            subst hn2
            rw [hpar] at hp2
            exact Option.noConfusion hp2
        have hrootsome : ∃ r, t.root = some r ∧ r ≠ x := by
          cases hroot : t.root with
          | none =>
            rw [hroot, visitAux_none] at hv
            have : vs = [] := (Option.some.inj hv).symm
            subst this
            simp at hxm
          | some r =>
            refine ⟨r, rfl, ?_⟩
            intro e
            subst e
            exact hcond hroot
        obtain ⟨r, hroot, hrx⟩ := hrootsome
        by_cases hpleft : pn.left = some x
        · have hlink : getLink t x = LinkRef.leftOf p := by
            simp [getLink, hx, hpar, hgp, hpleft]
          have hread : readLink t (getLink t x) = some x := by
            rw [hlink, readLink_leftOf_of hgp]
            exact hpleft
          have htouch : ∀ p', getLink t x = LinkRef.leftOf p' ∨
              getLink t x = LinkRef.rightOf p' →
              p' ≠ x ∧ p' ≠ y ∧ ∀ b, yn.left = some b → p' ≠ b := by
            intro p' hp'
            rw [hlink] at hp'
            rcases hp' with h' | h'
            · injection h' with h'
              subst h'
              exact ⟨hpx, hpy, hpb⟩
            · exact absurd h' (by simp)
          obtain ⟨_, _, _, hfr4, hslotL, _, _, hroot8⟩ :=
            leftRotate_cells hx hxr hgy0 hyx hb hread htouch
          have hframe : ∀ q, q ≠ x → q ≠ y → (∀ b, yn.left = some b → q ≠ b) →
              (∀ p2, xn.parent = some p2 → q ≠ p2) →
              getN (leftRotate t (some x)) q = getN t q := by
            intro q hqx hqy hqb hqp
            refine hfr4 q hqx hqy hqb ?_
            intro p' hp'
            rw [hlink] at hp'
            rcases hp' with h' | h'
            · injection h' with h'
              subst h'
              exact hqp p hpar
            · exact absurd h' (by simp)
          have hpcell : ∀ p2 pn2, xn.parent = some p2 → getN t p2 = some pn2 →
              (pn2.left = some x → getN (leftRotate t (some x)) p2 =
                some { pn2 with left := some y }) ∧
              (pn2.left ≠ some x → pn2.right = some x →
                getN (leftRotate t (some x)) p2 =
                some { pn2 with right := some y }) := by
            intro p2 pn2 hp2 hgp2
            rw [hpar] at hp2
            injection hp2 with hp2
            subst hp2
            have hpn2 : pn = pn2 := by rw [hgp] at hgp2; exact Option.some.inj hgp2
            subst hpn2
            constructor
            · intro _
              exact hslotL p pn hlink hgp
            · intro hne _
              exact absurd hpleft hne
          have hmain := leftRotate_visit_path hx hxr hgy0 hframe hpcell f none
            t.root vs hv hnd hxm (fun e => absurd e (fun e2 => hcond e2))
          rw [hroot] at hmain
          rw [if_neg (by simpa using hrx)] at hmain
          refine ⟨f + 1, ?_⟩
          rw [hroot8 p (Or.inl hlink), hroot]
          exact hmain
        · have hpright : pn.right = some x := hside.resolve_left hpleft
          have hlink : getLink t x = LinkRef.rightOf p := by
            simp [getLink, hx, hpar, hgp, hpleft]
          have hread : readLink t (getLink t x) = some x := by
            rw [hlink, readLink_rightOf_of hgp]
            exact hpright
          have htouch : ∀ p', getLink t x = LinkRef.leftOf p' ∨
              getLink t x = LinkRef.rightOf p' →
              p' ≠ x ∧ p' ≠ y ∧ ∀ b, yn.left = some b → p' ≠ b := by
            intro p' hp'
            rw [hlink] at hp'
            rcases hp' with h' | h'
            · exact absurd h' (by simp)
            · injection h' with h'
              subst h'
              exact ⟨hpx, hpy, hpb⟩
          obtain ⟨_, _, _, hfr4, _, hslotR, _, hroot8⟩ :=
            leftRotate_cells hx hxr hgy0 hyx hb hread htouch
          have hframe : ∀ q, q ≠ x → q ≠ y → (∀ b, yn.left = some b → q ≠ b) →
              (∀ p2, xn.parent = some p2 → q ≠ p2) →
              getN (leftRotate t (some x)) q = getN t q := by
            intro q hqx hqy hqb hqp
            refine hfr4 q hqx hqy hqb ?_
            intro p' hp'
            rw [hlink] at hp'
            rcases hp' with h' | h'
            · exact absurd h' (by simp)
            · injection h' with h'
              subst h'
              exact hqp p hpar
          have hpcell : ∀ p2 pn2, xn.parent = some p2 → getN t p2 = some pn2 →
              (pn2.left = some x → getN (leftRotate t (some x)) p2 =
                some { pn2 with left := some y }) ∧
              (pn2.left ≠ some x → pn2.right = some x →
                getN (leftRotate t (some x)) p2 =
                some { pn2 with right := some y }) := by
            intro p2 pn2 hp2 hgp2
            rw [hpar] at hp2
            injection hp2 with hp2
            subst hp2
            have hpn2 : pn = pn2 := by rw [hgp] at hgp2; exact Option.some.inj hgp2
            subst hpn2
            constructor
            · intro he
              exact absurd he hpleft
            · intro _ _
              exact hslotR p pn hlink hgp
          have hmain := leftRotate_visit_path hx hxr hgy0 hframe hpcell f none
            t.root vs hv hnd hxm (fun e => absurd e (fun e2 => hcond e2))
          rw [hroot] at hmain
          rw [if_neg (by simpa using hrx)] at hmain
          refine ⟨f + 1, ?_⟩
          rw [hroot8 p (Or.inr hlink), hroot]
          exact hmain

theorem rightRotate_cells {t : RBTree} {y x : Nat} {yn xn : Node}
    (hy : getN t y = some yn) (hyl : yn.left = some x) (hx : getN t x = some xn)
    (hxy : x ≠ y)
    (hb : ∀ b, xn.right = some b → b ≠ y ∧ b ≠ x)
    (hread : readLink t (getLink t y) = some y)
    (htouch : ∀ p', getLink t y = LinkRef.leftOf p' ∨ getLink t y = LinkRef.rightOf p' →
        p' ≠ y ∧ p' ≠ x ∧ ∀ b, xn.right = some b → p' ≠ b) :
    getN (rightRotate t (some y)) y = some { yn with left := xn.right, parent := some x } ∧
    getN (rightRotate t (some y)) x = some { xn with right := some y, parent := yn.parent } ∧
    (∀ b bn, xn.right = some b → getN t b = some bn →
        getN (rightRotate t (some y)) b = some { bn with parent := some y }) ∧
    (∀ q, q ≠ y → q ≠ x → (∀ b, xn.right = some b → q ≠ b) →
        (∀ p', getLink t y = LinkRef.leftOf p' ∨ getLink t y = LinkRef.rightOf p' →
          q ≠ p') →
        getN (rightRotate t (some y)) q = getN t q) ∧
    (∀ p' pn', getLink t y = LinkRef.leftOf p' → getN t p' = some pn' →
        getN (rightRotate t (some y)) p' = some { pn' with left := some x }) ∧
    (∀ p' pn', getLink t y = LinkRef.rightOf p' → getN t p' = some pn' →
        getN (rightRotate t (some y)) p' = some { pn' with right := some x }) ∧
    (getLink t y = LinkRef.rootSlot → (rightRotate t (some y)).root = some x) ∧
    (∀ p', getLink t y = LinkRef.leftOf p' ∨ getLink t y = LinkRef.rightOf p' →
        (rightRotate t (some y)).root = t.root) := by
  have hyx : y ≠ x := Ne.symm hxy
  have hfy : ∀ p', getLink t y = LinkRef.leftOf p' ∨ getLink t y = LinkRef.rightOf p' →
      y ≠ p' := fun p' hp' e => (htouch p' hp').1 e.symm
  have hfx : ∀ p', getLink t y = LinkRef.leftOf p' ∨ getLink t y = LinkRef.rightOf p' →
      x ≠ p' := fun p' hp' e => (htouch p' hp').2.1 e.symm
  have e1 : getN (setLeft t y none) x = some xn := by
    rw [getN_setLeft_ne t y none hxy]; exact hx
  cases hxr : xn.right with
  | none =>
    have e2 : readLink (setLeft t y none) (LinkRef.rightOf x) = xn.right :=
      readLink_rightOf_of e1
    have e3 : getN (setLeft (setRight (setLeft t y none) x none) y none) y =
        some { yn with left := none } := by
      have i1 : getN (setRight (setLeft t y none) x none) y =
          some { yn with left := none } := by
        rw [getN_setRight_ne _ _ _ hyx]
        exact getN_setLeft_self none hy
      simpa using getN_setLeft_self none i1
    have hroot4 : (setParent (setLeft (setRight (setLeft t y none) x none) y none) x
        yn.parent).root = t.root := by
      rw [root_setParent, root_setLeft, root_setRight, root_setLeft]
    have hcell4 : ∀ p', getLink t y = LinkRef.leftOf p' ∨ getLink t y = LinkRef.rightOf p' →
        getN (setParent (setLeft (setRight (setLeft t y none) x none) y none) x
          yn.parent) p' = getN t p' := by
      intro p' hp'
      obtain ⟨hpy, hpx, _⟩ := htouch p' hp'
      rw [getN_setParent_ne _ _ _ hpx, getN_setLeft_ne _ _ _ hpy,
        getN_setRight_ne _ _ _ hpx, getN_setLeft_ne _ _ _ hpy]
    have hv4 : readLink (setParent (setLeft (setRight (setLeft t y none) x none) y none) x
        yn.parent) (getLink t y) = some y := by
      rw [readLink_congr (getLink t y) hroot4 hcell4]
      exact hread
    refine ⟨?_, ?_, ?_, ?_, ?_, ?_, ?_, ?_⟩
    · simp only [rightRotate, hy, hyl, moveLink, writeLink_leftOf, writeLink_rightOf,
        e1, e2, e3, hxr, hv4]
      rw [getN_writeLink_frame _ _ _ hfy]
      have hSy : getN (setRight (writeLink (setParent (setLeft (setRight (setLeft t y none)
          x none) y none) x yn.parent) (getLink t y) none) x (some y)) y =
          some { yn with left := none } := by
        rw [getN_setRight_ne _ _ _ hyx, getN_writeLink_frame _ _ _ hfy,
          getN_setParent_ne _ _ _ hyx]
        exact e3
      rw [getN_setParent_self (some x) hSy]
    · simp only [rightRotate, hy, hyl, moveLink, writeLink_leftOf, writeLink_rightOf,
        e1, e2, e3, hxr, hv4]
      rw [getN_writeLink_frame _ _ _ hfx, getN_setParent_ne _ _ _ hxy]
      have hSx : getN (writeLink (setParent (setLeft (setRight (setLeft t y none)
          x none) y none) x yn.parent) (getLink t y) none) x =
          some { xn with right := none, parent := yn.parent } := by
        rw [getN_writeLink_frame _ _ _ hfx]
        have i2 : getN (setLeft (setRight (setLeft t y none) x none) y none) x =
            some { xn with right := none } := by
          rw [getN_setLeft_ne _ _ _ hxy]
          exact getN_setRight_self none e1
        simpa using getN_setParent_self yn.parent i2
      simpa using getN_setRight_self (some y) hSx
    · intro b bn hbl _
      exact Option.noConfusion hbl
    · intro q hqy hqx _ hqp
      simp only [rightRotate, hy, hyl, moveLink, writeLink_leftOf, writeLink_rightOf,
        e1, e2, e3, hxr, hv4]
      rw [getN_writeLink_frame _ _ _ hqp, getN_setParent_ne _ _ _ hqy,
        getN_setRight_ne _ _ _ hqx, getN_writeLink_frame _ _ _ hqp,
        getN_setParent_ne _ _ _ hqx, getN_setLeft_ne _ _ _ hqy,
        getN_setRight_ne _ _ _ hqx, getN_setLeft_ne _ _ _ hqy]
    · intro p' pn' hsl hpn'
      obtain ⟨hp'y, hp'x, _⟩ := htouch p' (Or.inl hsl)
      have e4 : getN (setParent (setLeft (setRight (setLeft t y none) x none) y none) x yn.parent) p' = some pn' := by
        rw [hcell4 p' (Or.inl hsl)]
        exact hpn'
      have e5 : readLink (setParent (setLeft (setRight (setLeft t y none) x none) y none) x yn.parent) (LinkRef.leftOf p') = pn'.left :=
        readLink_leftOf_of e4
      have hply : pn'.left = some y := by
        rw [hsl, readLink_leftOf_of hpn'] at hread
        exact hread
      simp only [rightRotate, hy, hyl, moveLink, e1, e2, e3, hxr, hsl, e5, hply, writeLink_leftOf, writeLink_rightOf]
      have i1 : getN (setLeft (setParent (setLeft (setRight (setLeft t y none) x none) y none) x yn.parent) p' none) p' = some { pn' with left := none } :=
        getN_setLeft_self none e4
      have i2 : getN (setRight (setLeft (setParent (setLeft (setRight (setLeft t y none) x none) y none) x yn.parent) p' none) x (some y)) p' =
          some { pn' with left := none } := by
        rw [getN_setRight_ne _ _ _ hp'x]
        exact i1
      have i3 : getN (setParent (setRight (setLeft (setParent (setLeft (setRight (setLeft t y none) x none) y none) x yn.parent) p' none) x (some y)) y
          (some x)) p' = some { pn' with left := none } := by
        rw [getN_setParent_ne _ _ _ hp'y]
        exact i2
      simpa using getN_setLeft_self (some x) i3
    · intro p' pn' hsl hpn'
      obtain ⟨hp'y, hp'x, _⟩ := htouch p' (Or.inr hsl)
      have e4 : getN (setParent (setLeft (setRight (setLeft t y none) x none) y none) x yn.parent) p' = some pn' := by
        rw [hcell4 p' (Or.inr hsl)]
        exact hpn'
      have e5 : readLink (setParent (setLeft (setRight (setLeft t y none) x none) y none) x yn.parent) (LinkRef.rightOf p') = pn'.right :=
        readLink_rightOf_of e4
      have hpry : pn'.right = some y := by
        rw [hsl, readLink_rightOf_of hpn'] at hread
        exact hread
      simp only [rightRotate, hy, hyl, moveLink, e1, e2, e3, hxr, hsl, e5, hpry, writeLink_leftOf, writeLink_rightOf]
      have i1 : getN (setRight (setParent (setLeft (setRight (setLeft t y none) x none) y none) x yn.parent) p' none) p' = some { pn' with right := none } :=
        getN_setRight_self none e4
      have i2 : getN (setRight (setRight (setParent (setLeft (setRight (setLeft t y none) x none) y none) x yn.parent) p' none) x (some y)) p' =
          some { pn' with right := none } := by
        rw [getN_setRight_ne _ _ _ hp'x]
        exact i1
      have i3 : getN (setParent (setRight (setRight (setParent (setLeft (setRight (setLeft t y none) x none) y none) x yn.parent) p' none) x (some y)) y
          (some x)) p' = some { pn' with right := none } := by
        rw [getN_setParent_ne _ _ _ hp'y]
        exact i2
      simpa using getN_setRight_self (some x) i3
    · intro hsl
      simp only [rightRotate, hy, hyl, moveLink, e1, e2, e3, hxr, hsl, writeLink_leftOf, writeLink_rightOf, writeLink]
    · intro p' hp'
      rcases hp' with hsl | hsl
      · simp only [rightRotate, hy, hyl, moveLink, e1, e2, e3, hxr, hsl, writeLink_leftOf, writeLink_rightOf]
        split <;>
          simp [root_setLeft, root_setRight, root_setParent]
      · simp only [rightRotate, hy, hyl, moveLink, e1, e2, e3, hxr, hsl, writeLink_leftOf, writeLink_rightOf]
        split <;>
          simp [root_setLeft, root_setRight, root_setParent]
  | some b =>
    obtain ⟨hby, hbx⟩ := hb b hxr
    have e1b : getN (setParent (setLeft t y none) b (some y)) x = some xn := by
      rw [getN_setParent_ne _ _ _ hbx.symm]
      exact e1
    have e2 : readLink (setParent (setLeft t y none) b (some y)) (LinkRef.rightOf x) =
        xn.right := readLink_rightOf_of e1b
    have e3 : getN (setLeft (setRight (setParent (setLeft t y none) b (some y)) x none)
        y (some b)) y = some { yn with left := some b } := by
      have i1 : getN (setRight (setParent (setLeft t y none) b (some y)) x none) y =
          some { yn with left := none } := by
        rw [getN_setRight_ne _ _ _ hyx, getN_setParent_ne _ _ _ hby.symm]
        exact getN_setLeft_self none hy
      simpa using getN_setLeft_self (some b) i1
    have hroot4 : (setParent (setLeft (setRight (setParent (setLeft t y none) b (some y))
        x none) y (some b)) x yn.parent).root = t.root := by
      rw [root_setParent, root_setLeft, root_setRight, root_setParent, root_setLeft]
    have hcell4 : ∀ p', getLink t y = LinkRef.leftOf p' ∨ getLink t y = LinkRef.rightOf p' →
        getN (setParent (setLeft (setRight (setParent (setLeft t y none) b (some y))
          x none) y (some b)) x yn.parent) p' = getN t p' := by
      intro p' hp'
      obtain ⟨hpy, hpx, hpb⟩ := htouch p' hp'
      rw [getN_setParent_ne _ _ _ hpx, getN_setLeft_ne _ _ _ hpy,
        getN_setRight_ne _ _ _ hpx, getN_setParent_ne _ _ _ (hpb b hxr),
        getN_setLeft_ne _ _ _ hpy]
    have hv4 : readLink (setParent (setLeft (setRight (setParent (setLeft t y none) b
        (some y)) x none) y (some b)) x yn.parent) (getLink t y) = some y := by
      rw [readLink_congr (getLink t y) hroot4 hcell4]
      exact hread
    refine ⟨?_, ?_, ?_, ?_, ?_, ?_, ?_, ?_⟩
    · simp only [rightRotate, hy, hyl, moveLink, writeLink_leftOf, writeLink_rightOf,
        e1, e1b, e2, e3, hxr, hv4]
      rw [getN_writeLink_frame _ _ _ hfy]
      have hSy : getN (setRight (writeLink (setParent (setLeft (setRight (setParent
          (setLeft t y none) b (some y)) x none) y (some b)) x yn.parent)
          (getLink t y) none) x (some y)) y = some { yn with left := some b } := by
        rw [getN_setRight_ne _ _ _ hyx, getN_writeLink_frame _ _ _ hfy,
          getN_setParent_ne _ _ _ hyx]
        exact e3
      rw [getN_setParent_self (some x) hSy]
    · simp only [rightRotate, hy, hyl, moveLink, writeLink_leftOf, writeLink_rightOf,
        e1, e1b, e2, e3, hxr, hv4]
      rw [getN_writeLink_frame _ _ _ hfx, getN_setParent_ne _ _ _ hxy]
      have hSx : getN (writeLink (setParent (setLeft (setRight (setParent (setLeft t y
          none) b (some y)) x none) y (some b)) x yn.parent) (getLink t y) none) x =
          some { xn with right := none, parent := yn.parent } := by
        rw [getN_writeLink_frame _ _ _ hfx]
        have i2 : getN (setLeft (setRight (setParent (setLeft t y none) b (some y))
            x none) y (some b)) x = some { xn with right := none } := by
          rw [getN_setLeft_ne _ _ _ hxy]
          exact getN_setRight_self none e1b
        simpa using getN_setParent_self yn.parent i2
      simpa using getN_setRight_self (some y) hSx
    · intro b2 bn hbl hgb
      injection hbl with hbl
      subst hbl
      simp only [rightRotate, hy, hyl, moveLink, writeLink_leftOf, writeLink_rightOf,
        e1, e1b, e2, e3, hxr, hv4]
      rw [getN_writeLink_frame _ _ _ (fun p' hp' e => ((htouch p' hp').2.2 b hxr) e.symm),
        getN_setParent_ne _ _ _ hby, getN_setRight_ne _ _ _ hbx,
        getN_writeLink_frame _ _ _ (fun p' hp' e => ((htouch p' hp').2.2 b hxr) e.symm),
        getN_setParent_ne _ _ _ hbx, getN_setLeft_ne _ _ _ hby,
        getN_setRight_ne _ _ _ hbx]
      exact getN_setParent_self (some y) (by
        rw [getN_setLeft_ne _ _ _ hby]
        exact hgb)
    · intro q hqy hqx hqb hqp
      simp only [rightRotate, hy, hyl, moveLink, writeLink_leftOf, writeLink_rightOf,
        e1, e1b, e2, e3, hxr, hv4]
      rw [getN_writeLink_frame _ _ _ hqp, getN_setParent_ne _ _ _ hqy,
        getN_setRight_ne _ _ _ hqx, getN_writeLink_frame _ _ _ hqp,
        getN_setParent_ne _ _ _ hqx, getN_setLeft_ne _ _ _ hqy,
        getN_setRight_ne _ _ _ hqx, getN_setParent_ne _ _ _ (hqb b rfl),
        getN_setLeft_ne _ _ _ hqy]
    · intro p' pn' hsl hpn'
      obtain ⟨hp'y, hp'x, _⟩ := htouch p' (Or.inl hsl)
      have e4 : getN (setParent (setLeft (setRight (setParent (setLeft t y none) b (some y)) x none) y (some b)) x yn.parent) p' = some pn' := by
        rw [hcell4 p' (Or.inl hsl)]
        exact hpn'
      have e5 : readLink (setParent (setLeft (setRight (setParent (setLeft t y none) b (some y)) x none) y (some b)) x yn.parent) (LinkRef.leftOf p') = pn'.left :=
        readLink_leftOf_of e4
      have hply : pn'.left = some y := by
        rw [hsl, readLink_leftOf_of hpn'] at hread
        exact hread
      simp only [rightRotate, hy, hyl, moveLink, e1, e1b, e2, e3, hxr, hsl, e5, hply, writeLink_leftOf, writeLink_rightOf]
      have i1 : getN (setLeft (setParent (setLeft (setRight (setParent (setLeft t y none) b (some y)) x none) y (some b)) x yn.parent) p' none) p' = some { pn' with left := none } :=
        getN_setLeft_self none e4
      have i2 : getN (setRight (setLeft (setParent (setLeft (setRight (setParent (setLeft t y none) b (some y)) x none) y (some b)) x yn.parent) p' none) x (some y)) p' =
          some { pn' with left := none } := by
        rw [getN_setRight_ne _ _ _ hp'x]
        exact i1
      have i3 : getN (setParent (setRight (setLeft (setParent (setLeft (setRight (setParent (setLeft t y none) b (some y)) x none) y (some b)) x yn.parent) p' none) x (some y)) y
          (some x)) p' = some { pn' with left := none } := by
        rw [getN_setParent_ne _ _ _ hp'y]
        exact i2
      simpa using getN_setLeft_self (some x) i3
    · intro p' pn' hsl hpn'
      obtain ⟨hp'y, hp'x, _⟩ := htouch p' (Or.inr hsl)
      have e4 : getN (setParent (setLeft (setRight (setParent (setLeft t y none) b (some y)) x none) y (some b)) x yn.parent) p' = some pn' := by
        rw [hcell4 p' (Or.inr hsl)]
        exact hpn'
      have e5 : readLink (setParent (setLeft (setRight (setParent (setLeft t y none) b (some y)) x none) y (some b)) x yn.parent) (LinkRef.rightOf p') = pn'.right :=
        readLink_rightOf_of e4
      have hpry : pn'.right = some y := by
        rw [hsl, readLink_rightOf_of hpn'] at hread
        exact hread
      simp only [rightRotate, hy, hyl, moveLink, e1, e1b, e2, e3, hxr, hsl, e5, hpry, writeLink_leftOf, writeLink_rightOf]
      have i1 : getN (setRight (setParent (setLeft (setRight (setParent (setLeft t y none) b (some y)) x none) y (some b)) x yn.parent) p' none) p' = some { pn' with right := none } :=
        getN_setRight_self none e4
      have i2 : getN (setRight (setRight (setParent (setLeft (setRight (setParent (setLeft t y none) b (some y)) x none) y (some b)) x yn.parent) p' none) x (some y)) p' =
          some { pn' with right := none } := by
        rw [getN_setRight_ne _ _ _ hp'x]
        exact i1
      have i3 : getN (setParent (setRight (setRight (setParent (setLeft (setRight (setParent (setLeft t y none) b (some y)) x none) y (some b)) x yn.parent) p' none) x (some y)) y
          (some x)) p' = some { pn' with right := none } := by
        rw [getN_setParent_ne _ _ _ hp'y]
        exact i2
      simpa using getN_setRight_self (some x) i3
    · intro hsl
      simp only [rightRotate, hy, hyl, moveLink, e1, e1b, e2, e3, hxr, hsl, writeLink_leftOf, writeLink_rightOf, writeLink]
    · intro p' hp'
      rcases hp' with hsl | hsl
      · simp only [rightRotate, hy, hyl, moveLink, e1, e1b, e2, e3, hxr, hsl, writeLink_leftOf, writeLink_rightOf]
        split <;>
          simp [root_setLeft, root_setRight, root_setParent]
      · simp only [rightRotate, hy, hyl, moveLink, e1, e1b, e2, e3, hxr, hsl, writeLink_leftOf, writeLink_rightOf]
        split <;>
          simp [root_setLeft, root_setRight, root_setParent]

theorem rightRotate_visit_assemble {t' t : RBTree} {f2 : Nat} {pary : Option Nat}
    {y x : Nat} {yn xn : Node} {A B C : List (Nat × Int)}
    (hC : visitAux t (f2 + 1) (some y) yn.right = some C)
    (hA : visitAux t f2 (some x) xn.left = some A)
    (hB : visitAux t f2 (some x) xn.right = some B)
    (hgy : getN t' y = some { yn with left := xn.right, parent := some x })
    (hgx : getN t' x = some { xn with right := some y, parent := pary })
    (hgb : ∀ b, xn.right = some b →
      ∃ bn, getN t b = some bn ∧ getN t' b = some { bn with parent := some y })
    (hfr : ∀ q, (q ∈ A.map Prod.fst ∨ q ∈ B.map Prod.fst ∨ q ∈ C.map Prod.fst) →
      q ≠ y → q ≠ x → (∀ b, xn.right = some b → q ≠ b) → getN t' q = getN t q)
    (hyA : y ∉ A.map Prod.fst) (hxA : x ∉ A.map Prod.fst)
    (hyB : y ∉ B.map Prod.fst) (hxB : x ∉ B.map Prod.fst)
    (hyC : y ∉ C.map Prod.fst) (hxC : x ∉ C.map Prod.fst)
    (hbA : ∀ b, xn.right = some b → b ∉ A.map Prod.fst)
    (hbC : ∀ b, xn.right = some b → b ∉ C.map Prod.fst)
    (hndB : (B.map Prod.fst).Nodup) :
    visitAux t' (f2 + 3) pary (some x) =
      some ((A ++ [(x, xn.key)] ++ B) ++ [(y, yn.key)] ++ C) := by
  have hAin : ∀ q ∈ A.map Prod.fst, getN t' q = getN t q := by
    intro q hq
    refine hfr q (Or.inl hq) (fun e => hyA (e ▸ hq)) (fun e => hxA (e ▸ hq)) ?_
    intro b hb e
    exact hbA b hb (e ▸ hq)
  have hCin : ∀ q ∈ C.map Prod.fst, getN t' q = getN t q := by
    intro q hq
    refine hfr q (Or.inr (Or.inr hq)) (fun e => hyC (e ▸ hq)) (fun e => hxC (e ▸ hq)) ?_
    intro b hb e
    exact hbC b hb (e ▸ hq)
  have hC' : visitAux t' (f2 + 1) (some y) yn.right = some C :=
    visitAux_congr _ _ _ _ hC hCin
  have hBside : visitAux t' (f2 + 1) (some y) xn.right = some B := by
    cases hxr : xn.right with
    | none =>
      rw [hxr, visitAux_none] at hB
      have hBnil : B = [] := (Option.some.inj hB).symm
      subst hBnil
      exact visitAux_none t' (f2 + 1) (some y)
    | some b =>
      rw [hxr] at hB
      cases f2 with
      | zero => exact absurd hB visitAux_zero_some
      | succ f3 =>
        obtain ⟨bn, BL, BR, hgbn, hpb, hBL, hBR, hBeq⟩ := visitAux_succ_inv hB
        obtain ⟨bn', hbn', hgb'⟩ := hgb b hxr
        have hbn2 : bn = bn' := by
          rw [hbn'] at hgbn
          exact (Option.some.inj hgbn).symm
        subst hbn2
        subst hBeq
        have hndB' : (BL.map Prod.fst ++ b :: BR.map Prod.fst).Nodup := by
          simpa using hndB
        obtain ⟨hbBL, hbBR, hndBL, hndBR, hdisj⟩ := nodup_mid hndB'
        have hBLmem : ∀ q ∈ BL.map Prod.fst, q ∈ (BL ++ [(b, bn.key)] ++ BR).map Prod.fst := by
          intro q hq
          simp only [List.map_append, List.map_cons, List.map_nil, List.mem_append,
            List.mem_cons]
          exact Or.inl (Or.inl hq)
        have hBRmem : ∀ q ∈ BR.map Prod.fst, q ∈ (BL ++ [(b, bn.key)] ++ BR).map Prod.fst := by
          intro q hq
          simp only [List.map_append, List.map_cons, List.map_nil, List.mem_append,
            List.mem_cons]
          exact Or.inr hq
        have hBLin : ∀ q ∈ BL.map Prod.fst, getN t' q = getN t q := by
          intro q hq
          refine hfr q (Or.inr (Or.inl (hBLmem q hq)))
            (fun e => hyB (e ▸ hBLmem q hq)) (fun e => hxB (e ▸ hBLmem q hq)) ?_
          intro b2 hb2
          rw [hxr] at hb2
          injection hb2 with hb2'
          subst hb2'
          exact fun e => hbBL (e ▸ hq)
        have hBRin : ∀ q ∈ BR.map Prod.fst, getN t' q = getN t q := by
          intro q hq
          refine hfr q (Or.inr (Or.inl (hBRmem q hq)))
            (fun e => hyB (e ▸ hBRmem q hq)) (fun e => hxB (e ▸ hBRmem q hq)) ?_
          intro b2 hb2
          rw [hxr] at hb2
          injection hb2 with hb2'
          subst hb2'
          exact fun e => hbBR (e ▸ hq)
        have hBL' : visitAux t' (f3 + 1) (some b) bn.left = some BL :=
          visitAux_congr _ _ _ _ (visitAux_mono t _ _ _ _ hBL) hBLin
        have hBR' : visitAux t' (f3 + 1) (some b) bn.right = some BR :=
          visitAux_congr _ _ _ _ (visitAux_mono t _ _ _ _ hBR) hBRin
        exact visitAux_build { bn with parent := some y } hgb' rfl hBL' hBR'
  have hysub : visitAux t' (f2 + 2) (some x) (some y) =
      some (B ++ [(y, yn.key)] ++ C) :=
    visitAux_build { yn with left := xn.right, parent := some x } hgy rfl hBside hC'
  have hA' : visitAux t' (f2 + 2) (some x) xn.left = some A :=
    visitAux_congr _ _ _ _ (visitAux_mono_le t (by omega) hA) hAin
  have := visitAux_build { xn with right := some y, parent := pary } hgx rfl hA' hysub
  rw [this]
  simp [List.append_assoc]

theorem rightRotate_visit {t : RBTree} {f : Nat} {pary : Option Nat} {y : Nat}
    {yn : Node} {x : Nat} {l : List (Nat × Int)}
    (hy : getN t y = some yn) (hyl : yn.left = some x)
    (hv : visitAux t f pary (some y) = some l)
    (hnd : (l.map Prod.fst).Nodup)
    (hctx : match yn.parent with
            | none => t.root = some y
            | some p => (∃ pn, getN t p = some pn ∧
                (pn.left = some y ∨ pn.right = some y)) ∧ p ∉ l.map Prod.fst) :
    visitAux (rightRotate t (some y)) (f + 1) pary (some x) = some l := by
  cases f with
  | zero => exact absurd hv visitAux_zero_some
  | succ f1 =>
    obtain ⟨n, LX, C, hgy0, hpy, hLX, hC, hl⟩ := visitAux_succ_inv hv
    have hny : yn = n := by rw [hgy0] at hy; exact (Option.some.inj hy).symm
    subst hny
    subst hl
    rw [hyl] at hLX
    cases f1 with
    | zero => exact absurd hLX visitAux_zero_some
    | succ f2 =>
      obtain ⟨xn, A, B, hgx0, hpx, hA, hB, hlx⟩ := visitAux_succ_inv hLX
      subst hlx
      have hndn : ((A.map Prod.fst ++ x :: B.map Prod.fst) ++
          y :: C.map Prod.fst).Nodup := by
        simpa using hnd
      obtain ⟨hyAB, hyC, hndAB, hndC, hABCdisj⟩ := nodup_mid hndn
      obtain ⟨hxA, hxB, hndA, hndB, hAdisj⟩ := nodup_mid hndAB
      have hyA : y ∉ A.map Prod.fst := fun hm => hyAB (by simp [hm])
      have hyB : y ∉ B.map Prod.fst := fun hm => hyAB (by simp [hm])
      have hxy : x ≠ y := fun e => hyAB (by rw [← e]; simp)
      have hxC : x ∉ C.map Prod.fst := fun hm => hABCdisj x (by simp) hm
      have hbcell : ∀ b, xn.right = some b →
          ∃ bn, getN t b = some bn ∧ b ∈ B.map Prod.fst := by
        intro b hbl
        rw [hbl] at hB
        cases f2 with
        | zero => exact absurd hB visitAux_zero_some
        | succ f3 =>
          obtain ⟨bn, BL, BR, hgb, _, _, _, hBeq⟩ := visitAux_succ_inv hB
          subst hBeq
          exact ⟨bn, hgb, by simp⟩
      have hb : ∀ b, xn.right = some b → b ≠ y ∧ b ≠ x := by
        intro b hbl
        obtain ⟨_, _, hm⟩ := hbcell b hbl
        exact ⟨fun e => hyB (e ▸ hm), fun e => hxB (e ▸ hm)⟩
      have hbA : ∀ b, xn.right = some b → b ∉ A.map Prod.fst := by
        intro b hbl hm
        obtain ⟨_, _, hm2⟩ := hbcell b hbl
        exact hAdisj b hm hm2
      have hbC : ∀ b, xn.right = some b → b ∉ C.map Prod.fst := by
        intro b hbl
        obtain ⟨_, _, hm2⟩ := hbcell b hbl
        exact hABCdisj b (by simp [hm2])
      have hslot : readLink t (getLink t y) = some y ∧
          ∀ p', getLink t y = LinkRef.leftOf p' ∨ getLink t y = LinkRef.rightOf p' →
            p' ∉ ((A.map Prod.fst ++ x :: B.map Prod.fst) ++ y :: C.map Prod.fst) := by
        cases hpar : yn.parent with
        | none =>
          have hroot : t.root = some y := by
            rw [hpar] at hctx
            exact hctx
          have hlink : getLink t y = LinkRef.rootSlot := by
            simp [getLink, hy, hpar]
          constructor
          · rw [hlink]
            exact hroot
          · intro p' hp'
            rw [hlink] at hp'
            rcases hp' with hp' | hp' <;> exact absurd hp' (by simp)
        | some p =>
          rw [hpar] at hctx
          obtain ⟨⟨pn, hgp, hside⟩, hpl⟩ := hctx
          have hplm : p ∉ ((A.map Prod.fst ++ x :: B.map Prod.fst) ++
              y :: C.map Prod.fst) := by
            intro hm
            exact hpl (by simpa using hm)
          by_cases hpleft : pn.left = some y
          · have hlink : getLink t y = LinkRef.leftOf p := by
              simp [getLink, hy, hpar, hgp, hpleft]
            constructor
            · rw [hlink, readLink_leftOf_of hgp]
              exact hpleft
            · intro p' hp'
              rw [hlink] at hp'
              rcases hp' with hp' | hp'
              · injection hp' with hp'
                subst hp'
                exact hplm
              · exact absurd hp' (by simp)
          · have hpright : pn.right = some y := hside.resolve_left hpleft
            have hlink : getLink t y = LinkRef.rightOf p := by
              simp [getLink, hy, hpar, hgp, hpleft]
            constructor
            · rw [hlink, readLink_rightOf_of hgp]
              exact hpright
            · intro p' hp'
              rw [hlink] at hp'
              rcases hp' with hp' | hp'
              · exact absurd hp' (by simp)
              · injection hp' with hp'
                subst hp'
                exact hplm
      obtain ⟨hread, hpfar⟩ := hslot
      have htouch : ∀ p', getLink t y = LinkRef.leftOf p' ∨
          getLink t y = LinkRef.rightOf p' →
          p' ≠ y ∧ p' ≠ x ∧ ∀ b, xn.right = some b → p' ≠ b := by
        intro p' hp'
        have hnm := hpfar p' hp'
        refine ⟨fun e => hnm (by rw [e]; simp), fun e => hnm (by rw [e]; simp), ?_⟩
        intro b hbl e
        obtain ⟨_, _, hm2⟩ := hbcell b hbl
        exact hnm (by rw [e]; simp [hm2])
      obtain ⟨hgy', hgx', hgb', hfr', _, _, _, _⟩ :=
        rightRotate_cells hy hyl hgx0 hxy hb hread htouch
      rw [hpy] at hgx'
      have hgb2 : ∀ b, xn.right = some b →
          ∃ bn, getN t b = some bn ∧
            getN (rightRotate t (some y)) b = some { bn with parent := some y } := by
        intro b hbl
        obtain ⟨bn, hcell, _⟩ := hbcell b hbl
        exact ⟨bn, hcell, hgb' b bn hbl hcell⟩
      have hfr2 : ∀ q, (q ∈ A.map Prod.fst ∨ q ∈ B.map Prod.fst ∨ q ∈ C.map Prod.fst) →
          q ≠ y → q ≠ x → (∀ b, xn.right = some b → q ≠ b) →
          getN (rightRotate t (some y)) q = getN t q := by
        intro q hqm hqy hqx hqb
        refine hfr' q hqy hqx hqb ?_
        intro p' hp' e
        subst e
        have hnm := hpfar q hp'
        rcases hqm with hm | hm | hm
        · exact hnm (by simp [hm])
        · exact hnm (by simp [hm])
        · exact hnm (by simp [hm])
      exact rightRotate_visit_assemble hC hA hB hgy' hgx' hgb2 hfr2
        hyA hxA hyB hxB hyC hxC hbA hbC hndB

theorem rightRotate_visit_path {t : RBTree} {y : Nat} {yn : Node} {x : Nat} {xn : Node}
    (hy : getN t y = some yn) (hyl : yn.left = some x) (hx : getN t x = some xn)
    (hframe : ∀ q, q ≠ y → q ≠ x → (∀ b, xn.right = some b → q ≠ b) →
        (∀ p, yn.parent = some p → q ≠ p) →
        getN (rightRotate t (some y)) q = getN t q)
    (hpcell : ∀ p pn', yn.parent = some p → getN t p = some pn' →
        (pn'.left = some y →
          getN (rightRotate t (some y)) p = some { pn' with left := some x }) ∧
        (pn'.left ≠ some y → pn'.right = some y →
          getN (rightRotate t (some y)) p = some { pn' with right := some x })) :
    ∀ f par j l, visitAux t f par j = some l → (l.map Prod.fst).Nodup →
      y ∈ l.map Prod.fst →
      (j = some y → match yn.parent with
        | none => t.root = some y
        | some p => (∃ pn, getN t p = some pn ∧
            (pn.left = some y ∨ pn.right = some y)) ∧ p ∉ l.map Prod.fst) →
      visitAux (rightRotate t (some y)) (f + 1) par
        (if j = some y then some x else j) = some l := by
  intro f
  induction f with
  | zero =>
    intro par j l h _ hmem _
    cases j with
    | none =>
      rw [visitAux_none] at h
      have : l = [] := (Option.some.inj h).symm
      subst this
      simp at hmem
    | some i => exact absurd h visitAux_zero_some
  | succ f ih =>
    intro par j l h hnd hmem hpyc
    cases j with
    | none =>
      rw [visitAux_none] at h
      have : l = [] := (Option.some.inj h).symm
      subst this
      simp at hmem
    | some i =>
      by_cases hix : i = y
      · subst hix
        rw [if_pos rfl]
        exact rightRotate_visit hy hyl h hnd (hpyc rfl)
      · have hjx : (some i : Option Nat) ≠ some y := by simpa using hix
        rw [if_neg hjx]
        obtain ⟨n, L, R, hg, hp, hL, hR, hl⟩ := visitAux_succ_inv h
        subst hl
        have hndn : (L.map Prod.fst ++ i :: R.map Prod.fst).Nodup := by simpa using hnd
        obtain ⟨hiL, hiR, hndL, hndR, hLRdisj⟩ := nodup_mid hndn
        simp only [List.map_append, List.map_cons, List.map_nil, List.mem_append,
          List.mem_cons, List.mem_singleton, List.not_mem_nil, or_false] at hmem
        rcases hmem with (hyL | hyi) | hyR
        · -- y lies in the left subtree of i
          have hxL : x ∈ L.map Prod.fst :=
            visit_childMem_left _ _ _ _ hL y yn x hyL hy hyl
          have hbL : ∀ b, xn.right = some b → b ∈ L.map Prod.fst := fun b hbl =>
            visit_childMem_right _ _ _ _ hL x xn b hxL hx hbl
          have ihL := ih (some i) n.left L hL hndL hyL (by
            intro e
            rw [e] at hL
            cases f with
            | zero => exact absurd hL visitAux_zero_some
            | succ f2 =>
              obtain ⟨n2, _, _, hg2, hp2, _, _, _⟩ := visitAux_succ_inv hL
              have hn2 : n2 = yn := by rw [hy] at hg2; exact (Option.some.inj hg2).symm
              subst hn2
              rw [hp2]
              exact ⟨⟨n, hg, Or.inl e⟩, hiL⟩)
          have hRfr : ∀ q ∈ R.map Prod.fst,
              getN (rightRotate t (some y)) q = getN t q := by
            intro q hq
            refine hframe q (fun e => hLRdisj y hyL (e ▸ hq))
              (fun e => hLRdisj x hxL (e ▸ hq))
              (fun b hbl e => hLRdisj b (hbL b hbl) (e ▸ hq)) ?_
            intro p2 hp2 e
            rcases visit_parentLinkStrong _ _ _ _ hL hndL y yn hyL hy with
              ⟨hjeq, hpar⟩ | ⟨r, rn, hrL, hgr, hside, hpar, hry⟩
            · rw [hpar] at hp2
              injection hp2 with hp2
              subst hp2
              exact hiR (e ▸ hq)
            · rw [hpar] at hp2
              injection hp2 with hp2
              subst hp2
              exact hLRdisj r hrL (e ▸ hq)
          have hR' : visitAux (rightRotate t (some y)) (f + 1) (some i) n.right = some R :=
            visitAux_congr _ _ _ _ (visitAux_mono t _ _ _ _ hR) hRfr
          rcases visit_parentLinkStrong _ _ _ _ hL hndL y yn hyL hy with
            ⟨hjeq, hpar⟩ | ⟨r, rn, hrL, hgr, hside, hpar, hry⟩
          · -- y is the left child of i: the rotation rewires i's left slot to x
            simp only [hjeq, if_pos] at ihL
            have hgi' : getN (rightRotate t (some y)) i = some { n with left := some x } :=
              (hpcell i n hpar hg).1 hjeq
            exact visitAux_build { n with left := some x } hgi' hp ihL hR'
          · -- y is strictly inside the left subtree: i's cell is untouched
            have hnly : n.left ≠ some y := by
              intro e
              rw [e] at hL
              cases f with
              | zero => exact absurd hL visitAux_zero_some
              | succ f2 =>
                obtain ⟨n2, _, _, hg2, hp2, _, _, _⟩ := visitAux_succ_inv hL
                have hn2 : n2 = yn := by rw [hy] at hg2; exact (Option.some.inj hg2).symm
                subst hn2
                rw [hpar] at hp2
                injection hp2 with hp2
                exact hiL (hp2 ▸ hrL)
            simp only [if_neg hnly] at ihL
            have hgi' : getN (rightRotate t (some y)) i = some n := by
              have hfr := hframe i hix (fun e => hiL (e ▸ hxL))
                (fun b hbl e => hiL (e ▸ hbL b hbl)) (by
                  intro p2 hp2 e
                  rw [hpar] at hp2
                  injection hp2 with hp2
                  subst hp2
                  exact hiL (e ▸ hrL))
              rw [hfr]
              exact hg
            exact visitAux_build n hgi' hp ihL hR'
        · exact absurd hyi.symm hix
        · -- y lies in the right subtree of i
          have hxR : x ∈ R.map Prod.fst :=
            visit_childMem_left _ _ _ _ hR y yn x hyR hy hyl
          have hbR : ∀ b, xn.right = some b → b ∈ R.map Prod.fst := fun b hbl =>
            visit_childMem_right _ _ _ _ hR x xn b hxR hx hbl
          have ihR := ih (some i) n.right R hR hndR hyR (by
            intro e
            rw [e] at hR
            cases f with
            | zero => exact absurd hR visitAux_zero_some
            | succ f2 =>
              obtain ⟨n2, _, _, hg2, hp2, _, _, _⟩ := visitAux_succ_inv hR
              have hn2 : n2 = yn := by rw [hy] at hg2; exact (Option.some.inj hg2).symm
              subst hn2
              rw [hp2]
              exact ⟨⟨n, hg, Or.inr e⟩, hiR⟩)
          have hLfr : ∀ q ∈ L.map Prod.fst,
              getN (rightRotate t (some y)) q = getN t q := by
            intro q hq
            refine hframe q (fun e => hLRdisj q hq (e ▸ hyR))
              (fun e => hLRdisj q hq (e ▸ hxR))
              (fun b hbl e => hLRdisj q hq (e ▸ hbR b hbl)) ?_
            intro p2 hp2 e
            rcases visit_parentLinkStrong _ _ _ _ hR hndR y yn hyR hy with
              ⟨hjeq, hpar⟩ | ⟨r, rn, hrR, hgr, hside, hpar, hry⟩
            · rw [hpar] at hp2
              injection hp2 with hp2
              subst hp2
              exact hiL (e ▸ hq)
            · rw [hpar] at hp2
              injection hp2 with hp2
              subst hp2
              exact hLRdisj q hq (e ▸ hrR)
          have hL' : visitAux (rightRotate t (some y)) (f + 1) (some i) n.left = some L :=
            visitAux_congr _ _ _ _ (visitAux_mono t _ _ _ _ hL) hLfr
          rcases visit_parentLinkStrong _ _ _ _ hR hndR y yn hyR hy with
            ⟨hjeq, hpar⟩ | ⟨r, rn, hrR, hgr, hside, hpar, hry⟩
          · -- y is the right child of i
            simp only [hjeq, if_pos] at ihR
            have hnly : n.left ≠ some y := by
              intro e
              rw [e] at hL
              cases f with
              | zero => exact absurd hL visitAux_zero_some
              | succ f2 =>
                obtain ⟨n2, L2, R2, hg2, hp2, _, _, hleq⟩ := visitAux_succ_inv hL
                have hyinL : y ∈ L.map Prod.fst := by
                  subst hleq
                  simp
                exact hLRdisj y hyinL hyR
            have hgi' : getN (rightRotate t (some y)) i = some { n with right := some x } :=
              (hpcell i n hpar hg).2 hnly hjeq
            exact visitAux_build { n with right := some x } hgi' hp hL' ihR
          · -- y is strictly inside the right subtree
            have hnry : n.right ≠ some y := by
              intro e
              rw [e] at hR
              cases f with
              | zero => exact absurd hR visitAux_zero_some
              | succ f2 =>
                obtain ⟨n2, _, _, hg2, hp2, _, _, _⟩ := visitAux_succ_inv hR
                have hn2 : n2 = yn := by rw [hy] at hg2; exact (Option.some.inj hg2).symm
                subst hn2
                rw [hpar] at hp2
                injection hp2 with hp2
                exact hiR (hp2 ▸ hrR)
            simp only [if_neg hnry] at ihR
            have hgi' : getN (rightRotate t (some y)) i = some n := by
              have hfr := hframe i hix (fun e => hiR (e ▸ hxR))
                (fun b hbl e => hiR (e ▸ hbR b hbl)) (by
                  intro p2 hp2 e
                  rw [hpar] at hp2
                  injection hp2 with hp2
                  subst hp2
                  exact hiR (e ▸ hrR))
              rw [hfr]
              exact hg
            exact visitAux_build n hgi' hp hL' ihR

theorem rightRotate_inorder {t : RBTree} {f : Nat} {vs : List (Nat × Int)}
    {y : Nat} {yn : Node} {x : Nat}
    (hv : visitAux t f none t.root = some vs)
    (hnd : (vs.map Prod.fst).Nodup)
    (hym : y ∈ vs.map Prod.fst)
    (hy : getN t y = some yn) (hyl : yn.left = some x) :
    ∃ g, visitAux (rightRotate t (some y)) g none
      (rightRotate t (some y)).root = some vs := by
  obtain ⟨fy, pary, ly, hfy, hvy, hinf⟩ := visit_nest _ _ _ _ hv y hym
  have hndly : (ly.map Prod.fst).Nodup := hnd.sublist (hinf.sublist.map Prod.fst)
  cases fy with
  | zero => exact absurd hvy visitAux_zero_some
  | succ fy1 =>
    obtain ⟨n, LX, C, hgy0, hpy0, hLX, hC, hly⟩ := visitAux_succ_inv hvy
    have hny : yn = n := by rw [hy] at hgy0; exact Option.some.inj hgy0
    subst hny
    rw [hyl] at hLX
    cases fy1 with
    | zero => exact absurd hLX visitAux_zero_some
    | succ fy2 =>
      obtain ⟨xn, A, B, hgx0, hpx0, hA, hB, hlx⟩ := visitAux_succ_inv hLX
      subst hlx
      subst hly
      have hndn : ((A.map Prod.fst ++ x :: B.map Prod.fst) ++
          y :: C.map Prod.fst).Nodup := by
        simpa using hndly
      obtain ⟨hyAB, hyC, hndAB, hndC, hABCdisj⟩ := nodup_mid hndn
      obtain ⟨hxA, hxB, hndA, hndB, hAdisj⟩ := nodup_mid hndAB
      have hxy : x ≠ y := fun e => hyAB (by rw [← e]; simp)
      have hyB : y ∉ B.map Prod.fst := fun hm => hyAB (by simp [hm])
      have hbcell : ∀ b, xn.right = some b →
          ∃ bn, getN t b = some bn ∧ b ∈ B.map Prod.fst := by
        intro b hbl
        rw [hbl] at hB
        cases fy2 with
        | zero => exact absurd hB visitAux_zero_some
        | succ fy3 =>
          obtain ⟨bn, BL, BR, hgb, _, _, _, hBeq⟩ := visitAux_succ_inv hB
          subst hBeq
          exact ⟨bn, hgb, by simp⟩
      have hb : ∀ b, xn.right = some b → b ≠ y ∧ b ≠ x := by
        intro b hbl
        obtain ⟨_, _, hm⟩ := hbcell b hbl
        exact ⟨fun e => hyB (e ▸ hm), fun e => hxB (e ▸ hm)⟩
      rcases visit_parentLinkStrong _ _ _ _ hv hnd y yn hym hy with
        ⟨hjeq, hpar⟩ | ⟨p, pn, hpm, hgp, hside, hpar, hpy2⟩
      · -- y is the root of the whole tree
        have hlink : getLink t y = LinkRef.rootSlot := by
          simp [getLink, hy, hpar]
        have hread : readLink t (getLink t y) = some y := by
          rw [hlink]
          exact hjeq
        have htouch : ∀ p', getLink t y = LinkRef.leftOf p' ∨
            getLink t y = LinkRef.rightOf p' →
            p' ≠ y ∧ p' ≠ x ∧ ∀ b, xn.right = some b → p' ≠ b := by
          intro p' hp'
          rw [hlink] at hp'
          rcases hp' with h' | h' <;> exact absurd h' (by simp)
        obtain ⟨_, _, _, hfr4, _, _, hroot7, _⟩ :=
          rightRotate_cells hy hyl hgx0 hxy hb hread htouch
        have hframe : ∀ q, q ≠ y → q ≠ x → (∀ b, xn.right = some b → q ≠ b) →
            (∀ p2, yn.parent = some p2 → q ≠ p2) →
            getN (rightRotate t (some y)) q = getN t q := by
          intro q hqy hqx hqb _
          refine hfr4 q hqy hqx hqb ?_
          intro p' hp'
          rw [hlink] at hp'
          rcases hp' with h' | h' <;> exact absurd h' (by simp)
        have hpcell : ∀ p2 pn2, yn.parent = some p2 → getN t p2 = some pn2 →
            (pn2.left = some y → getN (rightRotate t (some y)) p2 =
              some { pn2 with left := some x }) ∧
            (pn2.left ≠ some y → pn2.right = some y →
              getN (rightRotate t (some y)) p2 =
              some { pn2 with right := some x }) := by
          intro p2 pn2 hp2 _
          rw [hpar] at hp2
          exact absurd hp2 (by simp)
        have hmain := rightRotate_visit_path hy hyl hgx0 hframe hpcell f none
          t.root vs hv hnd hym (fun _ => by rw [hpar]; exact hjeq)
        simp only [hjeq, if_pos] at hmain
        refine ⟨f + 1, ?_⟩
        rw [hroot7 hlink]
        exact hmain
      · -- y has a parent p whose child slot owns it
        have hply : p ∉ ((A ++ [(x, xn.key)] ++ B) ++ [(y, yn.key)] ++
            C).map Prod.fst := by
          intro hm
          simp only [List.map_append, List.map_cons, List.map_nil, List.mem_append,
            List.mem_cons, List.mem_singleton, List.not_mem_nil, or_false] at hm
          rcases hm with (hm | hm) | hm
          · have hm2 : p ∈ (A ++ [(x, xn.key)] ++ B).map Prod.fst := by
              simp only [List.map_append, List.map_cons, List.map_nil, List.mem_append,
                List.mem_cons, List.mem_singleton, List.not_mem_nil, or_false]
              tauto
            have hyLX : y ∈ (A ++ [(x, xn.key)] ++ B).map Prod.fst := by
              rcases hside with hs | hs
              · exact visit_childMem_left _ _ _ _ hLX p pn y hm2 hgp hs
              · exact visit_childMem_right _ _ _ _ hLX p pn y hm2 hgp hs
            refine hyAB ?_
            simp only [List.map_append, List.map_cons, List.map_nil, List.mem_append,
              List.mem_cons, List.mem_singleton, List.not_mem_nil, or_false] at hyLX ⊢
            tauto
          · exact hpy2 hm
          · have hyc2 : y ∈ C.map Prod.fst := by
              rcases hside with hs | hs
              · exact visit_childMem_left _ _ _ _ hC p pn y hm hgp hs
              · exact visit_childMem_right _ _ _ _ hC p pn y hm hgp hs
            exact hyC hyc2
        have hpx2 : p ≠ x := fun e => hply (by rw [e]; simp)
        have hpb : ∀ b, xn.right = some b → p ≠ b := by
          intro b hbl e
          obtain ⟨_, _, hm⟩ := hbcell b hbl
          exact hply (by rw [e]; simp [hm])
        have hcond : t.root = some y → False := by
          intro e
          rw [e] at hv
          cases f with
          | zero => exact absurd hv visitAux_zero_some
          | succ f9 =>
            obtain ⟨n2, _, _, hg2, hp2, _, _, _⟩ := visitAux_succ_inv hv
            have hn2 : n2 = yn := by rw [hy] at hg2; exact (Option.some.inj hg2).symm
            subst hn2
            rw [hpar] at hp2
            exact Option.noConfusion hp2
        have hrootsome : ∃ r, t.root = some r ∧ r ≠ y := by
          cases hroot : t.root with
          | none =>
            rw [hroot, visitAux_none] at hv
            have : vs = [] := (Option.some.inj hv).symm
            subst this
            simp at hym
          | some r =>
            refine ⟨r, rfl, ?_⟩
            intro e
            subst e
            exact hcond hroot
        obtain ⟨r, hroot, hry⟩ := hrootsome
        by_cases hpleft : pn.left = some y
        · have hlink : getLink t y = LinkRef.leftOf p := by
            simp [getLink, hy, hpar, hgp, hpleft]
          have hread : readLink t (getLink t y) = some y := by
            rw [hlink, readLink_leftOf_of hgp]
            exact hpleft
          have htouch : ∀ p', getLink t y = LinkRef.leftOf p' ∨
              getLink t y = LinkRef.rightOf p' →
              p' ≠ y ∧ p' ≠ x ∧ ∀ b, xn.right = some b → p' ≠ b := by
            intro p' hp'
            rw [hlink] at hp'
            rcases hp' with h' | h'
            · injection h' with h'
              subst h'
              exact ⟨hpy2, hpx2, hpb⟩
            · exact absurd h' (by simp)
          obtain ⟨_, _, _, hfr4, hslotL, _, _, hroot8⟩ :=
            rightRotate_cells hy hyl hgx0 hxy hb hread htouch
          have hframe : ∀ q, q ≠ y → q ≠ x → (∀ b, xn.right = some b → q ≠ b) →
              (∀ p2, yn.parent = some p2 → q ≠ p2) →
              getN (rightRotate t (some y)) q = getN t q := by
            intro q hqy hqx hqb hqp
            refine hfr4 q hqy hqx hqb ?_
            intro p' hp'
            rw [hlink] at hp'
            rcases hp' with h' | h'
            · injection h' with h'
              subst h'
              exact hqp p hpar
            · exact absurd h' (by simp)
          have hpcell : ∀ p2 pn2, yn.parent = some p2 → getN t p2 = some pn2 →
              (pn2.left = some y → getN (rightRotate t (some y)) p2 =
                some { pn2 with left := some x }) ∧
              (pn2.left ≠ some y → pn2.right = some y →
                getN (rightRotate t (some y)) p2 =
                some { pn2 with right := some x }) := by
            intro p2 pn2 hp2 hgp2
            rw [hpar] at hp2
            injection hp2 with hp2
            subst hp2
            have hpn2 : pn = pn2 := by rw [hgp] at hgp2; exact Option.some.inj hgp2
            subst hpn2
            constructor
            · intro _
              exact hslotL p pn hlink hgp
            · intro hne _
              exact absurd hpleft hne
          have hmain := rightRotate_visit_path hy hyl hgx0 hframe hpcell f none
            t.root vs hv hnd hym (fun e => absurd e (fun e2 => hcond e2))
          rw [hroot] at hmain
          rw [if_neg (by simpa using hry)] at hmain
          refine ⟨f + 1, ?_⟩
          rw [hroot8 p (Or.inl hlink), hroot]
          exact hmain
        · have hpright : pn.right = some y := hside.resolve_left hpleft
          have hlink : getLink t y = LinkRef.rightOf p := by
            simp [getLink, hy, hpar, hgp, hpleft]
          have hread : readLink t (getLink t y) = some y := by
            rw [hlink, readLink_rightOf_of hgp]
            exact hpright
          have htouch : ∀ p', getLink t y = LinkRef.leftOf p' ∨
              getLink t y = LinkRef.rightOf p' →
              p' ≠ y ∧ p' ≠ x ∧ ∀ b, xn.right = some b → p' ≠ b := by
            intro p' hp'
            rw [hlink] at hp'
            rcases hp' with h' | h'
            · exact absurd h' (by simp)
            · injection h' with h'
              subst h'
              exact ⟨hpy2, hpx2, hpb⟩
          obtain ⟨_, _, _, hfr4, _, hslotR, _, hroot8⟩ :=
            rightRotate_cells hy hyl hgx0 hxy hb hread htouch
          have hframe : ∀ q, q ≠ y → q ≠ x → (∀ b, xn.right = some b → q ≠ b) →
              (∀ p2, yn.parent = some p2 → q ≠ p2) →
              getN (rightRotate t (some y)) q = getN t q := by
            intro q hqy hqx hqb hqp
            refine hfr4 q hqy hqx hqb ?_
            intro p' hp'
            rw [hlink] at hp'
            rcases hp' with h' | h'
            · exact absurd h' (by simp)
            · injection h' with h'
              subst h'
              exact hqp p hpar
          have hpcell : ∀ p2 pn2, yn.parent = some p2 → getN t p2 = some pn2 →
              (pn2.left = some y → getN (rightRotate t (some y)) p2 =
                some { pn2 with left := some x }) ∧
              (pn2.left ≠ some y → pn2.right = some y →
                getN (rightRotate t (some y)) p2 =
                some { pn2 with right := some x }) := by
            intro p2 pn2 hp2 hgp2
            rw [hpar] at hp2
            injection hp2 with hp2
            subst hp2
            have hpn2 : pn = pn2 := by rw [hgp] at hgp2; exact Option.some.inj hgp2
            subst hpn2
            constructor
            · intro he
              exact absurd he hpleft
            · intro _ _
              exact hslotR p pn hlink hgp
          have hmain := rightRotate_visit_path hy hyl hgx0 hframe hpcell f none
            t.root vs hv hnd hym (fun e => absurd e (fun e2 => hcond e2))
          rw [hroot] at hmain
          rw [if_neg (by simpa using hry)] at hmain
          refine ⟨f + 1, ?_⟩
          rw [hroot8 p (Or.inr hlink), hroot]
          exact hmain

theorem leftRotate_wf {t : RBTree} {f : Nat} {vs : List (Nat × Int)}
    {x : Nat} {xn : Node} {y : Nat}
    (hv : visitAux t f none t.root = some vs)
    (hnd : (vs.map Prod.fst).Nodup)
    (hxm : x ∈ vs.map Prod.fst)
    (hx : getN t x = some xn) (hxr : xn.right = some y) :
    ∃ yn, getN t y = some yn ∧
      getN (leftRotate t (some x)) x =
        some { xn with right := yn.left, parent := some y } ∧
      getN (leftRotate t (some x)) y =
        some { yn with left := some x, parent := xn.parent } ∧
      (∀ b bn, yn.left = some b → getN t b = some bn →
        getN (leftRotate t (some x)) b = some { bn with parent := some x }) ∧
      (xn.parent = none → (leftRotate t (some x)).root = some y) ∧
      (∀ p pn, xn.parent = some p → getN t p = some pn →
        (leftRotate t (some x)).root = t.root ∧
        (pn.left = some x →
          getN (leftRotate t (some x)) p = some { pn with left := some y }) ∧
        (pn.left ≠ some x → pn.right = some x →
          getN (leftRotate t (some x)) p = some { pn with right := some y })) ∧
      ∃ g, visitAux (leftRotate t (some x)) g none
        (leftRotate t (some x)).root = some vs := by
  obtain ⟨fx, parx, lx, hfx, hvx, hinf⟩ := visit_nest _ _ _ _ hv x hxm
  have hndlx : (lx.map Prod.fst).Nodup := hnd.sublist (hinf.sublist.map Prod.fst)
  cases fx with
  | zero => exact absurd hvx visitAux_zero_some
  | succ fx1 =>
    obtain ⟨n, A, RY, hgx0, hpx0, hA, hRY, hlx⟩ := visitAux_succ_inv hvx
    have hnx : xn = n := by rw [hx] at hgx0; exact Option.some.inj hgx0
    subst hnx
    rw [hxr] at hRY
    cases fx1 with
    | zero => exact absurd hRY visitAux_zero_some
    | succ fx2 =>
      obtain ⟨yn, B, C, hgy0, hpy0, hB, hC, hry⟩ := visitAux_succ_inv hRY
      subst hry
      subst hlx
      have hndn : (A.map Prod.fst ++ x ::
          (B.map Prod.fst ++ y :: C.map Prod.fst)).Nodup := by
        simpa using hndlx
      obtain ⟨hxA, hxRest, hndA, hndRest, hAdisj⟩ := nodup_mid hndn
      obtain ⟨hyB, hyC, hndB, hndC, hBCdisj⟩ := nodup_mid hndRest
      have hyx : y ≠ x := fun e => hxRest (by rw [← e]; simp)
      have hbcell : ∀ b, yn.left = some b →
          ∃ bn, getN t b = some bn ∧ b ∈ B.map Prod.fst := by
        intro b hbl
        rw [hbl] at hB
        cases fx2 with
        | zero => exact absurd hB visitAux_zero_some
        | succ fx3 =>
          obtain ⟨bn, BL, BR, hgb, _, _, _, hBeq⟩ := visitAux_succ_inv hB
          subst hBeq
          exact ⟨bn, hgb, by simp⟩
      have hb : ∀ b, yn.left = some b → b ≠ x ∧ b ≠ y := by
        intro b hbl
        obtain ⟨_, _, hm⟩ := hbcell b hbl
        exact ⟨fun e => hxRest (by rw [← e]; simp [hm]),
          fun e => hyB (e ▸ hm)⟩
      rcases visit_parentLinkStrong _ _ _ _ hv hnd x xn hxm hx with
        ⟨hjeq, hpar⟩ | ⟨p, pn, hpm, hgp, hside, hpar, hpx⟩
      · -- x is the root of the whole tree
        have hlink : getLink t x = LinkRef.rootSlot := by
          simp [getLink, hx, hpar]
        have hread : readLink t (getLink t x) = some x := by
          rw [hlink]
          exact hjeq
        have htouch : ∀ p', getLink t x = LinkRef.leftOf p' ∨
            getLink t x = LinkRef.rightOf p' →
            p' ≠ x ∧ p' ≠ y ∧ ∀ b, yn.left = some b → p' ≠ b := by
          intro p' hp'
          rw [hlink] at hp'
          rcases hp' with h' | h' <;> exact absurd h' (by simp)
        obtain ⟨hgx', hgy', hgb', hfr4, _, _, hroot7, _⟩ :=
          leftRotate_cells hx hxr hgy0 hyx hb hread htouch
        have hframe : ∀ q, q ≠ x → q ≠ y → (∀ b, yn.left = some b → q ≠ b) →
            (∀ p2, xn.parent = some p2 → q ≠ p2) →
            getN (leftRotate t (some x)) q = getN t q := by
          intro q hqx hqy hqb _
          refine hfr4 q hqx hqy hqb ?_
          intro p' hp'
          rw [hlink] at hp'
          rcases hp' with h' | h' <;> exact absurd h' (by simp)
        have hpcell : ∀ p2 pn2, xn.parent = some p2 → getN t p2 = some pn2 →
            (pn2.left = some x → getN (leftRotate t (some x)) p2 =
              some { pn2 with left := some y }) ∧
            (pn2.left ≠ some x → pn2.right = some x →
              getN (leftRotate t (some x)) p2 =
              some { pn2 with right := some y }) := by
          intro p2 pn2 hp2 _
          rw [hpar] at hp2
          exact absurd hp2 (by simp)
        have hmain := leftRotate_visit_path hx hxr hgy0 hframe hpcell f none
          t.root vs hv hnd hxm (fun _ => by rw [hpar]; exact hjeq)
        simp only [hjeq, if_pos] at hmain
        refine ⟨yn, hgy0, hgx', hgy', hgb', fun _ => hroot7 hlink, ?_, f + 1, ?_⟩
        · intro p2 pn2 hp2 _
          rw [hpar] at hp2
          exact Option.noConfusion hp2
        · rw [hroot7 hlink]
          exact hmain
      · -- x has a parent p whose child slot owns it
        have hplx : p ∉ (A ++ [(x, xn.key)] ++
            (B ++ [(y, yn.key)] ++ C)).map Prod.fst := by
          intro hm
          simp only [List.map_append, List.map_cons, List.map_nil, List.mem_append,
            List.mem_cons, List.mem_singleton, List.not_mem_nil, or_false] at hm
          rcases hm with (hm | hm) | hm
          · rcases hside with hs | hs
            · exact hxA (visit_childMem_left _ _ _ _ hA p pn x hm hgp hs)
            · exact hxA (visit_childMem_right _ _ _ _ hA p pn x hm hgp hs)
          · exact hpx hm
          · have hm2 : p ∈ (B ++ [(y, yn.key)] ++ C).map Prod.fst := by
              simp only [List.map_append, List.map_cons, List.map_nil, List.mem_append,
                List.mem_cons, List.mem_singleton, List.not_mem_nil, or_false] at hm ⊢
              tauto
            have hxRY : x ∈ (B ++ [(y, yn.key)] ++ C).map Prod.fst := by
              rcases hside with hs | hs
              · exact visit_childMem_left _ _ _ _ hRY p pn x hm2 hgp hs
              · exact visit_childMem_right _ _ _ _ hRY p pn x hm2 hgp hs
            refine hxRest ?_
            simp only [List.map_append, List.map_cons, List.map_nil, List.mem_append,
              List.mem_cons, List.mem_singleton, List.not_mem_nil, or_false] at hxRY ⊢
            tauto
        have hpy : p ≠ y := fun e => hplx (by rw [e]; simp)
        have hpb : ∀ b, yn.left = some b → p ≠ b := by
          intro b hbl e
          obtain ⟨_, _, hm⟩ := hbcell b hbl
          exact hplx (by rw [e]; simp [hm])
        have hcond : t.root = some x → False := by
          intro e
          rw [e] at hv
          cases f with
          | zero => exact absurd hv visitAux_zero_some
          | succ f9 =>
            obtain ⟨n2, _, _, hg2, hp2, _, _, _⟩ := visitAux_succ_inv hv
            have hn2 : n2 = xn := by rw [hx] at hg2; exact (Option.some.inj hg2).symm
            subst hn2
            rw [hpar] at hp2
            exact Option.noConfusion hp2
        have hrootsome : ∃ r, t.root = some r ∧ r ≠ x := by
          cases hroot : t.root with
          | none =>
            rw [hroot, visitAux_none] at hv
            have : vs = [] := (Option.some.inj hv).symm
            subst this
            simp at hxm
          | some r =>
            refine ⟨r, rfl, ?_⟩
            intro e
            subst e
            exact hcond hroot
        obtain ⟨r, hroot, hrx⟩ := hrootsome
        by_cases hpleft : pn.left = some x
        · have hlink : getLink t x = LinkRef.leftOf p := by
            simp [getLink, hx, hpar, hgp, hpleft]
          have hread : readLink t (getLink t x) = some x := by
            rw [hlink, readLink_leftOf_of hgp]
            exact hpleft
          have htouch : ∀ p', getLink t x = LinkRef.leftOf p' ∨
              getLink t x = LinkRef.rightOf p' →
              p' ≠ x ∧ p' ≠ y ∧ ∀ b, yn.left = some b → p' ≠ b := by
            intro p' hp'
            rw [hlink] at hp'
            rcases hp' with h' | h'
            · injection h' with h'
              subst h'
              exact ⟨hpx, hpy, hpb⟩
            · exact absurd h' (by simp)
          obtain ⟨hgx', hgy', hgb', hfr4, hslotL, _, _, hroot8⟩ :=
            leftRotate_cells hx hxr hgy0 hyx hb hread htouch
          have hframe : ∀ q, q ≠ x → q ≠ y → (∀ b, yn.left = some b → q ≠ b) →
              (∀ p2, xn.parent = some p2 → q ≠ p2) →
              getN (leftRotate t (some x)) q = getN t q := by
            intro q hqx hqy hqb hqp
            refine hfr4 q hqx hqy hqb ?_
            intro p' hp'
            rw [hlink] at hp'
            rcases hp' with h' | h'
            · injection h' with h'
              subst h'
              exact hqp p hpar
            · exact absurd h' (by simp)
          have hpcell : ∀ p2 pn2, xn.parent = some p2 → getN t p2 = some pn2 →
              (pn2.left = some x → getN (leftRotate t (some x)) p2 =
                some { pn2 with left := some y }) ∧
              (pn2.left ≠ some x → pn2.right = some x →
                getN (leftRotate t (some x)) p2 =
                some { pn2 with right := some y }) := by
            intro p2 pn2 hp2 hgp2
            rw [hpar] at hp2
            injection hp2 with hp2
            subst hp2
            have hpn2 : pn = pn2 := by rw [hgp] at hgp2; exact Option.some.inj hgp2
            subst hpn2
            constructor
            · intro _
              exact hslotL p pn hlink hgp
            · intro hne _
              exact absurd hpleft hne
          have hmain := leftRotate_visit_path hx hxr hgy0 hframe hpcell f none
            t.root vs hv hnd hxm (fun e => absurd e (fun e2 => hcond e2))
          rw [hroot] at hmain
          rw [if_neg (by simpa using hrx)] at hmain
          refine ⟨yn, hgy0, hgx', hgy', hgb', ?_, ?_, f + 1, ?_⟩
          · intro e
            rw [hpar] at e
            exact Option.noConfusion e
          · intro p2 pn2 hp2 hgp2
            rw [hpar] at hp2
            injection hp2 with hp2
            subst hp2
            have hpn2 : pn = pn2 := by rw [hgp] at hgp2; exact Option.some.inj hgp2
            subst hpn2
            refine ⟨hroot8 p (Or.inl hlink), fun _ => hslotL p pn hlink hgp, ?_⟩
            intro hne _
            exact absurd hpleft hne
          · rw [hroot8 p (Or.inl hlink), hroot]
            exact hmain
        · have hpright : pn.right = some x := hside.resolve_left hpleft
          have hlink : getLink t x = LinkRef.rightOf p := by
            simp [getLink, hx, hpar, hgp, hpleft]
          have hread : readLink t (getLink t x) = some x := by
            rw [hlink, readLink_rightOf_of hgp]
            exact hpright
          have htouch : ∀ p', getLink t x = LinkRef.leftOf p' ∨
              getLink t x = LinkRef.rightOf p' →
              p' ≠ x ∧ p' ≠ y ∧ ∀ b, yn.left = some b → p' ≠ b := by
            intro p' hp'
            rw [hlink] at hp'
            rcases hp' with h' | h'
            · exact absurd h' (by simp)
            · injection h' with h'
              subst h'
              exact ⟨hpx, hpy, hpb⟩
          obtain ⟨hgx', hgy', hgb', hfr4, _, hslotR, _, hroot8⟩ :=
            leftRotate_cells hx hxr hgy0 hyx hb hread htouch
          have hframe : ∀ q, q ≠ x → q ≠ y → (∀ b, yn.left = some b → q ≠ b) →
              (∀ p2, xn.parent = some p2 → q ≠ p2) →
              getN (leftRotate t (some x)) q = getN t q := by
            intro q hqx hqy hqb hqp
            refine hfr4 q hqx hqy hqb ?_
            intro p' hp'
            rw [hlink] at hp'
            rcases hp' with h' | h'
            · exact absurd h' (by simp)
            · injection h' with h'
              subst h'
              exact hqp p hpar
          have hpcell : ∀ p2 pn2, xn.parent = some p2 → getN t p2 = some pn2 →
              (pn2.left = some x → getN (leftRotate t (some x)) p2 =
                some { pn2 with left := some y }) ∧
              (pn2.left ≠ some x → pn2.right = some x →
                getN (leftRotate t (some x)) p2 =
                some { pn2 with right := some y }) := by
            intro p2 pn2 hp2 hgp2
            rw [hpar] at hp2
            injection hp2 with hp2
            subst hp2
            have hpn2 : pn = pn2 := by rw [hgp] at hgp2; exact Option.some.inj hgp2
            subst hpn2
            constructor
            · intro he
              exact absurd he hpleft
            · intro _ _
              exact hslotR p pn hlink hgp
          have hmain := leftRotate_visit_path hx hxr hgy0 hframe hpcell f none
            t.root vs hv hnd hxm (fun e => absurd e (fun e2 => hcond e2))
          rw [hroot] at hmain
          rw [if_neg (by simpa using hrx)] at hmain
          refine ⟨yn, hgy0, hgx', hgy', hgb', ?_, ?_, f + 1, ?_⟩
          · intro e
            rw [hpar] at e
            exact Option.noConfusion e
          · intro p2 pn2 hp2 hgp2
            rw [hpar] at hp2
            injection hp2 with hp2
            subst hp2
            have hpn2 : pn = pn2 := by rw [hgp] at hgp2; exact Option.some.inj hgp2
            subst hpn2
            refine ⟨hroot8 p (Or.inr hlink), ?_, fun _ _ => hslotR p pn hlink hgp⟩
            intro he
            exact absurd he hpleft
          · rw [hroot8 p (Or.inr hlink), hroot]
            exact hmain

theorem rightRotate_wf {t : RBTree} {f : Nat} {vs : List (Nat × Int)}
    {y : Nat} {yn : Node} {x : Nat}
    (hv : visitAux t f none t.root = some vs)
    (hnd : (vs.map Prod.fst).Nodup)
    (hym : y ∈ vs.map Prod.fst)
    (hy : getN t y = some yn) (hyl : yn.left = some x) :
    ∃ xn, getN t x = some xn ∧
      getN (rightRotate t (some y)) y =
        some { yn with left := xn.right, parent := some x } ∧
      getN (rightRotate t (some y)) x =
        some { xn with right := some y, parent := yn.parent } ∧
      (∀ b bn, xn.right = some b → getN t b = some bn →
        getN (rightRotate t (some y)) b = some { bn with parent := some y }) ∧
      (yn.parent = none → (rightRotate t (some y)).root = some x) ∧
      (∀ p pn, yn.parent = some p → getN t p = some pn →
        (rightRotate t (some y)).root = t.root ∧
        (pn.left = some y →
          getN (rightRotate t (some y)) p = some { pn with left := some x }) ∧
        (pn.left ≠ some y → pn.right = some y →
          getN (rightRotate t (some y)) p = some { pn with right := some x })) ∧
      ∃ g, visitAux (rightRotate t (some y)) g none
        (rightRotate t (some y)).root = some vs := by
  obtain ⟨fy, pary, ly, hfy, hvy, hinf⟩ := visit_nest _ _ _ _ hv y hym
  have hndly : (ly.map Prod.fst).Nodup := hnd.sublist (hinf.sublist.map Prod.fst)
  cases fy with
  | zero => exact absurd hvy visitAux_zero_some
  | succ fy1 =>
    obtain ⟨n, LX, C, hgy0, hpy0, hLX, hC, hly⟩ := visitAux_succ_inv hvy
    have hny : yn = n := by rw [hy] at hgy0; exact Option.some.inj hgy0
    subst hny
    rw [hyl] at hLX
    cases fy1 with
    | zero => exact absurd hLX visitAux_zero_some
    | succ fy2 =>
      obtain ⟨xn, A, B, hgx0, hpx0, hA, hB, hlx⟩ := visitAux_succ_inv hLX
      subst hlx
      subst hly
      have hndn : ((A.map Prod.fst ++ x :: B.map Prod.fst) ++
          y :: C.map Prod.fst).Nodup := by
        simpa using hndly
      obtain ⟨hyAB, hyC, hndAB, hndC, hABCdisj⟩ := nodup_mid hndn
      obtain ⟨hxA, hxB, hndA, hndB, hAdisj⟩ := nodup_mid hndAB
      have hxy : x ≠ y := fun e => hyAB (by rw [← e]; simp)
      have hyB : y ∉ B.map Prod.fst := fun hm => hyAB (by simp [hm])
      have hbcell : ∀ b, xn.right = some b →
          ∃ bn, getN t b = some bn ∧ b ∈ B.map Prod.fst := by
        intro b hbl
        rw [hbl] at hB
        cases fy2 with
        | zero => exact absurd hB visitAux_zero_some
        | succ fy3 =>
          obtain ⟨bn, BL, BR, hgb, _, _, _, hBeq⟩ := visitAux_succ_inv hB
          subst hBeq
          exact ⟨bn, hgb, by simp⟩
      have hb : ∀ b, xn.right = some b → b ≠ y ∧ b ≠ x := by
        intro b hbl
        obtain ⟨_, _, hm⟩ := hbcell b hbl
        exact ⟨fun e => hyB (e ▸ hm), fun e => hxB (e ▸ hm)⟩
      rcases visit_parentLinkStrong _ _ _ _ hv hnd y yn hym hy with
        ⟨hjeq, hpar⟩ | ⟨p, pn, hpm, hgp, hside, hpar, hpy2⟩
      · -- y is the root of the whole tree
        have hlink : getLink t y = LinkRef.rootSlot := by
          simp [getLink, hy, hpar]
        have hread : readLink t (getLink t y) = some y := by
          rw [hlink]
          exact hjeq
        have htouch : ∀ p', getLink t y = LinkRef.leftOf p' ∨
            getLink t y = LinkRef.rightOf p' →
            p' ≠ y ∧ p' ≠ x ∧ ∀ b, xn.right = some b → p' ≠ b := by
          intro p' hp'
          rw [hlink] at hp'
          rcases hp' with h' | h' <;> exact absurd h' (by simp)
        obtain ⟨hgy', hgx', hgb', hfr4, _, _, hroot7, _⟩ :=
          rightRotate_cells hy hyl hgx0 hxy hb hread htouch
        have hframe : ∀ q, q ≠ y → q ≠ x → (∀ b, xn.right = some b → q ≠ b) →
            (∀ p2, yn.parent = some p2 → q ≠ p2) →
            getN (rightRotate t (some y)) q = getN t q := by
          intro q hqy hqx hqb _
          refine hfr4 q hqy hqx hqb ?_
          intro p' hp'
          rw [hlink] at hp'
          rcases hp' with h' | h' <;> exact absurd h' (by simp)
        have hpcell : ∀ p2 pn2, yn.parent = some p2 → getN t p2 = some pn2 →
            (pn2.left = some y → getN (rightRotate t (some y)) p2 =
              some { pn2 with left := some x }) ∧
            (pn2.left ≠ some y → pn2.right = some y →
              getN (rightRotate t (some y)) p2 =
              some { pn2 with right := some x }) := by
          intro p2 pn2 hp2 _
          rw [hpar] at hp2
          exact absurd hp2 (by simp)
        have hmain := rightRotate_visit_path hy hyl hgx0 hframe hpcell f none
          t.root vs hv hnd hym (fun _ => by rw [hpar]; exact hjeq)
        simp only [hjeq, if_pos] at hmain
        refine ⟨xn, hgx0, hgy', hgx', hgb', fun _ => hroot7 hlink, ?_, f + 1, ?_⟩
        · intro p2 pn2 hp2 _
          rw [hpar] at hp2
          exact Option.noConfusion hp2
        · rw [hroot7 hlink]
          exact hmain
      · -- y has a parent p whose child slot owns it
        have hply : p ∉ ((A ++ [(x, xn.key)] ++ B) ++ [(y, yn.key)] ++
            C).map Prod.fst := by
          intro hm
          simp only [List.map_append, List.map_cons, List.map_nil, List.mem_append,
            List.mem_cons, List.mem_singleton, List.not_mem_nil, or_false] at hm
          rcases hm with (hm | hm) | hm
          · have hm2 : p ∈ (A ++ [(x, xn.key)] ++ B).map Prod.fst := by
              simp only [List.map_append, List.map_cons, List.map_nil, List.mem_append,
                List.mem_cons, List.mem_singleton, List.not_mem_nil, or_false]
              tauto
            have hyLX : y ∈ (A ++ [(x, xn.key)] ++ B).map Prod.fst := by
              rcases hside with hs | hs
              · exact visit_childMem_left _ _ _ _ hLX p pn y hm2 hgp hs
              · exact visit_childMem_right _ _ _ _ hLX p pn y hm2 hgp hs
            refine hyAB ?_
            simp only [List.map_append, List.map_cons, List.map_nil, List.mem_append,
              List.mem_cons, List.mem_singleton, List.not_mem_nil, or_false] at hyLX ⊢
            tauto
          · exact hpy2 hm
          · have hyc2 : y ∈ C.map Prod.fst := by
              rcases hside with hs | hs
              · exact visit_childMem_left _ _ _ _ hC p pn y hm hgp hs
              · exact visit_childMem_right _ _ _ _ hC p pn y hm hgp hs
            exact hyC hyc2
        have hpx2 : p ≠ x := fun e => hply (by rw [e]; simp)
        have hpb : ∀ b, xn.right = some b → p ≠ b := by
          intro b hbl e
          obtain ⟨_, _, hm⟩ := hbcell b hbl
          exact hply (by rw [e]; simp [hm])
        have hcond : t.root = some y → False := by
          intro e
          rw [e] at hv
          cases f with
          | zero => exact absurd hv visitAux_zero_some
          | succ f9 =>
            obtain ⟨n2, _, _, hg2, hp2, _, _, _⟩ := visitAux_succ_inv hv
            have hn2 : n2 = yn := by rw [hy] at hg2; exact (Option.some.inj hg2).symm
            subst hn2
            rw [hpar] at hp2
            exact Option.noConfusion hp2
        have hrootsome : ∃ r, t.root = some r ∧ r ≠ y := by
          cases hroot : t.root with
          | none =>
            rw [hroot, visitAux_none] at hv
            have : vs = [] := (Option.some.inj hv).symm
            subst this
            simp at hym
          | some r =>
            refine ⟨r, rfl, ?_⟩
            intro e
            subst e
            exact hcond hroot
        obtain ⟨r, hroot, hry⟩ := hrootsome
        by_cases hpleft : pn.left = some y
        · have hlink : getLink t y = LinkRef.leftOf p := by
            simp [getLink, hy, hpar, hgp, hpleft]
          have hread : readLink t (getLink t y) = some y := by
            rw [hlink, readLink_leftOf_of hgp]
            exact hpleft
          have htouch : ∀ p', getLink t y = LinkRef.leftOf p' ∨
              getLink t y = LinkRef.rightOf p' →
              p' ≠ y ∧ p' ≠ x ∧ ∀ b, xn.right = some b → p' ≠ b := by
            intro p' hp'
            rw [hlink] at hp'
            rcases hp' with h' | h'
            · injection h' with h'
              subst h'
              exact ⟨hpy2, hpx2, hpb⟩
            · exact absurd h' (by simp)
          obtain ⟨hgy', hgx', hgb', hfr4, hslotL, _, _, hroot8⟩ :=
            rightRotate_cells hy hyl hgx0 hxy hb hread htouch
          have hframe : ∀ q, q ≠ y → q ≠ x → (∀ b, xn.right = some b → q ≠ b) →
              (∀ p2, yn.parent = some p2 → q ≠ p2) →
              getN (rightRotate t (some y)) q = getN t q := by
            intro q hqy hqx hqb hqp
            refine hfr4 q hqy hqx hqb ?_
            intro p' hp'
            rw [hlink] at hp'
            rcases hp' with h' | h'
            · injection h' with h'
              subst h'
              exact hqp p hpar
            · exact absurd h' (by simp)
          have hpcell : ∀ p2 pn2, yn.parent = some p2 → getN t p2 = some pn2 →
              (pn2.left = some y → getN (rightRotate t (some y)) p2 =
                some { pn2 with left := some x }) ∧
              (pn2.left ≠ some y → pn2.right = some y →
                getN (rightRotate t (some y)) p2 =
                some { pn2 with right := some x }) := by
            intro p2 pn2 hp2 hgp2
            rw [hpar] at hp2
            injection hp2 with hp2
            subst hp2
            have hpn2 : pn = pn2 := by rw [hgp] at hgp2; exact Option.some.inj hgp2
            subst hpn2
            constructor
            · intro _
              exact hslotL p pn hlink hgp
            · intro hne _
              exact absurd hpleft hne
          have hmain := rightRotate_visit_path hy hyl hgx0 hframe hpcell f none
            t.root vs hv hnd hym (fun e => absurd e (fun e2 => hcond e2))
          rw [hroot] at hmain
          rw [if_neg (by simpa using hry)] at hmain
          refine ⟨xn, hgx0, hgy', hgx', hgb', ?_, ?_, f + 1, ?_⟩
          · intro e
            rw [hpar] at e
            exact Option.noConfusion e
          · intro p2 pn2 hp2 hgp2
            rw [hpar] at hp2
            injection hp2 with hp2
            subst hp2
            have hpn2 : pn = pn2 := by rw [hgp] at hgp2; exact Option.some.inj hgp2
            subst hpn2
            refine ⟨hroot8 p (Or.inl hlink), fun _ => hslotL p pn hlink hgp, ?_⟩
            intro hne _
            exact absurd hpleft hne
          · rw [hroot8 p (Or.inl hlink), hroot]
            exact hmain
        · have hpright : pn.right = some y := hside.resolve_left hpleft
          have hlink : getLink t y = LinkRef.rightOf p := by
            simp [getLink, hy, hpar, hgp, hpleft]
          have hread : readLink t (getLink t y) = some y := by
            rw [hlink, readLink_rightOf_of hgp]
            exact hpright
          have htouch : ∀ p', getLink t y = LinkRef.leftOf p' ∨
              getLink t y = LinkRef.rightOf p' →
              p' ≠ y ∧ p' ≠ x ∧ ∀ b, xn.right = some b → p' ≠ b := by
            intro p' hp'
            rw [hlink] at hp'
            rcases hp' with h' | h'
            · exact absurd h' (by simp)
            · injection h' with h'
              subst h'
              exact ⟨hpy2, hpx2, hpb⟩
          obtain ⟨hgy', hgx', hgb', hfr4, _, hslotR, _, hroot8⟩ :=
            rightRotate_cells hy hyl hgx0 hxy hb hread htouch
          have hframe : ∀ q, q ≠ y → q ≠ x → (∀ b, xn.right = some b → q ≠ b) →
              (∀ p2, yn.parent = some p2 → q ≠ p2) →
              getN (rightRotate t (some y)) q = getN t q := by
            intro q hqy hqx hqb hqp
            refine hfr4 q hqy hqx hqb ?_
            intro p' hp'
            rw [hlink] at hp'
            rcases hp' with h' | h'
            · exact absurd h' (by simp)
            · injection h' with h'
              subst h'
              exact hqp p hpar
          have hpcell : ∀ p2 pn2, yn.parent = some p2 → getN t p2 = some pn2 →
              (pn2.left = some y → getN (rightRotate t (some y)) p2 =
                some { pn2 with left := some x }) ∧
              (pn2.left ≠ some y → pn2.right = some y →
                getN (rightRotate t (some y)) p2 =
                some { pn2 with right := some x }) := by
            intro p2 pn2 hp2 hgp2
            rw [hpar] at hp2
            injection hp2 with hp2
            subst hp2
            have hpn2 : pn = pn2 := by rw [hgp] at hgp2; exact Option.some.inj hgp2
            subst hpn2
            constructor
            · intro he
              exact absurd he hpleft
            · intro _ _
              exact hslotR p pn hlink hgp
          have hmain := rightRotate_visit_path hy hyl hgx0 hframe hpcell f none
            t.root vs hv hnd hym (fun e => absurd e (fun e2 => hcond e2))
          rw [hroot] at hmain
          rw [if_neg (by simpa using hry)] at hmain
          refine ⟨xn, hgx0, hgy', hgx', hgb', ?_, ?_, f + 1, ?_⟩
          · intro e
            rw [hpar] at e
            exact Option.noConfusion e
          · intro p2 pn2 hp2 hgp2
            rw [hpar] at hp2
            injection hp2 with hp2
            subst hp2
            have hpn2 : pn = pn2 := by rw [hgp] at hgp2; exact Option.some.inj hgp2
            subst hpn2
            refine ⟨hroot8 p (Or.inr hlink), ?_, fun _ _ => hslotR p pn hlink hgp⟩
            intro he
            exact absurd he hpleft
          · rw [hroot8 p (Or.inr hlink), hroot]
            exact hmain

/-- C9: `leftRotate` is a no-op when the pivot pointer is null, the pivot
index is dangling, or the pivot's right child is null, and `rightRotate` is
a no-op in the mirror cases (null pivot, dangling index, null left child).
Otherwise, on any tree whose link structure admits a full in-order visit
with distinct node indices, each rotation is a local restructuring: the
pivot's cell, the promoted child's cell, the transferred middle subtree's
parent pointer, and the link from the original parent (or the root slot)
are rewired exactly as the source prescribes, and the in-order (index, key)
sequence of the whole tree - hence the BST key order - is unchanged. -/
theorem C9_rotations (t : RBTree) :
    (leftRotate t none = t) ∧
    (rightRotate t none = t) ∧
    (∀ x, getN t x = none → leftRotate t (some x) = t) ∧
    (∀ y, getN t y = none → rightRotate t (some y) = t) ∧
    (∀ x xn, getN t x = some xn → xn.right = none → leftRotate t (some x) = t) ∧
    (∀ y yn, getN t y = some yn → yn.left = none → rightRotate t (some y) = t) ∧
    (∀ f vs x xn y, visitAux t f none t.root = some vs →
      (vs.map Prod.fst).Nodup → x ∈ vs.map Prod.fst →
      getN t x = some xn → xn.right = some y →
      ∃ yn, getN t y = some yn ∧
        getN (leftRotate t (some x)) x =
          some { xn with right := yn.left, parent := some y } ∧
        getN (leftRotate t (some x)) y =
          some { yn with left := some x, parent := xn.parent } ∧
        (∀ b bn, yn.left = some b → getN t b = some bn →
          getN (leftRotate t (some x)) b = some { bn with parent := some x }) ∧
        (xn.parent = none → (leftRotate t (some x)).root = some y) ∧
        (∀ p pn, xn.parent = some p → getN t p = some pn →
          (leftRotate t (some x)).root = t.root ∧
          (pn.left = some x →
            getN (leftRotate t (some x)) p = some { pn with left := some y }) ∧
          (pn.left ≠ some x → pn.right = some x →
            getN (leftRotate t (some x)) p = some { pn with right := some y })) ∧
        ∃ g, visitAux (leftRotate t (some x)) g none
          (leftRotate t (some x)).root = some vs) ∧
    (∀ f vs y yn x, visitAux t f none t.root = some vs →
      (vs.map Prod.fst).Nodup → y ∈ vs.map Prod.fst →
      getN t y = some yn → yn.left = some x →
      ∃ xn, getN t x = some xn ∧
        getN (rightRotate t (some y)) y =
          some { yn with left := xn.right, parent := some x } ∧
        getN (rightRotate t (some y)) x =
          some { xn with right := some y, parent := yn.parent } ∧
        (∀ b bn, xn.right = some b → getN t b = some bn →
          getN (rightRotate t (some y)) b = some { bn with parent := some y }) ∧
        (yn.parent = none → (rightRotate t (some y)).root = some x) ∧
        (∀ p pn, yn.parent = some p → getN t p = some pn →
          (rightRotate t (some y)).root = t.root ∧
          (pn.left = some y →
            getN (rightRotate t (some y)) p = some { pn with left := some x }) ∧
          (pn.left ≠ some y → pn.right = some y →
            getN (rightRotate t (some y)) p = some { pn with right := some x })) ∧
        ∃ g, visitAux (rightRotate t (some y)) g none
          (rightRotate t (some y)).root = some vs) := by
  refine ⟨rfl, rfl, ?_, ?_, ?_, ?_, ?_, ?_⟩
  · intro x h
    simp [leftRotate, h]
  · intro y h
    simp [rightRotate, h]
  · intro x xn hx hr
    simp [leftRotate, hx, hr]
  · intro y yn hy hl
    simp [rightRotate, hy, hl]
  · intro f vs x xn y hv hnd hxm hx hxr
    exact leftRotate_wf hv hnd hxm hx hxr
  · intro f vs y yn x hv hnd hym hy hyl
    exact rightRotate_wf hv hnd hym hy hyl

/-- Witness for C9 at the map {1, 2, 3}: rotating the root (index 1, key 2)
left or right preserves the full in-order sequence [(0, 1), (1, 2), (2, 3)]. -/
theorem C9_rotations_witness :
    (∃ g, visitAux (leftRotate tEx123 (some 1)) g none
      (leftRotate tEx123 (some 1)).root = some [(0, 1), (1, 2), (2, 3)]) ∧
    (∃ g, visitAux (rightRotate tEx123 (some 1)) g none
      (rightRotate tEx123 (some 1)).root = some [(0, 1), (1, 2), (2, 3)]) := by
  constructor
  · obtain ⟨yn, hyn, rest⟩ :=
      (C9_rotations tEx123).2.2.2.2.2.2.1 5 [(0, 1), (1, 2), (2, 3)] 1
        ⟨2, 2, Color.BLACK, some 0, some 2, none⟩ 2
        (by decide) (by decide) (by decide) (by decide) (by decide)
    exact rest.2.2.2.2.2
  · obtain ⟨xn, hxn, rest⟩ :=
      (C9_rotations tEx123).2.2.2.2.2.2.2 5 [(0, 1), (1, 2), (2, 3)] 1
        ⟨2, 2, Color.BLACK, some 0, some 2, none⟩ 0
        (by decide) (by decide) (by decide) (by decide) (by decide)
    exact rest.2.2.2.2.2
